import Mathlib

/-!
Verification of the AsciiDoc normalization pipeline of
`scripts/rhoso_adoc_docs_to_text.py` (openstack-lightspeed/rag-content).

Python strings are modelled as `List Char`; every Python function under
scrutiny is translated into an executable Lean definition operating on that
representation.  Regular-expression work in the source is translated into
explicit character scanners that implement the same matching semantics
(leftmost match, alternative priority, greedy/lazy quantifiers) for the
concrete patterns the source uses.
-/

namespace Rag

/-- Python strings, modelled as lists of characters. -/
abbrev Str := List Char

/-- Coerce a Lean string literal to the model. -/
def str (s : String) : Str := s.data

/-- Python's `\s` class (`str.strip` uses the same set for ASCII input). -/
def isPyWS (c : Char) : Bool :=
  c == ' ' || c == '\t' || c == '\n' || c == '\r' || c == '\x0b' || c == '\x0c'

/-- Python's `\w` class restricted to ASCII (the corpus is ASCII). -/
def isPyWord (c : Char) : Bool := c.isAlphanum || c == '_'

/-- `str.lstrip()`. -/
def pyLStrip (s : Str) : Str := s.dropWhile isPyWS

/-- `str.rstrip()`. -/
def pyRStrip (s : Str) : Str := (s.reverse.dropWhile isPyWS).reverse

/-- `str.strip()`. -/
def pyStrip (s : Str) : Str := pyRStrip (pyLStrip s)

/-- `content.split("\n")`. -/
def splitNL : Str → List Str
  | [] => [[]]
  | c :: rest =>
    if c = '\n' then [] :: splitNL rest
    else
      match splitNL rest with
      | [] => [[c]]
      | l :: ls => (c :: l) :: ls

/-- `"\n".join(lines)`. -/
def joinNL : List Str → Str
  | [] => []
  | [l] => l
  | l :: ls => l ++ '\n' :: joinNL ls

/-- `line.startswith(p)` (pattern is the first argument). -/
def startsW : Str → Str → Bool
  | [], _ => true
  | _ :: _, [] => false
  | p :: ps, c :: cs => p == c && startsW ps cs

/-- `line.endswith(p)`. -/
def endsW (p s : Str) : Bool := startsW p.reverse s.reverse

/-- `sep.join(parts)` for an arbitrary separator. -/
def joinSep (sep : Str) : List Str → Str
  | [] => []
  | [l] => l
  | l :: ls => l ++ sep ++ joinSep sep ls

/-- Decimal rendering of a natural number (`str(n)` / f-string interpolation). -/
def toDecAux : Nat → Nat → Str
  | 0, _ => []
  | fuel + 1, n =>
    if n < 10 then [Char.ofNat ('0'.toNat + n)]
    else toDecAux fuel (n / 10) ++ [Char.ofNat ('0'.toNat + n % 10)]

/-- Decimal rendering of a natural number. -/
def toDec (n : Nat) : Str := toDecAux (n + 1) n

/-- `int(digit_string)`: fold decimal digits into a number. -/
def parseNat (ds : Str) : Nat :=
  ds.foldl (fun n c => n * 10 + (c.toNat - '0'.toNat)) 0

/-! ### Table grid model (`Cell`, `SpanPlaceholder`, `AsciiDocTableParser`) -/

/-- `Cell` of the table parser: content, spans, format specifier, source line. -/
structure Cell where
  content : Str := []
  colspan : Nat := 1
  rowspan : Nat := 1
  format_spec : Str := []
  source_line : Nat := 0
deriving DecidableEq, Repr

/-- A grid position: unoccupied (`None` in the source), the anchor of a cell, or
a `SpanPlaceholder` back-referencing the owning cell.  The `id` tags model
Python object identity (index of the cell in the extraction order). -/
inductive Slot
  | free
  | cellAt (id : Nat) (c : Cell)
  | spanOf (id : Nat) (c : Cell)
deriving DecidableEq, Repr

/-- Match of `\s*\d+(?:\.\d+)?\+\|` (first alternative of the cell boundary
pattern) at the head of `s`; returns the matched length.  The quantifiers are
deterministic here: every char class is disjoint from its successor, so the
greedy scan needs no backtracking. -/
def matchSpanBdry (s : Str) : Option Nat :=
  let w := s.takeWhile isPyWS
  let r1 := s.dropWhile isPyWS
  let d := r1.takeWhile Char.isDigit
  let r2 := r1.drop d.length
  if d.isEmpty then none
  else
    match r2 with
    | '.' :: r3 =>
      let d2 := r3.takeWhile Char.isDigit
      match r3.drop d2.length with
      | '+' :: '|' :: _ =>
        if d2.isEmpty then none else some (w.length + d.length + 1 + d2.length + 2)
      | _ => none
    | '+' :: '|' :: _ => some (w.length + d.length + 2)
    | _ => none

/-- `re.finditer(r"(\s*\d+(?:\.\d+)?\+\||(?<!\d)\|)", s)`: start offsets of the
non-overlapping leftmost matches.  `prev` carries the character before the
current position for the `(?<!\d)` lookbehind. -/
def boundaryStartsAux : Nat → Str → Nat → Option Char → List Nat
  | 0, _, _, _ => []
  | _ + 1, [], _, _ => []
  | fuel + 1, s@(c :: rest), i, prev =>
    match matchSpanBdry s with
    | some len => i :: boundaryStartsAux fuel (s.drop len) (i + len) (some '|')
    | none =>
      if c == '|' && (match prev with | some p => !p.isDigit | none => true) then
        i :: boundaryStartsAux fuel rest (i + 1) (some '|')
      else
        boundaryStartsAux fuel rest (i + 1) (some c)

/-- Start offsets of all cell-boundary matches in a stripped table line. -/
def boundaryStarts (s : Str) : List Nat := boundaryStartsAux s.length s 0 none

/-- Match of `(\d+)\.(\d+)\+\|?` at the head: `(colspan, rowspan, rest)`. -/
def matchSpanSpec (s : Str) : Option (Nat × Nat × Str) :=
  let d1 := s.takeWhile Char.isDigit
  if d1.isEmpty then none
  else
    match s.drop d1.length with
    | '.' :: r2 =>
      let d2 := r2.takeWhile Char.isDigit
      if d2.isEmpty then none
      else
        match r2.drop d2.length with
        | '+' :: '|' :: r3 => some (parseNat d1, parseNat d2, r3)
        | '+' :: r3 => some (parseNat d1, parseNat d2, r3)
        | _ => none
    | _ => none

/-- Match of `(\d+)\+\|?` at the head: `(colspan, rest)`. -/
def matchColspanSpec (s : Str) : Option (Nat × Str) :=
  let d := s.takeWhile Char.isDigit
  if d.isEmpty then none
  else
    match s.drop d.length with
    | '+' :: '|' :: r => some (parseNat d, r)
    | '+' :: r => some (parseNat d, r)
    | _ => none

/-- `# Skip the leading |` of the segment parse. -/
def dropLeadPipe (s : Str) : Str :=
  match s with
  | '|' :: r => r
  | _ => s

/-- The span-specification step of the segment parse: the
`(\d+)\.(\d+)\+\|?` check followed by the `(\d+)\+\|?` check;
`(colspan, rowspan, rest)`. -/
def spanStep (s : Str) : Nat × Nat × Str :=
  match matchSpanSpec s with
  | some (cs, rs, r) => (cs, rs, r)
  | none =>
    match matchColspanSpec s with
    | some (cs, r) => (cs, 1, r)
    | none => (1, 1, s)

/-- The format-specifier step of the segment parse (`([a-z])\|`):
`(format_spec, rest)`. -/
def fmtStep (s : Str) : Str × Str :=
  match s with
  | c :: '|' :: r => if c.isLower then ([c], r) else ([], s)
  | _ => ([], s)

/-- Parse one text segment between two cell boundaries into a `Cell`
(`extract_cells_from_lines` body); `none` when the segment is skipped. -/
def parseCellSegment (seg : Str) (line_no : Nat) : Option Cell :=
  let ct0 := pyStrip seg
  if ct0.isEmpty then none
  else
    let csr := spanStep (dropLeadPipe ct0)
    let fr := fmtStep csr.2.2
    let content := pyStrip fr.2
    if content.isEmpty && csr.1 == 1 && csr.2.1 == 1 && fr.1.isEmpty then none
    else some ⟨content, csr.1, csr.2.1, fr.1, line_no⟩

/-- The per-line body of `extract_cells_from_lines`. -/
def extractLineCells (line_no : Nat) (line : Str) : List Cell :=
  let stripped := pyStrip line
  if stripped.isEmpty || stripped = str "|===" || stripped = str "|====" then []
  else
    let bs := boundaryStarts stripped ++ [stripped.length]
    (bs.zip bs.tail).filterMap fun q =>
      parseCellSegment ((stripped.drop q.1).take (q.2 - q.1)) line_no

/-- `AsciiDocTableParser.extract_cells_from_lines`. -/
def extract_cells_from_lines (table_lines : List Str) : List Cell :=
  (table_lines.enum.map fun p => extractLineCells p.1 p.2).flatten

/-- Read grid slot `(r, c)`; out-of-range reads as `free` (never happens in the
translated control flow). -/
def getSlot (g : List (List Slot)) (r c : Nat) : Slot :=
  (g.getD r []).getD c Slot.free

/-- Write grid slot `(r, c)`. -/
def setGrid (g : List (List Slot)) (r c : Nat) (v : Slot) : List (List Slot) :=
  g.set r ((g.getD r []).set c v)

/-- Inner scan `while col < C and grid[row][col] is not None: col += 1`. -/
def advanceColAux : Nat → List (List Slot) → Nat → Nat → Nat → Nat
  | 0, _, _, _, col => col
  | fuel + 1, g, C, row, col =>
    if col < C ∧ getSlot g row col ≠ Slot.free then advanceColAux fuel g C row (col + 1)
    else col

/-- Outer scan of `build_grid` locating the next unoccupied position. -/
def findPosAux : Nat → List (List Slot) → Nat → Nat → Nat → Nat × Nat
  | 0, _, _, row, col => (row, col)
  | fuel + 1, g, C, row, col =>
    if row < g.length then
      let c2 := advanceColAux (C + 1) g C row col
      if c2 < C then (row, c2)
      else findPosAux fuel g C (row + 1) 0
    else (row, col)

/-- Locate the next unoccupied grid position starting the scan at `(row, col)`. -/
def findPos (g : List (List Slot)) (C row col : Nat) : Nat × Nat :=
  findPosAux (g.length + 1) g C row col

/-- Mark the anchor and the span placeholders of `cell` placed at `(row, col)`:
the footprint is clipped to `min(row+rowspan, len(grid))` rows and
`min(col+colspan, expected_cols)` columns, exactly as the source does. -/
def stampCell (g : List (List Slot)) (C id : Nat) (cell : Cell) (row col : Nat) :
    List (List Slot) :=
  (List.range' row (min (row + cell.rowspan) g.length - row)).foldl
    (fun g1 r =>
      (List.range' col (min (col + cell.colspan) C - col)).foldl
        (fun g2 c =>
          if r = row ∧ c = col then setGrid g2 r c (.cellAt id cell)
          else setGrid g2 r c (.spanOf id cell)) g1)
    g

/-- The placement loop of `build_grid` (`for cell in cells`), including the
early `break` when the scan falls off the bottom of the preallocated grid. -/
def placeCells (C : Nat) : List (Nat × Cell) → List (List Slot) → Nat → Nat →
    List (List Slot)
  | [], g, _, _ => g
  | (id, cell) :: rest, g, row, col =>
    let rc := findPos g C row col
    if rc.1 ≥ g.length then g
    else
      let g1 := stampCell g C id cell rc.1 rc.2
      let col2 := rc.2 + cell.colspan
      if col2 ≥ C then placeCells C rest g1 (rc.1 + 1) 0
      else placeCells C rest g1 rc.1 col2

/-- `while self.grid and all(cell is None for cell in self.grid[-1]): pop()`. -/
def trimTrailing (g : List (List Slot)) : List (List Slot) :=
  (g.reverse.dropWhile (fun row => row.all (fun s => decide (s = Slot.free)))).reverse

/-- `AsciiDocTableParser.build_grid`: preallocate `len(cells) + 10` rows of
`expected_cols` unoccupied slots, place every cell, trim trailing empty rows. -/
def build_grid (cells : List Cell) (expected_cols : Nat) : List (List Slot) :=
  let g0 := List.replicate (cells.length + 10) (List.replicate expected_cols Slot.free)
  trimTrailing (placeCells expected_cols cells.enum g0 0 0)

/-- `AsciiDocTableParser.validate_and_fix_grid`: every remaining unoccupied
position becomes a synthetic empty `Cell` and is reported as a fix.  Synthetic
cells get fresh identity tags `idBase + r*C + c`. -/
def validate_and_fix_grid (g : List (List Slot)) (idBase C : Nat) :
    List (List Slot) × List Str :=
  let rows := g.enum.map fun p =>
    let cols := p.2.enum.map fun q =>
      match q.2 with
      | Slot.free =>
        (Slot.cellAt (idBase + p.1 * C + q.1) { content := [] },
         [str "Row " ++ toDec (p.1 + 1) ++ str ": Added empty cell at column " ++
          toDec (q.1 + 1)])
      | s => (s, ([] : List Str))
    (cols.map Prod.fst, (cols.map Prod.snd).flatten)
  (rows.map Prod.fst, (rows.map Prod.snd).flatten)

/-- Serialization of one cell in `reconstruct_table`. -/
def cellSpec (cell : Cell) : Str :=
  let s1 := ['|'] ++
    (if cell.colspan > 1 && cell.rowspan > 1 then
       toDec cell.colspan ++ ['.'] ++ toDec cell.rowspan ++ ['+']
     else if cell.colspan > 1 then toDec cell.colspan ++ ['+']
     else if cell.rowspan > 1 then str "1." ++ toDec cell.rowspan ++ ['+']
     else [])
  let s2 := s1 ++ (if cell.colspan > 1 || cell.rowspan > 1 then ['|'] else [])
  let s3 := s2 ++ (if !cell.format_spec.isEmpty then cell.format_spec ++ ['|'] else [])
  s3 ++ (if !cell.content.isEmpty then cell.content
         else if cell.format_spec.isEmpty then [' '] else [])

/-- `AsciiDocTableParser.reconstruct_table`: serialize the grid row by row,
skipping span placeholders; rows with no parts produce no line. -/
def reconstruct_table (g : List (List Slot)) : List Str :=
  let body := g.filterMap fun row =>
    let parts := row.filterMap fun s =>
      match s with
      | Slot.spanOf _ _ => none
      | Slot.free => some (['|'] : Str)
      | Slot.cellAt _ c => some (cellSpec c)
    if parts.isEmpty then none else some (joinSep [' '] parts)
  [str "|==="] ++ body ++ [str "|==="]

/-- `AsciiDocTableParser.parse_and_fix_table` with a fresh parser of
`expected_cols` columns.  The `try/except` of the source is dead in the model:
every translated operation is total. -/
def parse_and_fix_table (expected_cols : Nat) (table_lines : List Str) :
    List Str × List Str :=
  let cells := extract_cells_from_lines table_lines
  if cells.isEmpty then (table_lines, [])
  else
    let g := build_grid cells expected_cols
    let gf := validate_and_fix_grid g cells.length expected_cols
    (reconstruct_table gf.1, gf.2)

/-! ### Callout renumbering (`preprocess_adoc_callout_numbering`) -/

/-- `re.finditer(r"<(\d+)>", s)`: `(start, end, value)` of every match. -/
def calloutMatchesAux : Nat → Str → Nat → List (Nat × Nat × Nat)
  | 0, _, _ => []
  | _ + 1, [], _ => []
  | fuel + 1, c :: rest, i =>
    if c = '<' then
      let ds := rest.takeWhile Char.isDigit
      if !ds.isEmpty then
        match rest.drop ds.length with
        | '>' :: rest2 =>
          (i, i + ds.length + 2, parseNat ds) :: calloutMatchesAux fuel rest2 (i + ds.length + 2)
        | _ => calloutMatchesAux fuel rest (i + 1)
      else calloutMatchesAux fuel rest (i + 1)
    else calloutMatchesAux fuel rest (i + 1)

/-- All matches of `<(\d+)>` in a line. -/
def calloutMatches (s : Str) : List (Nat × Nat × Nat) := calloutMatchesAux s.length s 0

/-- The numbers of the callout markers of a line, in order of appearance. -/
def calloutNums (s : Str) : List Nat := (calloutMatches s).map (fun m => m.2.2)

/-- `s[:st] + rep + s[en:]`. -/
def spliceAt (s : Str) (st en : Nat) (rep : Str) : Str := s.take st ++ rep ++ s.drop en

/-- The in-block rewrite of the second pass: iterate over the `<N>` matches in
reverse and splice in the renumbered marker for every match whose
`(block_index, N)` is a key of the renumber map. -/
def rewriteBlockLine (lookup : Nat × Nat → Option Nat) (bi : Nat) (line : Str) : Str :=
  (calloutMatches line).foldr
    (fun m acc =>
      match lookup (bi, m.2.2) with
      | some newNum => spliceAt acc m.1 m.2.1 ('<' :: toDec newNum ++ ['>'])
      | none => acc)
    line

/-- Match of `^<(\d+)>\s+` (callout-definition line): `(value, rest-after-ws)`. -/
def matchCalloutDef (line : Str) : Option (Nat × Str) :=
  match line with
  | '<' :: rest =>
    let ds := rest.takeWhile Char.isDigit
    if ds.isEmpty then none
    else
      match rest.drop ds.length with
      | '>' :: rest2 =>
        let ws := rest2.takeWhile isPyWS
        if ws.isEmpty then none else some (parseNat ds, rest2.drop ws.length)
      | _ => none
  | _ => none

/-- State of the first pass of `preprocess_adoc_callout_numbering`. -/
structure NumPass1State where
  renumber_map : List ((Nat × Nat) × Nat) := []
  block_callouts : List (Nat × List Nat) := []
  block_index : Nat := 0
  in_block : Bool := false
  current : List Nat := []
deriving Repr

/-- One line of the first pass: track block delimiters, collect the distinct
callout numbers of each block in order of first appearance, and close a block
by extending the renumber map. -/
def numPass1Step (st : NumPass1State) (line : Str) : NumPass1State :=
  if pyStrip line = str "----" then
    if !st.in_block then
      { st with in_block := true, current := [], block_index := st.block_index + 1 }
    else
      { st with
        in_block := false,
        renumber_map := st.renumber_map ++
          st.current.enum.map (fun p => ((st.block_index, p.2), p.1 + 1)),
        block_callouts := st.block_callouts ++
          (if st.current.isEmpty then [] else [(st.block_index, st.current)]) }
  else if st.in_block then
    { st with
      current :=
        (calloutNums line).foldl (fun acc n => if n ∈ acc then acc else acc ++ [n])
          st.current }
  else st

/-- State of the second pass of `preprocess_adoc_callout_numbering`.
`current = []` encodes Python's `current_definition_callouts == []` (and then
`current_block` is never read, mirroring `current_definition_block = None`). -/
structure NumPass2State where
  new_lines : List Str := []
  in_block : Bool := false
  block_index : Nat := 0
  queue : List (Nat × List Nat) := []
  current_block : Nat := 0
  current : List Nat := []
  def_idx : Nat := 0
deriving Repr

/-- One line of the second pass: renumber markers inside blocks, and renumber
definition lines matched positionally against the queued per-block callout
lists. -/
def numPass2Step (rmap : List ((Nat × Nat) × Nat)) (st : NumPass2State) (line : Str) :
    NumPass2State :=
  if pyStrip line = str "----" then
    if !st.in_block then
      { st with
        in_block := true, block_index := st.block_index + 1,
        new_lines := st.new_lines ++ [line] }
    else
      { st with in_block := false, new_lines := st.new_lines ++ [line] }
  else if st.in_block then
    { st with
        new_lines := st.new_lines ++
        [rewriteBlockLine (fun k => rmap.lookup k) st.block_index line] }
  else
    match matchCalloutDef line with
    | some (orig, rest) =>
      let popped :=
        if st.current = [] ∧ st.queue ≠ [] then
          match st.queue with
          | (b, cs) :: qrest => (b, cs, 0, qrest)
          | [] => (st.current_block, st.current, st.def_idx, st.queue)
        else (st.current_block, st.current, st.def_idx, st.queue)
      match popped with
      | (cb, cur, di, q) =>
        if cur ≠ [] ∧ di < cur.length ∧ orig = cur.getD di 0 then
          let newNum := ((rmap.lookup (cb, orig)).getD 0)
          let line2 := '<' :: toDec newNum ++ str "> " ++ rest
          if di + 1 ≥ cur.length then
            { st with
              new_lines := st.new_lines ++ [line2], queue := q,
              current := [], current_block := 0, def_idx := 0 }
          else
            { st with
              new_lines := st.new_lines ++ [line2], queue := q,
              current := cur, current_block := cb, def_idx := di + 1 }
        else
          { st with
            new_lines := st.new_lines ++ [line], queue := q,
            current := cur, current_block := cb, def_idx := di }
    | none => { st with new_lines := st.new_lines ++ [line] }

/-- `preprocess_adoc_callout_numbering` (content transformation and fixes). -/
def preprocess_adoc_callout_numbering (content : Str) : Str × List Str :=
  let lines := splitNL content
  let st1 := lines.foldl numPass1Step {}
  if st1.renumber_map.isEmpty then (content, [])
  else
    let st2 := lines.foldl (numPass2Step st1.renumber_map) { queue := st1.block_callouts }
    let new_content := joinNL st2.new_lines
    let fixes :=
      if new_content ≠ content then
        [str "Renumbered " ++ toDec st1.renumber_map.length ++
         str " callout(s) with block-level scoping"]
      else []
    (new_content, fixes)

/-! ### Link-bracket escaping (`preprocess_adoc_link_brackets`) -/

/-- `s.find(sub)`: index of the first occurrence, if any. -/
def findSubAux : Nat → Str → Str → Nat → Option Nat
  | 0, _, _, _ => none
  | fuel + 1, s, sub, i =>
    if startsW sub s then some i
    else match s with
      | [] => none
      | _ :: r => findSubAux fuel r sub (i + 1)

/-- `sub in s` (substring test). -/
def hasSub (sub s : Str) : Bool := (findSubAux (s.length + 1) s sub 0).isSome

/-- `s.replace(old, new, 1)`: replace the first occurrence only. -/
def pyReplaceFirst (s old new : Str) : Str :=
  match findSubAux (s.length + 1) s old 0 with
  | some i => s.take i ++ new ++ s.drop (i + old.length)
  | none => s

/-- Match of `(link:[^\[]+\[)([^\]]*[\[\]][^\]]*?)(\])` at the head of `s`:
`(group0, group1, group2, rest-after-match)`.  Backtracking resolves to: group2
runs to the second `]` when one exists after the first, otherwise to the first
`]` provided a `[` precedes it. -/
def matchLinkAt (s : Str) : Option (Str × Str × Str × Str) :=
  if startsW (str "link:") s then
    let after := s.drop 5
    let a := after.takeWhile (fun c => decide (c ≠ '['))
    if a.isEmpty then none
    else
      match after.drop a.length with
      | '[' :: s1 =>
        let g1 := str "link:" ++ a ++ ['[']
        let x := s1.takeWhile (fun c => decide (c ≠ ']'))
        match s1.drop x.length with
        | ']' :: t1 =>
          let y := t1.takeWhile (fun c => decide (c ≠ ']'))
          match t1.drop y.length with
          | ']' :: t2 =>
            let g2 := x ++ ']' :: y
            some (g1 ++ g2 ++ [']'], g1, g2, t2)
          | _ =>
            if '[' ∈ x then some (g1 ++ x ++ [']'], g1, x, t1) else none
        | _ => none
      | _ => none
  else none

/-- `link_pattern.finditer(line)`: the `(group0, group1, group2)` triples of all
non-overlapping matches, left to right. -/
def linkMatchesAux : Nat → Str → List (Str × Str × Str)
  | 0, _ => []
  | _ + 1, [] => []
  | fuel + 1, s@(_ :: rest) =>
    match matchLinkAt s with
    | some (g0, g1, g2, after) => (g0, g1, g2) :: linkMatchesAux fuel after
    | none => linkMatchesAux fuel rest

/-- All matches of the link pattern in a line. -/
def linkMatches (s : Str) : List (Str × Str × Str) := linkMatchesAux s.length s

/-- Per-line body of `preprocess_adoc_link_brackets`: wrap each matched link
text with `pass:[...]` unless already wrapped, replacing the first occurrence
of the matched text in the evolving line. -/
def linkFixLine (i : Nat) (line : Str) : Str × List Str :=
  (linkMatches line).foldl
    (fun acc m =>
      let g0 := m.1
      let g1 := m.2.1
      let g2 := m.2.2
      if ('[' ∈ g2 ∨ ']' ∈ g2) ∧ ¬ startsW (str "pass:[") g2 then
        let newLink := g1 ++ str "pass:[" ++ g2 ++ str "]]"
        (pyReplaceFirst acc.1 g0 newLink,
         acc.2 ++ [str "Line " ++ toDec (i + 1) ++ str ": wrapped link text '" ++ g2 ++
                   str "' with pass:[]"])
      else acc)
    (line, [])

/-- `preprocess_adoc_link_brackets`. -/
def preprocess_adoc_link_brackets (content : Str) : Str × List Str :=
  let results := (splitNL content).enum.map fun p => linkFixLine p.1 p.2
  (joinNL (results.map Prod.fst), (results.map Prod.snd).flatten)

/-! ### Language detection heuristic (`detect_block_language`) -/

/-- Suffixes of the content at every line start (`^` positions under
`re.MULTILINE`). -/
def lineStarts (s : Str) : List Str := s :: lineStartsAux s
  where lineStartsAux : Str → List Str
    | [] => []
    | c :: r => (if c = '\n' then [r] else []) ++ lineStartsAux r

/-- `\s*$` from the current position: only whitespace up to an end of line. -/
def wsThenEOL : Str → Bool
  | [] => true
  | c :: r => if c = '\n' then true else if isPyWS c then wsThenEOL r else false

/-- class `[\w_-]` of the INI patterns. -/
def isIniCls (c : Char) : Bool := isPyWord c || c == '-'

/-- class `[\w:-]` of the XML tag patterns. -/
def isXmlCls (c : Char) : Bool := isPyWord c || c == ':' || c == '-'

/-- `^\s*\w+:\s*$`. -/
def reYamlKeyNoVal (content : Str) : Bool :=
  (lineStarts content).any fun t =>
    let u := t.dropWhile isPyWS
    let w := u.takeWhile isPyWord
    !w.isEmpty &&
      (match u.drop w.length with
       | ':' :: v => wsThenEOL v
       | _ => false)

/-- `^\s*\w+:\s+\S+`. -/
def reYamlKeyVal (content : Str) : Bool :=
  (lineStarts content).any fun t =>
    let u := t.dropWhile isPyWS
    let w := u.takeWhile isPyWord
    !w.isEmpty &&
      (match u.drop w.length with
       | ':' :: v =>
         let ws := v.takeWhile isPyWS
         !ws.isEmpty && !(v.drop ws.length).isEmpty
       | _ => false)

/-- `^\s*-\s+\w+:`. -/
def reYamlListKey (content : Str) : Bool :=
  (lineStarts content).any fun t =>
    match t.dropWhile isPyWS with
    | '-' :: v =>
      let ws := v.takeWhile isPyWS
      let w := (v.drop ws.length).takeWhile isPyWord
      !ws.isEmpty && !w.isEmpty && startsW [':'] ((v.drop ws.length).drop w.length)
    | _ => false

/-- `^\s*#\s*!/bin/(ba)?sh`. -/
def reShebang (content : Str) : Bool :=
  (lineStarts content).any fun t =>
    match t.dropWhile isPyWS with
    | '#' :: v =>
      let v2 := v.dropWhile isPyWS
      startsW (str "!/bin/bash") v2 || startsW (str "!/bin/sh") v2
    | _ => false

/-- `^\s*\$\s+`. -/
def rePrompt (content : Str) : Bool :=
  (lineStarts content).any fun t =>
    match t.dropWhile isPyWS with
    | '$' :: v => !(v.takeWhile isPyWS).isEmpty
    | _ => false

/-- `^\s*(sudo|export|source|echo|cd|ls|cat|grep)\s+`. -/
def reShellCmd (content : Str) : Bool :=
  (lineStarts content).any fun t =>
    let u := t.dropWhile isPyWS
    [str "sudo", str "export", str "source", str "echo", str "cd", str "ls",
     str "cat", str "grep"].any fun kw =>
      startsW kw u &&
        (match u.drop kw.length with
         | c :: _ => isPyWS c
         | [] => false)

/-- Inner search of `\[.*\];\s*then` after `if\s+` (`.` does not cross `\n`). -/
def bash4Inner : Str → Bool
  | [] => false
  | s@(c :: r) =>
    if startsW (str "];") s && startsW (str "then") ((s.drop 2).dropWhile isPyWS) then true
    else if c = '\n' then false
    else bash4Inner r

/-- `if\s+\[.*\];\s*then` (unanchored). -/
def reBashIf (content : Str) : Bool :=
  content.tails.any fun t =>
    startsW (str "if") t &&
      (let v := t.drop 2
       let ws := v.takeWhile isPyWS
       !ws.isEmpty &&
         (match v.drop ws.length with
          | '[' :: w => bash4Inner w
          | _ => false))

/-- `^\s*\[[\w_-]+\]`. -/
def reIniSection (content : Str) : Bool :=
  (lineStarts content).any fun t =>
    match t.dropWhile isPyWS with
    | '[' :: v =>
      let k := v.takeWhile isIniCls
      !k.isEmpty && startsW [']'] (v.drop k.length)
    | _ => false

/-- `^\s*[\w_-]+\s*=\s*`. -/
def reIniKeyVal (content : Str) : Bool :=
  (lineStarts content).any fun t =>
    let u := t.dropWhile isPyWS
    let k := u.takeWhile isIniCls
    !k.isEmpty && startsW ['='] ((u.drop k.length).dropWhile isPyWS)

/-- `^\s*import\s+`. -/
def rePyImport (content : Str) : Bool :=
  (lineStarts content).any fun t =>
    let u := t.dropWhile isPyWS
    startsW (str "import") u &&
      (match u.drop 6 with
       | c :: _ => isPyWS c
       | [] => false)

/-- `^\s*from\s+\w+\s+import`. -/
def rePyFromImport (content : Str) : Bool :=
  (lineStarts content).any fun t =>
    let u := t.dropWhile isPyWS
    startsW (str "from") u &&
      (let v := u.drop 4
       let ws := v.takeWhile isPyWS
       let w := (v.drop ws.length).takeWhile isPyWord
       let v2 := (v.drop ws.length).drop w.length
       let ws2 := v2.takeWhile isPyWS
       !ws.isEmpty && !w.isEmpty && !ws2.isEmpty &&
         startsW (str "import") (v2.drop ws2.length))

/-- `^\s*def\s+\w+\(`. -/
def rePyDef (content : Str) : Bool :=
  (lineStarts content).any fun t =>
    let u := t.dropWhile isPyWS
    startsW (str "def") u &&
      (let v := u.drop 3
       let ws := v.takeWhile isPyWS
       let w := (v.drop ws.length).takeWhile isPyWord
       !ws.isEmpty && !w.isEmpty && startsW ['('] ((v.drop ws.length).drop w.length))

/-- `^\s*class\s+\w+`. -/
def rePyClass (content : Str) : Bool :=
  (lineStarts content).any fun t =>
    let u := t.dropWhile isPyWS
    startsW (str "class") u &&
      (let v := u.drop 5
       let ws := v.takeWhile isPyWS
       !ws.isEmpty && !((v.drop ws.length).takeWhile isPyWord).isEmpty)

/-- `^\s*<\?xml`. -/
def reXmlDecl (content : Str) : Bool :=
  (lineStarts content).any fun t => startsW (str "<?xml") (t.dropWhile isPyWS)

/-- Inner search of `.*</[\w:-]+>` after an opening tag. -/
def xmlInner : Str → Bool
  | [] => false
  | s@(c :: r) =>
    if startsW (str "</") s &&
       (let m := (s.drop 2).takeWhile isXmlCls
        !m.isEmpty && startsW ['>'] ((s.drop 2).drop m.length)) then true
    else if c = '\n' then false
    else xmlInner r

/-- `^\s*<[\w:-]+>.*</[\w:-]+>`. -/
def reXmlTagPair (content : Str) : Bool :=
  (lineStarts content).any fun t =>
    match t.dropWhile isPyWS with
    | '<' :: v =>
      let k := v.takeWhile isXmlCls
      !k.isEmpty &&
        (match v.drop k.length with
         | '>' :: w => xmlInner w
         | _ => false)
    | _ => false

/-- `^\s*[{\[]`. -/
def reJsonOpen (content : Str) : Bool :=
  (lineStarts content).any fun t =>
    match t.dropWhile isPyWS with
    | '{' :: _ => true
    | '[' :: _ => true
    | _ => false

/-- `"\w+"\s*:\s*` (unanchored). -/
def reJsonKey (content : Str) : Bool :=
  content.tails.any fun t =>
    match t with
    | '"' :: v =>
      let w := v.takeWhile isPyWord
      !w.isEmpty &&
        (match v.drop w.length with
         | '"' :: u => startsW [':'] (u.dropWhile isPyWS)
         | _ => false)
    | _ => false

/-- The ordered score table of `detect_block_language` (Python dict insertion
order: yaml, bash, ini, python, xml, json). -/
def scoresList (content : Str) : List (Str × Nat) :=
  [(str "yaml",
    [reYamlKeyNoVal content, reYamlKeyVal content, reYamlListKey content,
     hasSub (str "apiVersion:") content, hasSub (str "kind:") content,
     hasSub (str "metadata:") content, hasSub (str "spec:") content].count true),
   (str "bash",
    [reShebang content, rePrompt content, reShellCmd content,
     reBashIf content].count true),
   (str "ini", [reIniSection content, reIniKeyVal content].count true),
   (str "python",
    [rePyImport content, rePyFromImport content, rePyDef content,
     rePyClass content].count true),
   (str "xml", [reXmlDecl content, reXmlTagPair content].count true),
   (str "json", [reJsonOpen content, reJsonKey content].count true)]

/-- Python `max(items, key=lambda x: x[1])`: first item attaining the maximal
value (later items replace only on strictly greater key). -/
def pyMaxBySnd : List (Str × Nat) → Option (Str × Nat)
  | [] => none
  | x :: xs => some (xs.foldl (fun best y => if y.2 > best.2 then y else best) x)

/-- `detect_block_language`. -/
def detect_block_language (block_lines : List Str) : Str :=
  let content := joinNL block_lines
  let scores := scoresList content
  if (scores.map Prod.snd).foldl max 0 > 0 then
    ((pyMaxBySnd scores).getD (str "yaml", 0)).1
  else str "yaml"

/-! ### Source-designation insertion (`preprocess_adoc_callouts`) -/

/-- `re.search(r"<\d+>", line)` is truthy. -/
def hasCalloutMarker (line : Str) : Bool := !(calloutMatches line).isEmpty

/-- `re.match(r"\[subs=([^\]]+)\]", s)`: the captured subs value. -/
def matchSubs (s : Str) : Option Str :=
  if startsW (str "[subs=") s then
    let v := s.drop 6
    let g := v.takeWhile (fun c => decide (c ≠ ']'))
    if !g.isEmpty && startsW [']'] (v.drop g.length) then some g else none
  else none

/-- Result of the backward scan over `new_lines` for the previous non-empty
line (`preprocess_adoc_callouts`). -/
structure LookBack where
  has_source : Bool := false
  has_subs_only : Bool := false
  subs_value : Option Str := none
  prev_idx : Nat := 0
deriving Repr

/-- Backward scan: examine the first non-empty line from the end. -/
def lookBackAux : List (Nat × Str) → LookBack
  | [] => {}
  | (k, l) :: rest =>
    let p := pyStrip l
    if p.isEmpty then lookBackAux rest
    else if startsW (str "[source") p || startsW (str "[listing") p then
      { has_source := true }
    else
      match matchSubs p with
      | some g => { has_subs_only := true, subs_value := some g, prev_idx := k }
      | none => {}

/-- Backward scan over the accumulated output lines. -/
def lookBack (new_lines : List Str) : LookBack := lookBackAux new_lines.enum.reverse

/-- The state-passing loop of `preprocess_adoc_callouts`: on each opening
`----` delimiter, look back for an existing designation and ahead for callout
markers, then synthesize or rewrite a `[source,...]` line. -/
def calloutsInsStep : List (Nat × Str) → List Str × List Str × Bool →
    List Str × List Str × Bool
  | [], st => st
  | (i, line) :: rest, (new_lines, fixes, in_block) =>
    if pyStrip line = str "----" then
      if !in_block then
        let lb := lookBack new_lines
        let st2 :=
          if !lb.has_source then
            let block_lines := (rest.map Prod.snd).takeWhile
              (fun l => decide (pyStrip l ≠ str "----"))
            if block_lines.any hasCalloutMarker then
              let language := detect_block_language block_lines
              match lb.has_subs_only, lb.subs_value with
              | true, some g =>
                (new_lines.set lb.prev_idx
                   (str "[source," ++ language ++ str ",subs=" ++ g ++ str "]"),
                 fixes ++ [str "Line " ++ toDec (i + 1) ++
                   str ": Added source designation to [subs=" ++ g ++
                   str "] for block with callouts"])
              | _, _ =>
                (new_lines ++ [str "[source," ++ language ++ str "]"],
                 fixes ++ [str "Line " ++ toDec (i + 1) ++ str ": Added [source," ++
                   language ++ str "] for block with callouts"])
            else (new_lines, fixes)
          else (new_lines, fixes)
        calloutsInsStep rest (st2.1 ++ [line], st2.2, true)
      else
        calloutsInsStep rest (new_lines ++ [line], fixes, false)
    else
      calloutsInsStep rest (new_lines ++ [line], fixes, in_block)

/-- `preprocess_adoc_callouts`. -/
def preprocess_adoc_callouts (content : Str) : Str × List Str :=
  let st := calloutsInsStep (splitNL content).enum ([], [], false)
  (joinNL st.1, st.2.1)

/-! ### Callout spacing (`preprocess_adoc_callout_spacing`) -/

/-- Forward scan locating the last line of a run of callout definitions
(including `ifeval::`/`endif::` wrappers); returns `last_def_line`. -/
def spacingScan : Nat → List Str → Nat → Nat → Nat
  | 0, _, _, last => last
  | fuel + 1, lines, j, last =>
    if j < lines.length then
      let current := lines.getD j []
      if (matchCalloutDef current).isSome then spacingScan fuel lines (j + 1) j
      else if startsW (str "endif::") (pyStrip current) then
        if j + 1 < lines.length then
          let nxt := lines.getD (j + 1) []
          if (matchCalloutDef nxt).isSome || startsW (str "ifeval::") (pyStrip nxt) then
            spacingScan fuel lines (j + 1) j
          else j
        else j
      else if startsW (str "ifeval::") (pyStrip current) then
        spacingScan fuel lines (j + 1) last
      else if (pyStrip current).isEmpty then last
      else j - 1
    else last

/-- The outer `while i < len(lines)` loop of the spacing pass. -/
def spacingLoop : Nat → List Str → Nat → List Str × List Str → List Str × List Str
  | 0, _, _, st => st
  | fuel + 1, lines, i, (new_lines, fixes) =>
    if i < lines.length then
      let line := lines.getD i []
      let new1 := new_lines ++ [line]
      if (matchCalloutDef line).isSome then
        let last := spacingScan lines.length lines (i + 1) i
        let new2 := new1 ++ (List.range' (i + 1) (last - i)).map (fun k => lines.getD k [])
        let st2 :=
          if last + 1 < lines.length then
            if !(pyStrip (lines.getD (last + 1) [])).isEmpty then
              (new2 ++ [([] : Str)],
               fixes ++ [str "Line " ++ toDec (last + 1) ++
                 str ": Added blank line after callout definitions"])
            else (new2, fixes)
          else (new2, fixes)
        spacingLoop fuel lines (last + 1) st2
      else spacingLoop fuel lines (i + 1) (new1, fixes)
    else (new_lines, fixes)

/-- `preprocess_adoc_callout_spacing`. -/
def preprocess_adoc_callout_spacing (content : Str) : Str × List Str :=
  let lines := splitNL content
  let st := spacingLoop (lines.length + 1) lines 0 ([], [])
  (joinNL st.1, st.2)

/-! ### Callout placement (`preprocess_adoc_callout_placement`) -/

/-- First-pass state of the placement pass: blocks with callouts as
`(block_start, block_end, max_callout)`. -/
structure PlaceP1 where
  info : List (Nat × Nat × Nat) := []
  in_block : Bool := false
  bstart : Nat := 0
  bcallouts : List Nat := []
deriving Repr

/-- One line of the placement first pass. -/
def placeP1Step (st : PlaceP1) (p : Nat × Str) : PlaceP1 :=
  if pyStrip p.2 = str "----" then
    if !st.in_block then { st with in_block := true, bstart := p.1, bcallouts := [] }
    else
      { st with
        in_block := false,
        info := st.info ++
          (if st.bcallouts.isEmpty then []
           else [(st.bstart, p.1, st.bcallouts.foldl max 0)]) }
  else if st.in_block then { st with bcallouts := st.bcallouts ++ calloutNums p.2 }
  else st

/-- Scan after a block for definition lines already in place (stops at the
first line that is neither a definition, blank, nor an `ifeval`/`endif`
wrapper, or once `needed` definitions were seen). -/
def defsAfterScan : Nat → List Str → Nat → Nat → List Nat → List Nat
  | 0, _, _, _, acc => acc
  | fuel + 1, lines, ci, needed, acc =>
    if ci < lines.length ∧ acc.length < needed then
      let line := lines.getD ci []
      match matchCalloutDef line with
      | some pr => defsAfterScan fuel lines (ci + 1) needed (acc ++ [pr.1])
      | none =>
        if ¬ (pyStrip line).isEmpty ∧ ¬ startsW (str "ifeval::") (pyStrip line) ∧
           ¬ startsW (str "endif::") (pyStrip line) then acc
        else defsAfterScan fuel lines (ci + 1) needed acc
    else acc

/-- `range(first_def_idx - 1, max(0, first_def_idx - 3), -1)`. -/
def ifevalLookIdxs (f : Nat) : List Nat :=
  if f ≥ 3 then [f - 1, f - 2] else if f = 2 then [1] else []

/-- Look up to two lines above the first moved definition for an
`ifeval::` wrapper (stopping at any other non-empty line). -/
def scanIfeval (lines : List Str) : List Nat → Option Str
  | [] => none
  | j :: rest =>
    let l := lines.getD j []
    if startsW (str "ifeval::") (pyStrip l) then some l
    else if ¬ (pyStrip l).isEmpty then none
    else scanIfeval lines rest

/-- `insertions.setdefault(k, []).extend(v)` on an association list. -/
def insExtend (m : List (Nat × List Str)) (k : Nat) (v : List Str) :
    List (Nat × List Str) :=
  if (m.lookup k).isSome then
    m.map (fun p => if p.1 = k then (p.1, p.2 ++ v) else p)
  else m ++ [(k, v)]

/-- Third-pass state of the placement pass. -/
structure PlaceP3 where
  skip : List Nat := []
  ins : List (Nat × List Str) := []
  def_idx : Nat := 0
  fixes : List Str := []
deriving Repr

/-- Third pass of the placement pass: for each callout block decide whether its
definitions are already in place, otherwise schedule the next
`max_callout` collected definition lines for insertion after the block. -/
def placeP3Step (lines : List Str) (all_defs : List (Nat × Nat × Str)) (st : PlaceP3)
    (blk : Nat × Nat × Nat) : PlaceP3 :=
  let block_end := blk.2.1
  let max_callout := blk.2.2
  let needed := max_callout
  let defs_after := defsAfterScan lines.length lines (block_end + 1) needed []
  if defs_after = List.range' 1 max_callout then { st with def_idx := st.def_idx + needed }
  else if st.def_idx < all_defs.length then
    let first_def_idx := (all_defs.getD st.def_idx (0, 0, [])).1
    let wrap := scanIfeval lines (ifevalLookIdxs first_def_idx)
    let moved := (List.range needed).filterMap (fun k => all_defs.get? (st.def_idx + k))
    let block_def_lines := moved.map (fun d => d.2.2)
    let newSkips := moved.map (fun d => d.1)
    let block_def_lines2 :=
      match wrap with
      | some ifl => [ifl] ++ block_def_lines ++ [str "endif::[]"]
      | none => block_def_lines
    { st with
      skip := st.skip ++ newSkips,
      ins := insExtend st.ins block_end (block_def_lines2 ++ [[]]),
      fixes := st.fixes ++ [str "Moved " ++ toDec needed ++
        str " callout definition(s) to after block at line " ++ toDec (block_end + 1)],
      def_idx := st.def_idx + needed }
  else st

/-- Inner scan of the ifeval-cleanup loop: from `j`, skipping already-removed
lines, find an `endif::` before any other non-empty line. -/
def cleanupScan : Nat → List Str → Nat → List Nat → Option Nat
  | 0, _, _, _ => none
  | fuel + 1, lines, j, skip =>
    if j < lines.length then
      if j ∉ skip then
        let l := pyStrip (lines.getD j [])
        if startsW (str "endif::") l then some j
        else if ¬ l.isEmpty then none
        else cleanupScan fuel lines (j + 1) skip
      else cleanupScan fuel lines (j + 1) skip
    else none

/-- Ifeval-cleanup loop: remove `ifeval::`/`endif::` pairs that became empty
after their definitions were moved away. -/
def cleanupIfeval : Nat → List Str → Nat → List Nat → List Nat
  | 0, _, _, skip => skip
  | fuel + 1, lines, i, skip =>
    if i < lines.length then
      let skip2 :=
        if i ∉ skip ∧ startsW (str "ifeval::") (pyStrip (lines.getD i [])) then
          match cleanupScan (lines.length + 1) lines (i + 1) skip with
          | some j => skip ++ [i, j]
          | none => skip
        else skip
      cleanupIfeval fuel lines (i + 1) skip2
    else skip

/-- `preprocess_adoc_callout_placement`. -/
def preprocess_adoc_callout_placement (content : Str) : Str × List Str :=
  let lines := splitNL content
  let p1 := lines.enum.foldl placeP1Step {}
  if p1.info.isEmpty then (content, [])
  else
    let all_defs := lines.enum.filterMap fun p =>
      (matchCalloutDef p.2).map (fun pr => (p.1, pr.1, p.2))
    if all_defs.isEmpty then (content, [])
    else
      let p3 := p1.info.foldl (placeP3Step lines all_defs) {}
      let skip := cleanupIfeval (lines.length + 1) lines 0 p3.skip
      if skip.isEmpty ∧ p3.ins.isEmpty then (content, [])
      else
        let new_lines := lines.enum.foldl
          (fun acc p =>
            if p.1 ∈ skip then acc
            else acc ++ [p.2] ++ ((p3.ins.lookup p.1).getD []))
          []
        (joinNL new_lines, p3.fixes)

/-! ### Table preprocessing (`preprocess_adoc_tables`) -/

/-- `while len(table_lines) > 2: ...` — pop standalone `|` or blank lines
immediately preceding the closing `|===`. -/
def popTrailingJunk (table_start_idx : Nat) :
    Nat → List Str → List Str → List Str × List Str
  | 0, tl, fixes => (tl, fixes)
  | fuel + 1, tl, fixes =>
    if tl.length > 2 then
      let prev := pyStrip (tl.getD (tl.length - 2) [])
      if (prev = ['|'] ∨ prev = []) ∧ tl.length > 3 then
        let removed := tl.getD (tl.length - 2) []
        let tl2 := tl.take (tl.length - 2) ++ tl.drop (tl.length - 1)
        let fixes2 :=
          if ¬ (pyStrip removed).isEmpty then
            fixes ++ [str "Line " ++ toDec (table_start_idx + tl2.length) ++
              str ": Removed incomplete table row: '" ++ pyStrip removed ++ str "'"]
          else fixes
        popTrailingJunk table_start_idx fuel tl2 fixes2
      else (tl, fixes)
    else (tl, fixes)

/-- `for j in range(2, len(table_lines) - 1)` — restore a missing leading `|`
on a row start after a blank line. -/
def leadPipeFix (table_start_idx : Nat) (tl : List Str) (fixes : List Str) :
    List Str × List Str :=
  (List.range' 2 (tl.length - 1 - 2)).foldl
    (fun st j =>
      let t := st.1
      if (pyStrip (t.getD (j - 1) [])).isEmpty ∧
         ¬ (pyStrip (t.getD j [])).isEmpty ∧
         ¬ startsW ['|'] (pyStrip (t.getD j [])) ∧
         2 ≤ j ∧ endsW ['|'] (pyRStrip (t.getD (j - 2) [])) then
        (t.set j ('|' :: t.getD j []),
         st.2 ++ [str "Line " ++ toDec (table_start_idx + j + 1) ++
           str ": Added leading '|' to row start"])
      else st)
    (tl, fixes)

/-- Processing applied to one complete table when its closing `|===` arrives. -/
def closeTable (table_start_idx : Nat) (tl : List Str) (fixes : List Str) :
    List Str × List Str :=
  let st1 := popTrailingJunk table_start_idx (tl.length + 1) tl fixes
  let st2 := leadPipeFix table_start_idx st1.1 st1.2
  let tl2 := st2.1
  let body_rows := (tl2.drop 1).take (tl2.length - 2) |>.filter
    (fun l => !(pyStrip l).isEmpty && !startsW (str "|===") l)
  if body_rows.isEmpty then
    (tl2.take (tl2.length - 1) ++ [str "| N/A | N/A"] ++ tl2.drop (tl2.length - 1),
     st2.2 ++ [str "Line " ++ toDec table_start_idx ++
       str ": Added placeholder row to empty table"])
  else (tl2, st2.2)

/-- Fold state of `preprocess_adoc_tables`. -/
structure TablesState where
  new_lines : List Str := []
  in_table : Bool := false
  table_start_idx : Nat := 0
  table_lines : List Str := []
  fixes : List Str := []
deriving Repr

/-- One line of the `preprocess_adoc_tables` fold. -/
def tablesStep (st : TablesState) (line : Str) : TablesState :=
  if startsW (str "|===") line then
    if !st.in_table then
      { st with
        in_table := true, table_start_idx := st.new_lines.length,
        table_lines := [line] }
    else
      let closed := closeTable st.table_start_idx (st.table_lines ++ [line]) st.fixes
      { st with
        new_lines := st.new_lines ++ closed.1, in_table := false,
        table_lines := [], fixes := closed.2 }
  else if st.in_table then { st with table_lines := st.table_lines ++ [line] }
  else { st with new_lines := st.new_lines ++ [line] }

/-- `preprocess_adoc_tables`. -/
def preprocess_adoc_tables (content : Str) : Str × List Str :=
  let lines := splitNL content
  let st := lines.foldl tablesStep {}
  let st2 :=
    if st.in_table ∧ ¬ st.table_lines.isEmpty then
      { st with
        fixes := st.fixes ++ [str "Line " ++ toDec st.table_start_idx ++
          str ": Closed unclosed table"],
        new_lines := st.new_lines ++ st.table_lines ++ [str "|==="] }
    else st
  let result := joinNL st2.new_lines
  let result2 :=
    if ¬ result.isEmpty ∧ ¬ endsW ['\n'] result then result ++ ['\n'] else result
  (result2, st2.fixes)

/-! ### The fixer pipeline of `fix_adoc_file` -/

/-- The content-and-fixes transformation applied by `fix_adoc_file` between
reading and writing the file: the six preprocessing passes applied in the
source order, fix descriptions concatenated. -/
def fix_adoc_content (content : Str) : Str × List Str :=
  let r1 := preprocess_adoc_link_brackets content
  let r2 := preprocess_adoc_callout_numbering r1.1
  let r3 := preprocess_adoc_callout_placement r2.1
  let r4 := preprocess_adoc_callouts r3.1
  let r5 := preprocess_adoc_callout_spacing r4.1
  let r6 := preprocess_adoc_tables r5.1
  (r6.1, r1.2 ++ r2.2 ++ r3.2 ++ r4.2 ++ r5.2 ++ r6.2)

/-- The same six passes composed in the order the specification prescribes
(link brackets, numbering, placement, **spacing**, **source insertion**,
tables).  Written from the spec's words, to be compared with
`fix_adoc_content`, which follows the source. -/
def spec_order_fix (content : Str) : Str × List Str :=
  let r1 := preprocess_adoc_link_brackets content
  let r2 := preprocess_adoc_callout_numbering r1.1
  let r3 := preprocess_adoc_callout_placement r2.1
  let r4 := preprocess_adoc_callout_spacing r3.1
  let r5 := preprocess_adoc_callouts r4.1
  let r6 := preprocess_adoc_tables r5.1
  (r6.1, r1.2 ++ r2.2 ++ r3.2 ++ r4.2 ++ r5.2 ++ r6.2)

/-! ### Include resolution (`find_included_files`, `resolve_adoc_includes`) -/

/-- The relevant slice of the file system: a finite map from path strings to
file contents. -/
abbrev FileSys := List (Str × Str)

/-- Contents of a path, if `path.exists()` and readable. -/
def fsGet (fs : FileSys) (p : Str) : Option Str := fs.lookup p

/-- `path.exists()`. -/
def pathExists (fs : FileSys) (p : Str) : Bool := (fsGet fs p).isSome

/-- `base / rel` on POSIX-style path strings (empty base keeps `rel`). -/
def pathJoin (a b : Str) : Str := if a.isEmpty then b else a ++ '/' :: b

/-- `path.parent` (the component before the last `/`; `.` for bare names). -/
def parentDir (p : Str) : Str :=
  match p.reverse.dropWhile (fun c => decide (c ≠ '/')) with
  | '/' :: rest => rest.reverse
  | _ => str "."

/-- `re.match(r"^include::([^\[]+)\[", line)`: the captured include path. -/
def matchIncl (line : Str) : Option Str :=
  if startsW (str "include::") line then
    let v := line.drop 9
    let g := v.takeWhile (fun c => decide (c ≠ '['))
    if ¬ g.isEmpty ∧ startsW ['['] (v.drop g.length) then some g else none
  else none

/-- `re.match(r"^include::([^\[]+)\[(.*)\]", line)`: the captured include path
(the second group additionally requires a closing `]` on the line). -/
def matchIncl2 (line : Str) : Option Str :=
  match matchIncl line with
  | some g =>
    if ']' ∈ (line.drop 9).drop (g.length + 1) then some g else none
  | none => none

/-- Resolution order of `find_included_files`/`resolve_adoc_includes`: relative
to `base_dir` first, falling back to relative to the current file. -/
def resolveIncl (fs : FileSys) (base current g : Str) : Str :=
  if pathExists fs (pathJoin base g) then pathJoin base g
  else pathJoin (parentDir current) g

/-- The worklist loop of `find_included_files` (`files_to_process.pop()` pops
from the end; a visited set prevents reprocessing). -/
def findInclAux (fs : FileSys) (base : Str) :
    Nat → List Str → List Str → List Str → List Str
  | 0, _, _, inc => inc
  | _ + 1, [], _, inc => inc
  | fuel + 1, w :: ws, proc, inc =>
    let current := (w :: ws).getLast (List.cons_ne_nil w ws)
    let rest := (w :: ws).dropLast
    if current ∈ proc then findInclAux fs base fuel rest proc inc
    else
      let proc2 := proc ++ [current]
      match fsGet fs current with
      | none => findInclAux fs base fuel rest proc2 inc
      | some content =>
        let st := (splitNL content).foldl
          (fun (st : List Str × List Str) line =>
            match matchIncl line with
            | some g =>
              let rp := resolveIncl fs base current g
              if pathExists fs rp then
                ((if rp ∈ st.1 then st.1 else st.1 ++ [rp]), st.2 ++ [rp])
              else st
            | none => st)
          (inc, rest)
        findInclAux fs base fuel st.2 proc2 st.1

/-- Fuel that dominates the loop: every pop consumes one unit; pushes happen
only while processing one of the at most `|fs| + 1` distinct existing files,
each pushing at most its line count. -/
def findInclFuel (fs : FileSys) : Nat :=
  1 + (fs.length + 1) * (1 + (fs.map (fun p => (splitNL p.2).length)).sum)

/-- `find_included_files(input_file, base_dir)` over the file-system model. -/
def find_included_files (fs : FileSys) (input_file base_dir : Str) : List Str :=
  findInclAux fs base_dir (findInclFuel fs) [input_file] [] []

/-- One unfolding of `resolve_adoc_includes` where the recursive call is the
abstract parameter `f`: each `include::path[...]` line whose target resolves
and reads becomes begin-marker, recursively-resolved content, end-marker. -/
def resolveStep (f : Str → Str → Str) (fs : FileSys) (base : Str)
    (content current : Str) : Str :=
  joinNL (((splitNL content).map fun line =>
    match matchIncl2 line with
    | some g =>
      let rp := resolveIncl fs base current g
      match fsGet fs rp with
      | some inc =>
        [str "// BEGIN INCLUDE: " ++ g, f inc rp, str "// END INCLUDE: " ++ g]
      | none => [line]
    | none => [line]).flatten)

/-- `f` is a total function satisfying the defining recurrence of
`resolve_adoc_includes` over `fs` — what a terminating run of the Python
function would compute. -/
def SatisfiesResolve (fs : FileSys) (base : Str) (f : Str → Str → Str) : Prop :=
  ∀ content current, f content current = resolveStep f fs base content current

/-! ### Source enumeration (`red_hat_docs_path`) -/

/-- The `docinfo.xml` sidecar as seen through `get_xml_element_text`: for each
element, `none` models both a missing element and an element with no text
(both make `get_xml_element_text` log a warning and return `None`). -/
structure DocInfoX where
  productnumber : Option Str := none
  title : Option Str := none
deriving DecidableEq, Repr

/-- `get_xml_element_text(root, name)` over the sidecar model. -/
def get_xml_element_text (tree : DocInfoX) (name : Str) : Option Str :=
  if name = str "productnumber" then tree.productnumber
  else if name = str "title" then tree.title
  else none

/-- One `master.adoc` hit of `input_dir.rglob`, with its path components and
its (possibly missing) `docinfo.xml` sidecar. -/
structure DocEntry where
  parts : List Str
  docinfo : Option DocInfoX
deriving Repr

/-- Errors raised by `packaging.version.Version`: `Version(None)` raises
`TypeError`, a malformed string raises `InvalidVersion`. -/
inductive PyErr
  | typeErr
  | invalidVersion
deriving DecidableEq, Repr

/-- `packaging.version.Version(s)` restricted to dotted numeric releases (the
shape this corpus uses): the release tuple, or the error the constructor
raises.  `Version(None)` raises `TypeError` because `None` is not a string. -/
def parseVersion : Option Str → Except PyErr (List Nat)
  | none => .error .typeErr
  | some v =>
    let comps := v.foldr
      (fun c acc =>
        match acc with
        | cur :: done => if c = '.' then [] :: cur :: done else (c :: cur) :: done
        | [] => [[c]])
      [[]]
    if comps.all (fun comp => !comp.isEmpty && comp.all Char.isDigit) then
      .ok (comps.map parseNat)
    else .error .invalidVersion

/-- `Version` equality: release tuples compare equal up to trailing zeros
(`18.0 == 18.0.0`). -/
def verEq (a b : List Nat) : Bool :=
  let strip := fun (l : List Nat) => (l.reverse.dropWhile (· == 0)).reverse
  strip a == strip b

/-- `title.lower().replace(" ", "_")`: lower first, then replace. -/
def normTitle (t : Str) : Str :=
  (t.map Char.toLower).map (fun c => if c = ' ' then '_' else c)

/-- `red_hat_docs_path` over the directory model: walk the `master.adoc`
entries in `rglob` order; each yields at most one `(input, output)` pair, and
any exception raised while handling an entry aborts the whole enumeration
(models generator semantics: an uncaught exception ends the generator). -/
def red_hat_docs_path (entries : List DocEntry) (output_dir : List Str)
    (docs_version : Str) (exclude_list : List Str)
    (remap_titles : List (Str × Str)) : Except PyErr (List (List Str × List Str)) :=
  match entries with
  | [] => .ok []
  | e :: rest =>
    let skip_dirs := [str "gerrit-backup", str "backup", str "old",
                      str ".backup", str "archive"]
    let continue_ := red_hat_docs_path rest output_dir docs_version exclude_list
      remap_titles
    if e.parts.any (fun part => decide (part ∈ skip_dirs)) then continue_
    else
      match e.docinfo with
      | none => continue_
      | some tree =>
        match parseVersion (get_xml_element_text tree (str "productnumber")) with
        | .error err => .error err
        | .ok pv =>
          match parseVersion (some docs_version) with
          | .error err => .error err
          | .ok dv =>
            if !verEq pv dv then continue_
            else
              match get_xml_element_text tree (str "title") with
              | none => continue_
              | some t =>
                let t2 := normTitle t
                if t2 ∈ exclude_list then continue_
                else
                  let t3 := ((remap_titles.lookup t2).getD t2)
                  continue_.map
                    (fun tl => (e.parts, output_dir ++ [t3, str "master.txt"]) :: tl)

/-- Number of grid positions occupied by the cell carrying identity `id`
(anchor plus span placeholders). -/
def occupies (g : List (List Slot)) (id : Nat) : Nat :=
  (g.map (fun row => row.countP (fun s =>
    match s with
    | .cellAt i _ => i == id
    | .spanOf i _ => i == id
    | .free => false))).sum

/-- Contents for which the no-span reconstruction/extraction round trip is
exact: nonempty, not whitespace at either end, containing neither `|` nor `+`,
and not the table-delimiter text. -/
def GoodContent (c : Str) : Prop :=
  c ≠ [] ∧ (∀ h ∈ c.head?, isPyWS h = false) ∧ (∀ h ∈ c.getLast?, isPyWS h = false) ∧
  '|' ∉ c ∧ '+' ∉ c ∧ c ≠ str "===" ∧ c ≠ str "===="

instance (c : Str) : Decidable (GoodContent c) := by
  unfold GoodContent; infer_instance

/-- A grid of plain contents (`colspan = rowspan = 1`, no format spec) as the
slot array `reconstruct_table` receives. -/
def plainGrid (grid : List (List Str)) : List (List Slot) :=
  grid.map (fun row => row.map (fun c => Slot.cellAt 0 { content := c }))

/-- The serialized form of one spanless row: `|c1 |c2 ... |cN`. -/
def rowLine (row : List Str) : Str := joinSep [' '] (row.map (fun c => '|' :: c))

/-- The cell-boundary offsets of a serialized spanless row starting at
offset `i`: one per leading `|`. -/
def rowPositions : List Str → Nat → List Nat
  | [], _ => []
  | c :: rest, i => i :: rowPositions rest (i + c.length + 2)

/-- The cyclic two-file include graph of the claim: `a.adoc` includes `b.adoc`
and `b.adoc` includes `a.adoc`. -/
def cycFS : FileSys :=
  [(str "a.adoc", str "include::b.adoc[]"), (str "b.adoc", str "include::a.adoc[]")]

/-- The six family names in the dict insertion order of
`detect_block_language`. -/
def famNames : List Str :=
  [str "yaml", str "bash", str "ini", str "python", str "xml", str "json"]

/-- Signature-match score of the `i`-th family on a block. -/
def famScore (block_lines : List Str) (i : Nat) : Nat :=
  ((scoresList (joinNL block_lines)).getD i ([], 0)).2

/-- The selection expression of `detect_block_language`, abstracted over the
score table: Python `max` with a key plus the zero-score default. -/
def detectExpr (L : List (Str × Nat)) (d : Str) : Str :=
  if List.foldl max 0 (List.map Prod.snd L) > 0 then ((pyMaxBySnd L).getD (d, 0)).1
  else d

/-- Grid rows of already-placed cells: each row's cells become anchored
`cellAt` slots with consecutive global identities starting at `k`. -/
def withIds : Nat → List (List Cell) → List (List Slot)
  | _, [] => []
  | k, row :: rest =>
    (List.enumFrom k row).map (fun p => Slot.cellAt p.1 p.2) ::
      withIds (k + row.length) rest

/-- The spanless cells of a grid of plain contents, row by row, tagged with
the 1-based source-line numbers their serialized rows occupy. -/
def cellRows : Nat → List (List Str) → List (List Cell)
  | _, [] => []
  | n, row :: rest =>
    row.map (fun c => ({ content := c, colspan := 1, rowspan := 1, format_spec := [], source_line := n } : Cell)) :: cellRows (n + 1) rest

/-- A structured listing-block line: an alternation of marker-free segments and
callout markers `<n>`, closed by a marker-free tail. -/
def mline : List (Str × Nat) → Str → Str
  | [], t => t
  | (s, n) :: ps, t => s ++ '<' :: (toDec n ++ '>' :: mline ps t)

/-- The `(start, end, value)` triples of the markers of a structured line
starting at offset `i`. -/
def mpos : List (Str × Nat) → Nat → List (Nat × Nat × Nat)
  | [], _ => []
  | (s, n) :: ps, i =>
    (i + s.length, i + s.length + (toDec n).length + 2, n) ::
      mpos ps (i + s.length + (toDec n).length + 2)

/-- The splice fold of `rewriteBlockLine`, abstracted over the match list. -/
def rwFold (lookup : Nat × Nat → Option Nat) (bi : Nat)
    (M : List (Nat × Nat × Nat)) (line : Str) : Str :=
  M.foldr
    (fun m acc =>
      match lookup (bi, m.2.2) with
      | some newNum => spliceAt acc m.1 m.2.1 ('<' :: toDec newNum ++ ['>'])
      | none => acc)
    line

/-- The first-appearance accumulation of the callout numbers of a run of
block lines, exactly as the first pass folds it. -/
def fa (lines : List Str) (acc : List Nat) : List Nat :=
  lines.foldl
    (fun a l =>
      (calloutNums l).foldl (fun acc n => if n ∈ acc then acc else acc ++ [n]) a)
    acc

/-- The renumbering a block with first-appearance list `L` applies to a
marker value. -/
def renIdx (L : List Nat) (n : Nat) : Nat :=
  if n ∈ L then L.indexOf n + 1 else n

/-- A callout-definition line `<k> rest`. -/
def dline (q : Nat × Str) : Str := '<' :: (toDec q.1 ++ '>' :: ' ' :: q.2)

/-! ## Theorems -/

theorem splitNL_ne_nil (s : Str) : splitNL s ≠ [] := by
  cases s with
  | nil => simp [splitNL]
  | cons c rest =>
    simp only [splitNL]
    by_cases h : c = '\n'
    · simp [h]
    · simp only [if_neg h]
      cases splitNL rest <;> simp

theorem joinNL_splitNL (s : Str) : joinNL (splitNL s) = s := by
  induction s with
  | nil => rfl
  | cons c rest ih =>
    simp only [splitNL]
    by_cases h : c = '\n'
    · subst h
      simp only [if_pos rfl]
      cases hs : splitNL rest with
      | nil => exact absurd hs (splitNL_ne_nil rest)
      | cons l ls => rw [hs] at ih; simpa [joinNL] using ih
    · simp only [if_neg h]
      cases hs : splitNL rest with
      | nil => exact absurd hs (splitNL_ne_nil rest)
      | cons l ls =>
        rw [hs] at ih
        cases ls with
        | nil => simpa [joinNL] using ih
        | cons l' ls' => simpa [joinNL] using ih

/-- C1 counterexample: in a 2-column grid, after a 1-column cell, a cell
declared `2+|` occupies only one grid column (the span is truncated at the row
edge, `min(col+colspan, expected_cols)`), not two; and the grid ends with a
single row, so placement does not resume at the point of overflow on a new
row. -/
theorem c1_counterexample :
    ¬ (occupies (build_grid [{ content := str "x" },
        { content := str "y", colspan := 2 }] 2) 1 = 2) ∧
    (build_grid [{ content := str "x" }, { content := str "y", colspan := 2 }] 2).length
      = 1 := by
  constructor
  · decide
  · decide

/-- C1 amended: a cell with colspan `k ≥ 1` placed at column 1 of a 2-column
grid occupies exactly `min k (2 - 1)` grid columns of its starting row — the
overflow is silently truncated at the row boundary rather than resumed on the
next row — and the grid is trimmed to the single row containing both cells. -/
theorem c1_amended (k : Nat) (hk : 1 ≤ k) (s t : Str) :
    build_grid [{ content := s }, { content := t, colspan := k }] 2 =
      [[Slot.cellAt 0 { content := s }, Slot.cellAt 1 { content := t, colspan := k }]] ∧
    occupies (build_grid [{ content := s }, { content := t, colspan := k }] 2) 1 =
      min k (2 - 1) := by
  obtain ⟨j, rfl⟩ : ∃ j, k = j + 1 := ⟨k - 1, by omega⟩
  have hmin : min (1 + (j + 1)) 2 - 1 = 1 := by omega
  have hge : 1 + (j + 1) ≥ 2 := by omega
  have e3 : placeCells 2 [(1, ({ content := t, colspan := j + 1 } : Cell))]
      ([[Slot.cellAt 0 { content := s }, Slot.free]] ++
        List.replicate 11 [Slot.free, Slot.free]) 0 1 =
      ([[Slot.cellAt 0 { content := s },
         Slot.cellAt 1 { content := t, colspan := j + 1 }]] ++
        List.replicate 11 [Slot.free, Slot.free]) := by
    simp only [placeCells]
    rw [show findPos ([[Slot.cellAt 0 { content := s }, Slot.free]] ++
          List.replicate 11 [Slot.free, Slot.free]) 2 0 1 = (0, 1) from rfl]
    rw [if_neg (by norm_num)]
    unfold stampCell
    rw [show (({ content := t, colspan := j + 1 } : Cell)).colspan = j + 1 from rfl,
        show (({ content := t, colspan := j + 1 } : Cell)).rowspan = 1 from rfl]
    rw [show (([[Slot.cellAt 0 { content := s }, Slot.free]] ++
          List.replicate 11 [Slot.free, Slot.free]) : List (List Slot)).length = 12
        from rfl]
    rw [show min (0 + 1) 12 - 0 = 1 from rfl, hmin]
    rw [if_pos hge]
    rfl
  have egrid : build_grid [{ content := s }, { content := t, colspan := j + 1 }] 2 =
      [[Slot.cellAt 0 { content := s },
        Slot.cellAt 1 { content := t, colspan := j + 1 }]] := by
    rw [show build_grid
        [({ content := s } : Cell), ({ content := t, colspan := j + 1 } : Cell)] 2 =
        trimTrailing (placeCells 2 [(1, ({ content := t, colspan := j + 1 } : Cell))]
          ([[Slot.cellAt 0 { content := s }, Slot.free]] ++
            List.replicate 11 [Slot.free, Slot.free]) 0 1) from rfl]
    rw [e3]
    rfl
  refine ⟨egrid, ?_⟩
  rw [egrid]
  simp [occupies, min_def]

/-- C1 amended, witnessed at `k = 2`: the colspan-2 cell at column 1 occupies
`min 2 1 = 1` column. -/
theorem c1_amended_witness :
    1 ≤ 2 ∧
    (build_grid [{ content := str "x" }, { content := str "y", colspan := 2 }] 2 =
      [[Slot.cellAt 0 { content := str "x" },
        Slot.cellAt 1 { content := str "y", colspan := 2 }]] ∧
     occupies (build_grid [{ content := str "x" },
        { content := str "y", colspan := 2 }] 2) 1 = min 2 (2 - 1)) :=
  ⟨by decide, c1_amended 2 (by decide) (str "x") (str "y")⟩

/-- C3 counterexample: `parse_and_fix_table` is not idempotent.  (a) On the
one-cell two-column table the second run re-emits the `Added empty cell` fix
record (the synthesized empty cell serializes to `| `, which re-extraction
drops).  (b) On the table whose second body line is `x|===` the first run is
fix-free but writes a body line `|===` (a cell whose content is the delimiter
text), which the second run skips as a table delimiter: the second run then
changes the lines themselves and reports a new fix. -/
theorem c3_counterexample :
    (parse_and_fix_table 2
      (parse_and_fix_table 2 [str "|===", str "|a", str "|==="]).1).2 ≠ [] ∧
    ((parse_and_fix_table 2
        [str "|===", str "|1.2+|A |B", str "x|===", str "|==="]).2 = [] ∧
      (parse_and_fix_table 2
        (parse_and_fix_table 2
          [str "|===", str "|1.2+|A |B", str "x|===", str "|==="]).1).1 ≠
        (parse_and_fix_table 2
          [str "|===", str "|1.2+|A |B", str "x|===", str "|==="]).1) := by
  exact ⟨by decide, by decide, by decide⟩

/-- C4 counterexample: a 1×1 grid with the span-free cell content `2+x`
(colspan 1, rowspan 1) does not round-trip: serialization gives `|2+x`, whose
re-extraction parses `2+` as a colspan prefix and returns content `x`. -/
theorem c4_counterexample :
    (extract_cells_from_lines
      (reconstruct_table (plainGrid [[str "2+x"]]))).map Cell.content ≠
      [str "2+x"] := by
  decide

/-- C5 counterexample: on a document with one callout block followed by its
definition and a trailing paragraph, running the passes in the spec's order
(placement, spacing, source-insertion, tables) returns a different result from
`fix_adoc_file`'s actual order (placement, source-insertion, spacing, tables):
the fix lists differ in order and in reported line numbers. -/
theorem c5_counterexample :
    spec_order_fix (str "----\na <1>\n----\n<1> d\nx") ≠
      fix_adoc_content (str "----\na <1>\n----\n<1> d\nx") := by
  decide

/-- C5 amended: `fix_adoc_file` applies the six passes in the order
link-bracket escaping, callout renumbering, callout placement,
**source-designation insertion**, **callout spacing**, table repair; at the
counterexample document the returned fix list shows the insertion pass's fix
(line 1) before the spacing pass's fix, whose reported line number (5) already
counts the line inserted by the source-designation pass. -/
theorem c5_amended :
    (∀ content,
      fix_adoc_content content =
        (let r1 := preprocess_adoc_link_brackets content
         let r2 := preprocess_adoc_callout_numbering r1.1
         let r3 := preprocess_adoc_callout_placement r2.1
         let r4 := preprocess_adoc_callouts r3.1
         let r5 := preprocess_adoc_callout_spacing r4.1
         let r6 := preprocess_adoc_tables r5.1
         (r6.1, r1.2 ++ r2.2 ++ r3.2 ++ r4.2 ++ r5.2 ++ r6.2))) ∧
    (fix_adoc_content (str "----\na <1>\n----\n<1> d\nx")).2 =
      [str "Line 1: Added [source,yaml] for block with callouts",
       str "Line 5: Added blank line after callout definitions"] := by
  exact ⟨fun _ => rfl, by decide⟩

/-- C7: `red_hat_docs_path` on a sidecar without a `productnumber` element.
`get_xml_element_text` returns `None`, which `Version(None)` turns into a
raised exception: the enumeration aborts and the following good entry is never
yielded, contradicting the skip-and-continue failure model (which the same
function does honour for the title).  The second conjunct shows the good entry
alone is yielded normally. -/
theorem c7_code_eval :
    red_hat_docs_path
      [⟨[str "docs", str "master.adoc"], some { title := some (str "T") }⟩,
       ⟨[str "docs2", str "master.adoc"],
        some { productnumber := some (str "18.0"), title := some (str "My Guide") }⟩]
      [str "out"] (str "18.0") [] [] = .error .typeErr ∧
    red_hat_docs_path
      [⟨[str "docs2", str "master.adoc"],
        some { productnumber := some (str "18.0"), title := some (str "My Guide") }⟩]
      [str "out"] (str "18.0") [] [] =
      .ok [([str "docs2", str "master.adoc"],
            [str "out", str "my_guide", str "master.txt"])] := by
  exact ⟨rfl, rfl⟩

/-- No total function satisfies the defining recurrence of
`resolve_adoc_includes` on the cyclic two-file graph: unfolding the recurrence
at each of the two files makes each resolved text strictly longer than the
other (the begin/end marker lines are nonempty), which is impossible. -/
theorem no_total_resolve : ¬ ∃ f : Str → Str → Str, SatisfiesResolve cycFS [] f := by
  rintro ⟨f, hf⟩
  have ea := hf (str "include::b.adoc[]") (str "a.adoc")
  have eb := hf (str "include::a.adoc[]") (str "b.adoc")
  rw [show resolveStep f cycFS [] (str "include::b.adoc[]") (str "a.adoc") =
      str "// BEGIN INCLUDE: b.adoc" ++
        '\n' :: (f (str "include::a.adoc[]") (str "b.adoc") ++
          '\n' :: str "// END INCLUDE: b.adoc") from rfl] at ea
  rw [show resolveStep f cycFS [] (str "include::a.adoc[]") (str "b.adoc") =
      str "// BEGIN INCLUDE: a.adoc" ++
        '\n' :: (f (str "include::b.adoc[]") (str "a.adoc") ++
          '\n' :: str "// END INCLUDE: a.adoc") from rfl] at eb
  have la := congrArg List.length ea
  have lb := congrArg List.length eb
  simp only [List.length_append, List.length_cons,
    show (str "// BEGIN INCLUDE: b.adoc").length = 24 from rfl,
    show (str "// END INCLUDE: b.adoc").length = 22 from rfl,
    show (str "// BEGIN INCLUDE: a.adoc").length = 24 from rfl,
    show (str "// END INCLUDE: a.adoc").length = 22 from rfl] at la lb
  omega

/-- C8 counterexample: `resolve_adoc_includes` does **not** terminate on a
cyclic include graph — it has no visited set, and no total function can
satisfy its recursion on the `a.adoc`/`b.adoc` two-cycle. -/
theorem c8_counterexample : ¬ ∃ f : Str → Str → Str, SatisfiesResolve cycFS [] f :=
  no_total_resolve

/-- C8 amended: `find_included_files`, whose worklist loop is bounded by a
visited set, resolves the `a.adoc`/`b.adoc` two-cycle to exactly the finite
set `{a.adoc, b.adoc}` (as a duplicate-free list); `resolve_adoc_includes`,
which lacks the visited set, admits no terminating run on that same cycle. -/
theorem c8_amended :
    ((∀ x, x ∈ find_included_files cycFS (str "a.adoc") [] ↔
        (x = str "a.adoc" ∨ x = str "b.adoc")) ∧
     (find_included_files cycFS (str "a.adoc") []).Nodup) ∧
    ¬ ∃ f : Str → Str → Str, SatisfiesResolve cycFS [] f := by
  refine ⟨⟨?_, ?_⟩, no_total_resolve⟩
  · intro x
    rw [show find_included_files cycFS (str "a.adoc") [] =
        [str "b.adoc", str "a.adoc"] from rfl]
    simp [or_comm]
  · rw [show find_included_files cycFS (str "a.adoc") [] =
        [str "b.adoc", str "a.adoc"] from rfl]
    decide

/-- With no `|===` line the tables fold copies every line through
unchanged. -/
theorem tables_fold_no_table (ls : List Str) (acc : List Str)
    (h : ∀ l ∈ ls, startsW (str "|===") l = false) :
    ls.foldl tablesStep ⟨acc, false, 0, [], []⟩ = ⟨acc ++ ls, false, 0, [], []⟩ := by
  induction ls generalizing acc with
  | nil => simp
  | cons l rest ih =>
    have hl : startsW (str "|===") l = false := h l (by simp)
    have hstep : tablesStep ⟨acc, false, 0, [], []⟩ l = ⟨acc ++ [l], false, 0, [], []⟩ := by
      simp [tablesStep, hl]
    rw [List.foldl_cons, hstep,
      ih (acc ++ [l]) (fun x hx => h x (List.mem_cons_of_mem _ hx))]
    simp

/-- C9: for every nonempty content with no table delimiter line and no
trailing newline, `preprocess_adoc_tables` returns the content with exactly
one appended newline and an empty fix list; consequently `fix_adoc_file` on a
file such as `hello` rewrites it (content differs) while returning no fix
descriptions. -/
theorem c9_trailing_newline :
    (∀ content : Str, content ≠ [] →
      (∀ l ∈ splitNL content, startsW (str "|===") l = false) →
      endsW ['\n'] content = false →
      preprocess_adoc_tables content = (content ++ ['\n'], [])) ∧
    (fix_adoc_content (str "hello") = (str "hello" ++ ['\n'], []) ∧
     str "hello" ++ ['\n'] ≠ str "hello") := by
  constructor
  · intro content h1 h2 h3
    unfold preprocess_adoc_tables
    dsimp only
    rw [show (({} : TablesState)) = (⟨[], false, 0, [], []⟩ : TablesState) from rfl]
    rw [tables_fold_no_table (splitNL content) [] h2]
    simp only [List.nil_append, Bool.false_eq_true, false_and, if_false]
    rw [joinNL_splitNL]
    rw [if_pos (by simp [List.isEmpty_iff, h1, h3])]
  · exact ⟨by decide, by decide⟩

/-- C9 witness: `hello` satisfies the hypotheses and gains one newline. -/
theorem c9_trailing_newline_witness :
    (str "hello" ≠ [] ∧
     (∀ l ∈ splitNL (str "hello"), startsW (str "|===") l = false) ∧
     endsW ['\n'] (str "hello") = false) ∧
    preprocess_adoc_tables (str "hello") = (str "hello" ++ ['\n'], []) :=
  ⟨⟨by decide, by decide, by decide⟩,
   c9_trailing_newline.1 (str "hello") (by decide) (by decide) (by decide)⟩

theorem detPick0 (n0 n1 n2 n3 n4 n5 d : Str) (s0 s1 s2 s3 s4 s5 : Nat)
    (hpos : 0 < s0) (hm1 : s1 ≤ s0) (hm2 : s2 ≤ s0)
    (hm3 : s3 ≤ s0) (hm4 : s4 ≤ s0) (hm5 : s5 ≤ s0) :
    detectExpr [(n0,s0),(n1,s1),(n2,s2),(n3,s3),(n4,s4),(n5,s5)] d = n0 := by
  unfold detectExpr
  rw [if_pos (by simp only [List.map, List.foldl]; omega)]
  simp only [pyMaxBySnd, List.foldl]
  split_ifs <;> first | rfl | (exfalso; omega)

theorem detPick1 (n0 n1 n2 n3 n4 n5 d : Str) (s0 s1 s2 s3 s4 s5 : Nat)
    (hpos : 0 < s1) (hu0 : s0 < s1) (hm2 : s2 ≤ s1)
    (hm3 : s3 ≤ s1) (hm4 : s4 ≤ s1) (hm5 : s5 ≤ s1) :
    detectExpr [(n0,s0),(n1,s1),(n2,s2),(n3,s3),(n4,s4),(n5,s5)] d = n1 := by
  unfold detectExpr
  rw [if_pos (by simp only [List.map, List.foldl]; omega)]
  simp only [pyMaxBySnd, List.foldl]
  split_ifs <;> first | rfl | (exfalso; omega)

theorem detPick2 (n0 n1 n2 n3 n4 n5 d : Str) (s0 s1 s2 s3 s4 s5 : Nat)
    (hpos : 0 < s2) (hu0 : s0 < s2) (hu1 : s1 < s2)
    (hm3 : s3 ≤ s2) (hm4 : s4 ≤ s2) (hm5 : s5 ≤ s2) :
    detectExpr [(n0,s0),(n1,s1),(n2,s2),(n3,s3),(n4,s4),(n5,s5)] d = n2 := by
  unfold detectExpr
  rw [if_pos (by simp only [List.map, List.foldl]; omega)]
  simp only [pyMaxBySnd, List.foldl]
  split_ifs <;> first | rfl | (exfalso; omega)

theorem detPick3 (n0 n1 n2 n3 n4 n5 d : Str) (s0 s1 s2 s3 s4 s5 : Nat)
    (hpos : 0 < s3) (hu0 : s0 < s3) (hu1 : s1 < s3) (hu2 : s2 < s3)
    (hm4 : s4 ≤ s3) (hm5 : s5 ≤ s3) :
    detectExpr [(n0,s0),(n1,s1),(n2,s2),(n3,s3),(n4,s4),(n5,s5)] d = n3 := by
  unfold detectExpr
  rw [if_pos (by simp only [List.map, List.foldl]; omega)]
  simp only [pyMaxBySnd, List.foldl]
  split_ifs <;> first | rfl | (exfalso; omega)

theorem detPick4 (n0 n1 n2 n3 n4 n5 d : Str) (s0 s1 s2 s3 s4 s5 : Nat)
    (hpos : 0 < s4) (hu0 : s0 < s4) (hu1 : s1 < s4) (hu2 : s2 < s4)
    (hu3 : s3 < s4) (hm5 : s5 ≤ s4) :
    detectExpr [(n0,s0),(n1,s1),(n2,s2),(n3,s3),(n4,s4),(n5,s5)] d = n4 := by
  unfold detectExpr
  rw [if_pos (by simp only [List.map, List.foldl]; omega)]
  simp only [pyMaxBySnd, List.foldl]
  split_ifs <;> first | rfl | (exfalso; omega)

theorem detPick5 (n0 n1 n2 n3 n4 n5 d : Str) (s0 s1 s2 s3 s4 s5 : Nat)
    (hpos : 0 < s5) (hu0 : s0 < s5) (hu1 : s1 < s5) (hu2 : s2 < s5)
    (hu3 : s3 < s5) (hu4 : s4 < s5) :
    detectExpr [(n0,s0),(n1,s1),(n2,s2),(n3,s3),(n4,s4),(n5,s5)] d = n5 := by
  unfold detectExpr
  rw [if_pos (by simp only [List.map, List.foldl]; omega)]
  simp only [pyMaxBySnd, List.foldl]
  split_ifs <;> first | rfl | (exfalso; omega)

theorem detPickZero (n0 n1 n2 n3 n4 n5 d : Str) (s0 s1 s2 s3 s4 s5 : Nat)
    (h0 : s0 = 0) (h1 : s1 = 0) (h2 : s2 = 0)
    (h3 : s3 = 0) (h4 : s4 = 0) (h5 : s5 = 0) :
    detectExpr [(n0,s0),(n1,s1),(n2,s2),(n3,s3),(n4,s4),(n5,s5)] d = d := by
  unfold detectExpr
  rw [if_neg (by simp only [List.map, List.foldl]; omega)]

/-- C6 counterexample: the one-line block `[DEFAULT]` scores 1 for both INI
(section header) and JSON (opens with `[`) while every other family scores 0 —
a tie for the highest score — yet `detect_block_language` returns `ini`, not
the claimed `yaml` default. -/
theorem c6_counterexample :
    famScore [str "[DEFAULT]"] 2 = 1 ∧ famScore [str "[DEFAULT]"] 5 = 1 ∧
    (∀ j, j < 6 → famScore [str "[DEFAULT]"] j ≤ 1) ∧
    detect_block_language [str "[DEFAULT]"] ≠ str "yaml" := by
  refine ⟨by decide, by decide, ?_, by decide⟩
  intro j hj
  interval_cases j <;> decide

/-- C6 amended: `detect_block_language` returns the family with the strictly
highest signature score; on a tie it returns the **earliest tied family in the
fixed order yaml, bash, ini, python, xml, json** (Python's `max` keeps the
first maximal item), which is `yaml` only when yaml participates in the tie;
only the all-zero case unconditionally defaults to `yaml`. -/
theorem c6_amended :
    (∀ (bl : List Str) (i : Nat), i < 6 → 0 < famScore bl i →
      (∀ j, j < i → famScore bl j < famScore bl i) →
      (∀ j, j < 6 → famScore bl j ≤ famScore bl i) →
      detect_block_language bl = famNames.getD i []) ∧
    (∀ bl : List Str, (∀ j, j < 6 → famScore bl j = 0) →
      detect_block_language bl = str "yaml") := by
  have base : ∀ bl : List Str, detect_block_language bl =
      detectExpr [(str "yaml", famScore bl 0), (str "bash", famScore bl 1),
        (str "ini", famScore bl 2), (str "python", famScore bl 3),
        (str "xml", famScore bl 4), (str "json", famScore bl 5)] (str "yaml") :=
    fun _ => rfl
  constructor
  · intro bl i hi hpos hup hmax
    rw [base]
    interval_cases i
    · exact detPick0 _ _ _ _ _ _ _ _ _ _ _ _ _ hpos (hmax 1 (by omega))
        (hmax 2 (by omega)) (hmax 3 (by omega)) (hmax 4 (by omega)) (hmax 5 (by omega))
    · exact detPick1 _ _ _ _ _ _ _ _ _ _ _ _ _ hpos (hup 0 (by omega))
        (hmax 2 (by omega)) (hmax 3 (by omega)) (hmax 4 (by omega)) (hmax 5 (by omega))
    · exact detPick2 _ _ _ _ _ _ _ _ _ _ _ _ _ hpos (hup 0 (by omega))
        (hup 1 (by omega)) (hmax 3 (by omega)) (hmax 4 (by omega)) (hmax 5 (by omega))
    · exact detPick3 _ _ _ _ _ _ _ _ _ _ _ _ _ hpos (hup 0 (by omega))
        (hup 1 (by omega)) (hup 2 (by omega)) (hmax 4 (by omega)) (hmax 5 (by omega))
    · exact detPick4 _ _ _ _ _ _ _ _ _ _ _ _ _ hpos (hup 0 (by omega))
        (hup 1 (by omega)) (hup 2 (by omega)) (hup 3 (by omega)) (hmax 5 (by omega))
    · exact detPick5 _ _ _ _ _ _ _ _ _ _ _ _ _ hpos (hup 0 (by omega))
        (hup 1 (by omega)) (hup 2 (by omega)) (hup 3 (by omega)) (hup 4 (by omega))
  · intro bl hz
    rw [base]
    exact detPickZero _ _ _ _ _ _ _ _ _ _ _ _ _ (hz 0 (by omega)) (hz 1 (by omega))
      (hz 2 (by omega)) (hz 3 (by omega)) (hz 4 (by omega)) (hz 5 (by omega))

/-- C6 amended, witnessed on `[DEFAULT]`: ini (index 2) is the first family
attaining the maximal score 1, and the heuristic returns `ini`. -/
theorem c6_amended_witness :
    (2 < 6 ∧ 0 < famScore [str "[DEFAULT]"] 2 ∧
     (∀ j, j < 2 → famScore [str "[DEFAULT]"] j < famScore [str "[DEFAULT]"] 2) ∧
     (∀ j, j < 6 → famScore [str "[DEFAULT]"] j ≤ famScore [str "[DEFAULT]"] 2)) ∧
    detect_block_language [str "[DEFAULT]"] = famNames.getD 2 [] := by
  have h1 : ∀ j, j < 2 → famScore [str "[DEFAULT]"] j < famScore [str "[DEFAULT]"] 2 := by
    intro j hj; interval_cases j <;> decide
  have h2 : ∀ j, j < 6 → famScore [str "[DEFAULT]"] j ≤ famScore [str "[DEFAULT]"] 2 := by
    intro j hj; interval_cases j <;> decide
  exact ⟨⟨by omega, by decide, h1, h2⟩,
    c6_amended.1 [str "[DEFAULT]"] 2 (by omega) (by decide) h1 h2⟩

end Rag

namespace Rag
theorem span_plus {s : Str} {n : Nat} (h : matchSpanBdry s = some n) : '+' ∈ s := by
  have hsub1 : (s.dropWhile isPyWS).Sublist s := List.dropWhile_sublist _
  unfold matchSpanBdry at h
  dsimp only at h
  split at h
  · simp at h
  · split at h
    · next r3 heq =>
      split at h
      · next t hinner =>
        have h3 : '+' ∈ '+' :: '|' :: t := List.mem_cons_self _ _
        rw [← hinner] at h3
        have h4 : '+' ∈ '.' :: r3 :=
          List.mem_cons_of_mem _ ((List.drop_sublist _ _).mem h3)
        rw [← heq] at h4
        exact hsub1.mem ((List.drop_sublist _ _).mem h4)
      · simp at h
    · next t heq =>
      have h3 : '+' ∈ '+' :: '|' :: t := List.mem_cons_self _ _
      rw [← heq] at h3
      exact hsub1.mem ((List.drop_sublist _ _).mem h3)
    · simp at h

theorem spanSpec_plus {s : Str} {r : Nat × Nat × Str} (h : matchSpanSpec s = some r) :
    '+' ∈ s := by
  unfold matchSpanSpec at h
  dsimp only at h
  split at h
  · simp at h
  · split at h
    · next r2 heq =>
      split at h
      · simp at h
      · split at h
        · next r3 hinner =>
          have h3 : '+' ∈ '+' :: '|' :: r3 := List.mem_cons_self _ _
          rw [← hinner] at h3
          have h4 : '+' ∈ '.' :: r2 :=
            List.mem_cons_of_mem _ ((List.drop_sublist _ _).mem h3)
          rw [← heq] at h4
          exact (List.drop_sublist _ _).mem h4
        · next x3 r3 hne hinner =>
          have h3 : '+' ∈ '+' :: r3 := List.mem_cons_self _ _
          rw [← hinner] at h3
          have h4 : '+' ∈ '.' :: r2 :=
            List.mem_cons_of_mem _ ((List.drop_sublist _ _).mem h3)
          rw [← heq] at h4
          exact (List.drop_sublist _ _).mem h4
        · simp at h
    · simp at h

theorem colspanSpec_plus {s : Str} {r : Nat × Str} (h : matchColspanSpec s = some r) :
    '+' ∈ s := by
  unfold matchColspanSpec at h
  dsimp only at h
  split at h
  · simp at h
  · split at h
    · next r2 heq =>
      have h3 : '+' ∈ '+' :: '|' :: r2 := List.mem_cons_self _ _
      rw [← heq] at h3
      exact (List.drop_sublist _ _).mem h3
    · next x2 r2 hne heq =>
      have h3 : '+' ∈ '+' :: r2 := List.mem_cons_self _ _
      rw [← heq] at h3
      exact (List.drop_sublist _ _).mem h3
    · simp at h

theorem spanSpec_none_of_no_plus {s : Str} (h : '+' ∉ s) : matchSpanSpec s = none := by
  cases hm : matchSpanSpec s with
  | none => rfl
  | some r => exact absurd (spanSpec_plus hm) h

theorem colspanSpec_none_of_no_plus {s : Str} (h : '+' ∉ s) : matchColspanSpec s = none := by
  cases hm : matchColspanSpec s with
  | none => rfl
  | some r => exact absurd (colspanSpec_plus hm) h

theorem pyLStrip_eq_self {l : Str} (h : ∀ a ∈ l.head?, isPyWS a = false) :
    pyLStrip l = l := by
  cases l with
  | nil => rfl
  | cons c t =>
    have := h c (by simp)
    simp [pyLStrip, List.dropWhile_cons, this]

theorem pyRStrip_eq_self {l : Str} (h : ∀ a ∈ l.getLast?, isPyWS a = false) :
    pyRStrip l = l := by
  unfold pyRStrip
  cases hr : l.reverse with
  | nil => simp [List.reverse_eq_nil_iff.mp hr]
  | cons c t =>
    have hc : l.getLast? = some c := by
      rw [← List.head?_reverse, hr]; rfl
    have := h c (by simp [hc])
    rw [List.dropWhile_cons, this]
    simp [← hr]

theorem pyStrip_eq_self {l : Str} (h1 : ∀ a ∈ l.head?, isPyWS a = false)
    (h2 : ∀ a ∈ l.getLast?, isPyWS a = false) : pyStrip l = l := by
  unfold pyStrip
  rw [pyLStrip_eq_self h1, pyRStrip_eq_self h2]

theorem pyRStrip_append_space (l : Str) : pyRStrip (l ++ [' ']) = pyRStrip l := by
  unfold pyRStrip
  simp [List.dropWhile_cons, isPyWS]

theorem pyStrip_append_space {l : Str} (hne : l ≠ [])
    (h1 : ∀ a ∈ l.head?, isPyWS a = false)
    (h2 : ∀ a ∈ l.getLast?, isPyWS a = false) : pyStrip (l ++ [' ']) = l := by
  unfold pyStrip
  have hl : pyLStrip (l ++ [' ']) = l ++ [' '] := by
    cases l with
    | nil => exact absurd rfl hne
    | cons c t =>
      have := h1 c (by simp)
      simp [pyLStrip, List.dropWhile_cons, this]
  rw [hl, pyRStrip_append_space, pyRStrip_eq_self h2]

theorem parse_core (c : Str) (hG : GoodContent c) (ln : Nat)
    (seg : Str) (hstrip : pyStrip seg = '|' :: c) :
    parseCellSegment seg ln = some ⟨c, 1, 1, [], ln⟩ := by
  obtain ⟨hcne, hchead, hclast, hcpipe, hcplus, he3, he4⟩ := hG
  unfold parseCellSegment
  dsimp only
  rw [hstrip]
  rw [if_neg (by simp)]
  rw [show dropLeadPipe ('|' :: c) = c from rfl]
  have hspan : spanStep c = (1, 1, c) := by
    unfold spanStep
    rw [spanSpec_none_of_no_plus hcplus, colspanSpec_none_of_no_plus hcplus]
  rw [hspan]
  have hfmt : fmtStep c = ([], c) := by
    unfold fmtStep
    split
    · next c1 r heq =>
      exact absurd (List.mem_cons_of_mem _ (List.mem_cons_self _ _)) hcpipe
    · rfl
  dsimp only
  rw [hfmt]
  dsimp only
  rw [pyStrip_eq_self hchead hclast]
  rw [if_neg (by simp [hcne])]
end Rag

namespace Rag
theorem rowLine_head (c : Str) (rest : List Str) :
    ∃ t, rowLine (c :: rest) = '|' :: t := by
  cases rest with
  | nil => exact ⟨c, by simp [rowLine, List.map, joinSep]⟩
  | cons c2 r2 => exact ⟨c ++ [' '] ++ rowLine (c2 :: r2), by simp [rowLine, List.map, joinSep]⟩

theorem getLast?_pipe_cons {c : Str} (h : c ≠ []) :
    ('|' :: c).getLast? = c.getLast? := by
  cases c with
  | nil => exact absurd rfl h
  | cons a t => exact List.getLast?_cons_cons

theorem segs_row (row : List Str) : ∀ (i : Nat) (L : Str) (ln : Nat),
    row ≠ [] → (∀ c ∈ row, GoodContent c) →
    L.drop i = rowLine row → i ≤ L.length →
    ((rowPositions row i ++ [L.length]).zip
        ((rowPositions row i ++ [L.length]).tail)).filterMap
      (fun q => parseCellSegment ((L.drop q.1).take (q.2 - q.1)) ln) =
      row.map (fun c => (⟨c, 1, 1, [], ln⟩ : Cell)) := by
  induction row with
  | nil => intro i L ln hne _ _ _; exact absurd rfl hne
  | cons c rest ih =>
    intro i L ln _ hG hdrop hile
    have hGc := hG c (by simp)
    have hlen : (L.drop i).length = L.length - i := List.length_drop _ _
    cases rest with
    | nil =>
      have hr : rowLine [c] = '|' :: c := by simp [rowLine, List.map, joinSep]
      rw [hr] at hdrop
      simp only [rowPositions, List.nil_append, List.cons_append, List.tail,
        List.zip_cons_cons, List.zip_nil_right, List.filterMap]
      have hseg : (L.drop i).take (L.length - i) = '|' :: c := by
        rw [← hlen, List.take_length, hdrop]
      rw [hseg]
      rw [parse_core c hGc ln _ (pyStrip_eq_self
        (by intro a ha; simp at ha; rw [← ha]; rfl)
        (by
          rw [getLast?_pipe_cons hGc.1]
          exact hGc.2.2.1))]
      rfl
    | cons c2 rest2 =>
      have hr : rowLine (c :: c2 :: rest2) =
          (('|' :: c) ++ [' ']) ++ rowLine (c2 :: rest2) := by
        simp [rowLine, List.map, joinSep]
      rw [hr] at hdrop
      have hi2 : i + (c.length + 2) ≤ L.length := by
        have h9 : (L.drop i).length = (('|' :: c) ++ [' ']).length +
            (rowLine (c2 :: rest2)).length := by
          rw [hdrop]
          simp only [List.length_append, List.length_cons, List.length_nil]
          try omega
        simp only [List.length_append, List.length_cons, List.length_nil] at h9
        omega
      have hdrop2 : L.drop (i + c.length + 2) = rowLine (c2 :: rest2) := by
        have : L.drop (i + c.length + 2) = (L.drop i).drop (c.length + 2) := by
          rw [List.drop_drop]; congr 1; try omega
        rw [this, hdrop]
        rw [show ('|' :: c ++ [' ']) ++ rowLine (c2 :: rest2) =
            (('|' :: c) ++ [' ']) ++ rowLine (c2 :: rest2) from by simp]
        rw [show c.length + 2 = (('|' :: c) ++ [' ']).length from by
          simp only [List.length_append, List.length_cons, List.length_nil]; try omega]
        exact List.drop_left _ _
      have hseg1 : (L.drop i).take (i + c.length + 2 - i) = ('|' :: c) ++ [' '] := by
        rw [hdrop]
        rw [show i + c.length + 2 - i = (('|' :: c) ++ [' ']).length from by
          simp only [List.length_append, List.length_cons, List.length_nil]; try omega]
        rw [show ('|' :: c ++ [' ']) ++ rowLine (c2 :: rest2) =
            (('|' :: c) ++ [' ']) ++ rowLine (c2 :: rest2) from by simp]
        exact List.take_left _ _
      have hzip : ((rowPositions (c :: c2 :: rest2) i ++ [L.length]).zip
          ((rowPositions (c :: c2 :: rest2) i ++ [L.length]).tail)) =
          (i, i + c.length + 2) ::
          ((rowPositions (c2 :: rest2) (i + c.length + 2) ++ [L.length]).zip
            ((rowPositions (c2 :: rest2) (i + c.length + 2) ++ [L.length]).tail)) := rfl
      rw [hzip]
      have hfa : (fun q : Nat × Nat =>
          parseCellSegment ((L.drop q.1).take (q.2 - q.1)) ln) (i, i + c.length + 2) =
          some ⟨c, 1, 1, [], ln⟩ := by
        dsimp only
        rw [hseg1]
        exact parse_core c hGc ln _ (pyStrip_append_space (by simp)
          (by intro a ha; simp at ha; rw [← ha]; rfl)
          (by rw [getLast?_pipe_cons hGc.1]; exact hGc.2.2.1))
      have key : List.filterMap
          (fun q : Nat × Nat => parseCellSegment ((L.drop q.1).take (q.2 - q.1)) ln)
          ((i, i + c.length + 2) ::
            ((rowPositions (c2 :: rest2) (i + c.length + 2) ++ [L.length]).zip
              ((rowPositions (c2 :: rest2) (i + c.length + 2) ++ [L.length]).tail))) =
          (⟨c, 1, 1, [], ln⟩ : Cell) :: List.filterMap
            (fun q : Nat × Nat => parseCellSegment ((L.drop q.1).take (q.2 - q.1)) ln)
            ((rowPositions (c2 :: rest2) (i + c.length + 2) ++ [L.length]).zip
              ((rowPositions (c2 :: rest2) (i + c.length + 2) ++ [L.length]).tail)) :=
        List.filterMap_cons_some hfa
      rw [key]
      rw [ih (i + c.length + 2) L ln (by simp)
        (fun x hx => hG x (List.mem_cons_of_mem _ hx)) hdrop2 (by omega)]
      rfl
end Rag

namespace Rag
theorem span_none_of_no_plus {s : Str} (h : '+' ∉ s) : matchSpanBdry s = none := by
  cases hm : matchSpanBdry s with
  | none => rfl
  | some n => exact absurd (span_plus hm) h

theorem bAux_skip (c : Char) (rest : Str) (i : Nat) (prev : Option Char)
    (hc : c ≠ '|') (hspan : matchSpanBdry (c :: rest) = none) :
    boundaryStartsAux (c :: rest).length (c :: rest) i prev =
      boundaryStartsAux rest.length rest (i + 1) (some c) := by
  show boundaryStartsAux (rest.length + 1) (c :: rest) i prev = _
  simp only [boundaryStartsAux, hspan]
  simp [hc]

theorem bAux_pipe (rest : Str) (i : Nat) (prev : Option Char)
    (hplus : '+' ∉ '|' :: rest) (hprev : prev = none ∨ prev = some ' ') :
    boundaryStartsAux ('|' :: rest).length ('|' :: rest) i prev =
      i :: boundaryStartsAux rest.length rest (i + 1) (some '|') := by
  have hspan := span_none_of_no_plus hplus
  show boundaryStartsAux (rest.length + 1) ('|' :: rest) i prev = _
  simp only [boundaryStartsAux, hspan]
  rcases hprev with rfl | rfl <;> simp

theorem bAux_walk (u : Str) : ∀ (v : Str) (i : Nat) (prev : Option Char),
    '|' ∉ u → '+' ∉ u ++ v →
    boundaryStartsAux (u ++ v).length (u ++ v) i prev =
      boundaryStartsAux v.length v (i + u.length)
        (match u.getLast? with | some a => some a | none => prev) := by
  induction u with
  | nil => intro v i prev _ _; simp
  | cons c t ih =>
    intro v i prev hpipe hplus
    have hc : c ≠ '|' := fun h => hpipe (h ▸ List.mem_cons_self _ _)
    have hspan : matchSpanBdry (c :: (t ++ v)) = none :=
      span_none_of_no_plus (by simpa using hplus)
    rw [show (c :: t) ++ v = c :: (t ++ v) from rfl]
    rw [bAux_skip c (t ++ v) i prev hc hspan]
    rw [ih v (i + 1) (some c) (fun h => hpipe (List.mem_cons_of_mem _ h))
      (by intro h; exact hplus (by simpa using Or.inr h))]
    cases hgl : t.getLast? with
    | none =>
      have : t = [] := List.getLast?_eq_none_iff.mp hgl
      subst this
      simp [List.getLast?]
    | some a =>
      have h2 : (c :: t).getLast? = some a := by
        cases t with
        | nil => simp [List.getLast?] at hgl
        | cons b t2 => rw [← hgl]; simp [List.getLast?_cons_cons]
      rw [h2]
      congr 1
      simp only [List.length_cons]
      omega
end Rag

namespace Rag
theorem plus_not_rowLine {row : List Str} (h : ∀ c ∈ row, '+' ∉ c) :
    '+' ∉ rowLine row := by
  induction row with
  | nil => simp [rowLine, joinSep]
  | cons c rest ih =>
    cases rest with
    | nil =>
      simp only [rowLine, List.map, joinSep]
      intro hm
      rcases List.mem_cons.mp hm with h1 | h1
      · exact absurd h1 (by decide)
      · exact h c (by simp) h1
    | cons c2 rest2 =>
      have hr : rowLine (c :: c2 :: rest2) =
          ('|' :: c) ++ [' '] ++ rowLine (c2 :: rest2) := by
        simp [rowLine, List.map, joinSep]
      rw [hr]
      intro hm
      rcases List.mem_append.mp hm with h1 | h1
      · rcases List.mem_append.mp h1 with h2 | h2
        · rcases List.mem_cons.mp h2 with h3 | h3
          · exact absurd h3 (by decide)
          · exact h c (by simp) h3
        · simp at h2
      · exact ih (fun x hx => h x (List.mem_cons_of_mem _ hx)) h1

theorem pipe_not_in_chunk {c : Str} (h : '|' ∉ c) : '|' ∉ c ++ [' '] := by
  intro hm
  rcases List.mem_append.mp hm with h1 | h1
  · exact h h1
  · simp at h1

theorem bStarts_row (row : List Str) : ∀ (i : Nat) (prev : Option Char),
    row ≠ [] → (∀ c ∈ row, GoodContent c) → (prev = none ∨ prev = some ' ') →
    boundaryStartsAux (rowLine row).length (rowLine row) i prev =
      rowPositions row i := by
  induction row with
  | nil => intro i prev hne _ _; exact absurd rfl hne
  | cons c rest ih =>
    intro i prev _ hG hprev
    have hGc := hG c (by simp)
    obtain ⟨hcne, hchead, hclast, hcpipe, hcplus, _, _⟩ := hGc
    cases rest with
    | nil =>
      have hr : rowLine [c] = '|' :: c := by simp [rowLine, List.map, joinSep]
      rw [hr]
      rw [bAux_pipe c i prev
        (by intro hm; rcases List.mem_cons.mp hm with h1 | h1;
            · exact absurd h1 (by decide)
            · exact hcplus h1) hprev]
      rw [show (c : Str) = c ++ [] by simp]
      rw [bAux_walk c [] (i + 1) (some '|') hcpipe (by simpa using hcplus)]
      simp [rowPositions, boundaryStartsAux]
    | cons c2 rest2 =>
      have hr : rowLine (c :: c2 :: rest2) =
          '|' :: ((c ++ [' ']) ++ rowLine (c2 :: rest2)) := by
        simp [rowLine, List.map, joinSep]
      rw [hr]
      have hplusrest : '+' ∉ rowLine (c2 :: rest2) :=
        plus_not_rowLine (fun x hx => (hG x (List.mem_cons_of_mem _ hx)).2.2.2.2.1)
      have hplustail : '+' ∉ (c ++ [' ']) ++ rowLine (c2 :: rest2) := by
        intro hm
        rcases List.mem_append.mp hm with h1 | h1
        · rcases List.mem_append.mp h1 with h2 | h2
          · exact hcplus h2
          · simp at h2
        · exact hplusrest h1
      rw [bAux_pipe _ i prev
        (by intro hm; rcases List.mem_cons.mp hm with h1 | h1;
            · exact absurd h1 (by decide)
            · exact hplustail h1) hprev]
      rw [bAux_walk (c ++ [' ']) (rowLine (c2 :: rest2)) (i + 1) (some '|')
        (pipe_not_in_chunk hcpipe) hplustail]
      rw [show (c ++ [' ']).getLast? = some ' ' by simp]
      rw [ih (i + 1 + (c ++ [' ']).length) (some ' ') (by simp) 
        (fun x hx => hG x (List.mem_cons_of_mem _ hx)) (Or.inr rfl)]
      rw [show i + 1 + (c ++ [' ']).length = i + c.length + 2 by
        simp only [List.length_append, List.length_cons, List.length_nil]; omega]
      rfl
end Rag

namespace Rag
theorem getLast?_ne_nil {α : Type} (x : α) (l : List α) :
    ∃ z, (x :: l).getLast? = some z := by
  induction l generalizing x with
  | nil => exact ⟨x, rfl⟩
  | cons y ys ih =>
    obtain ⟨z, hz⟩ := ih y
    exact ⟨z, by rw [List.getLast?_cons_cons]; exact hz⟩

theorem rowLine_getLast {row : List Str} (hne : row ≠ [])
    (hG : ∀ c ∈ row, GoodContent c) :
    ∀ a ∈ (rowLine row).getLast?, isPyWS a = false := by
  induction row with
  | nil => exact absurd rfl hne
  | cons c rest ih =>
    cases rest with
    | nil =>
      have hr : rowLine [c] = '|' :: c := by simp [rowLine, List.map, joinSep]
      rw [hr, getLast?_pipe_cons (hG c (by simp)).1]
      exact (hG c (by simp)).2.2.1
    | cons c2 rest2 =>
      have hr : rowLine (c :: c2 :: rest2) =
          (('|' :: c) ++ [' ']) ++ rowLine (c2 :: rest2) := by
        simp [rowLine, List.map, joinSep]
      obtain ⟨t, ht⟩ := rowLine_head c2 rest2
      intro a ha
      rw [hr, List.getLast?_append] at ha
      obtain ⟨z, hz⟩ : ∃ z, (rowLine (c2 :: rest2)).getLast? = some z := by
        rw [ht]; exact getLast?_ne_nil '|' t
      rw [hz] at ha
      simp [Option.or] at ha
      subst ha
      exact ih (by simp) (fun x hx => hG x (List.mem_cons_of_mem _ hx)) z
        (by rw [hz]; rfl)

theorem extractLine_skip_delim (ln : Nat) : extractLineCells ln (str "|===") = [] := by
  unfold extractLineCells
  rw [show pyStrip (str "|===") = str "|===" from rfl]
  rw [if_pos (by decide)]

theorem extractLine_row (row : List Str) (ln : Nat) (hne : row ≠ [])
    (hG : ∀ c ∈ row, GoodContent c) :
    extractLineCells ln (rowLine row) =
      row.map (fun c => (⟨c, 1, 1, [], ln⟩ : Cell)) := by
  obtain ⟨c0, rest0, rfl⟩ : ∃ c0 rest0, row = c0 :: rest0 := by
    cases row with
    | nil => exact absurd rfl hne
    | cons a b => exact ⟨a, b, rfl⟩
  obtain ⟨t, ht⟩ := rowLine_head c0 rest0
  have hhead : ∀ a ∈ (rowLine (c0 :: rest0)).head?, isPyWS a = false := by
    intro a ha
    rw [ht] at ha
    simp at ha
    rw [← ha]
    rfl
  have hstrip : pyStrip (rowLine (c0 :: rest0)) = rowLine (c0 :: rest0) :=
    pyStrip_eq_self hhead (rowLine_getLast (by simp) hG)
  unfold extractLineCells
  rw [hstrip]
  rw [if_neg ?hskip]
  case hskip =>
    intro hcon
    rcases Bool.or_eq_true_iff.mp hcon with h1 | h1
    · rcases Bool.or_eq_true_iff.mp h1 with h2 | h2
      · rw [ht] at h2; simp [List.isEmpty] at h2
      · have heq : rowLine (c0 :: rest0) = str "|===" := by
          simpa using h2
        cases rest0 with
        | nil =>
          have : rowLine [c0] = '|' :: c0 := by simp [rowLine, List.map, joinSep]
          rw [this] at heq
          exact (hG c0 (by simp)).2.2.2.2.2.1 (by
            have := List.cons.inj heq
            exact this.2)
        | cons c2 r2 =>
          have hr : rowLine (c0 :: c2 :: r2) =
              '|' :: (c0 ++ [' '] ++ rowLine (c2 :: r2)) := by
            simp [rowLine, List.map, joinSep]
          rw [hr] at heq
          have htl := (List.cons.inj heq).2
          obtain ⟨t2, ht2⟩ := rowLine_head c2 r2
          have hmem : '|' ∈ c0 ++ [' '] ++ rowLine (c2 :: r2) := by
            rw [ht2]; simp
          rw [htl] at hmem
          exact absurd hmem (by decide)
    · have heq : rowLine (c0 :: rest0) = str "|====" := by
        simpa using h1
      cases rest0 with
      | nil =>
        have : rowLine [c0] = '|' :: c0 := by simp [rowLine, List.map, joinSep]
        rw [this] at heq
        exact (hG c0 (by simp)).2.2.2.2.2.2 (by
          have := List.cons.inj heq
          exact this.2)
      | cons c2 r2 =>
        have hr : rowLine (c0 :: c2 :: r2) =
            '|' :: (c0 ++ [' '] ++ rowLine (c2 :: r2)) := by
          simp [rowLine, List.map, joinSep]
        rw [hr] at heq
        have htl := (List.cons.inj heq).2
        obtain ⟨t2, ht2⟩ := rowLine_head c2 r2
        have hmem : '|' ∈ c0 ++ [' '] ++ rowLine (c2 :: r2) := by
          rw [ht2]; simp
        rw [htl] at hmem
        exact absurd hmem (by decide)
  rw [show boundaryStarts (rowLine (c0 :: rest0)) =
      rowPositions (c0 :: rest0) 0 from
    bStarts_row (c0 :: rest0) 0 none (by simp) hG (Or.inl rfl)]
  exact segs_row (c0 :: rest0) 0 (rowLine (c0 :: rest0)) ln (by simp) hG (by simp)
    (by simp)
end Rag

namespace Rag
theorem cellSpec_plain (a : Char) (t : Str) :
    cellSpec { content := a :: t } = '|' :: a :: t := rfl

theorem parts_plain (row : List Str) (hne : ∀ c ∈ row, c ≠ []) :
    (row.map (fun c => Slot.cellAt 0 { content := c })).filterMap
        (fun s => match s with
          | Slot.spanOf _ _ => none
          | Slot.free => some (['|'] : Str)
          | Slot.cellAt _ c => some (cellSpec c)) =
      row.map (fun c => '|' :: c) := by
  induction row with
  | nil => rfl
  | cons c rest ih =>
    obtain ⟨a, t, rfl⟩ : ∃ a t, c = a :: t := by
      cases c with
      | nil => exact absurd rfl (hne [] (by simp))
      | cons a t => exact ⟨a, t, rfl⟩
    simp only [List.map, List.filterMap_cons]
    rw [ih (fun x hx => hne x (List.mem_cons_of_mem _ hx))]
    rfl

theorem recon_plain (grid : List (List Str))
    (hne : ∀ row ∈ grid, ∀ c ∈ row, c ≠ []) :
    reconstruct_table (plainGrid grid) =
      [str "|==="] ++
        (grid.filterMap fun row =>
          if row.isEmpty then none else some (rowLine row)) ++
      [str "|==="] := by
  unfold reconstruct_table plainGrid
  dsimp only
  congr 1
  congr 1
  induction grid with
  | nil => rfl
  | cons row rest ih =>
    simp only [List.map, List.filterMap_cons]
    rw [parts_plain row (hne row (by simp))]
    rw [ih (fun r hr => hne r (List.mem_cons_of_mem _ hr))]
    cases row with
    | nil => rfl
    | cons c t =>
      simp only [List.isEmpty, List.map]
      rfl

theorem flatten_extract (grid : List (List Str)) : ∀ n : Nat,
    (∀ row ∈ grid, ∀ c ∈ row, GoodContent c) →
    ((List.enumFrom n
        ((grid.filterMap fun row =>
            if row.isEmpty then none else some (rowLine row)) ++
          [str "|==="])).map
      (fun p => extractLineCells p.1 p.2)).flatten.map Cell.content =
      grid.flatten := by
  induction grid with
  | nil =>
    intro n _
    simp [List.enumFrom, extractLine_skip_delim n]
  | cons row rest ih =>
    intro n hG
    cases hrow : row.isEmpty with
    | true =>
      have : row = [] := List.isEmpty_iff.mp hrow
      subst this
      simp only [List.filterMap_cons, if_pos rfl]
      simpa using ih n (fun r hr => hG r (List.mem_cons_of_mem _ hr))
    | false =>
      have hrne : row ≠ [] := fun h => by subst h; simp at hrow
      simp only [List.filterMap_cons, hrow, if_neg Bool.false_ne_true]
      rw [show (rowLine row ::
          (rest.filterMap fun r =>
            if r.isEmpty then none else some (rowLine r)) ++ [str "|==="]) =
          rowLine row ::
          ((rest.filterMap fun r =>
            if r.isEmpty then none else some (rowLine r)) ++ [str "|==="])
        from rfl]
      rw [show List.enumFrom n (rowLine row ::
          ((rest.filterMap fun r =>
            if r.isEmpty then none else some (rowLine r)) ++ [str "|==="])) =
          (n, rowLine row) :: List.enumFrom (n + 1)
            ((rest.filterMap fun r =>
              if r.isEmpty then none else some (rowLine r)) ++ [str "|==="])
        from rfl]
      simp only [List.map_cons, List.flatten_cons, List.map_append]
      rw [extractLine_row row n hrne (hG row (by simp))]
      rw [ih (n + 1) (fun r hr => hG r (List.mem_cons_of_mem _ hr))]
      rw [List.map_map]
      rw [show (Cell.content ∘ fun c : Str =>
          ({ content := c, colspan := 1, rowspan := 1, format_spec := [],
             source_line := n } : Cell)) = id from rfl, List.map_id]

/-- C4 (amended): for a spanless grid whose contents are nonempty, free of
leading/trailing whitespace, contain neither the pipe nor the plus character
and are not the table-delimiter text, re-extracting the cells of the
reconstructed table reproduces exactly the original contents in order:
`extract_cells_from_lines (reconstruct_table g)` round-trips. -/
theorem c4_amended (grid : List (List Str))
    (hG : ∀ row ∈ grid, ∀ c ∈ row, GoodContent c) :
    (extract_cells_from_lines (reconstruct_table (plainGrid grid))).map
        Cell.content = grid.flatten := by
  rw [recon_plain grid (fun row hr c hc => (hG row hr c hc).1)]
  unfold extract_cells_from_lines
  rw [show ([str "|==="] ++
      (grid.filterMap fun row =>
        if row.isEmpty then none else some (rowLine row)) ++ [str "|==="]) =
      str "|===" ::
      ((grid.filterMap fun row =>
        if row.isEmpty then none else some (rowLine row)) ++ [str "|==="])
    from rfl]
  rw [show (str "|===" ::
      ((grid.filterMap fun row =>
        if row.isEmpty then none else some (rowLine row)) ++
        [str "|==="])).enum =
      (0, str "|===") :: List.enumFrom 1
        ((grid.filterMap fun row =>
          if row.isEmpty then none else some (rowLine row)) ++ [str "|==="])
    from rfl]
  simp only [List.map_cons, List.flatten_cons, List.map_append]
  rw [extractLine_skip_delim 0]
  rw [flatten_extract grid 1 hG]
  rfl

/-- Witness for the C4 round trip at the concrete grid `[[a, bc], [d]]`. -/
theorem c4_amended_witness :
    (∀ row ∈ [[str "a", str "bc"], [str "d"]], ∀ c ∈ row, GoodContent c) ∧
    (extract_cells_from_lines (reconstruct_table
        (plainGrid [[str "a", str "bc"], [str "d"]]))).map Cell.content =
      [[str "a", str "bc"], [str "d"]].flatten :=
  ⟨by decide, c4_amended [[str "a", str "bc"], [str "d"]] (by decide)⟩
end Rag

namespace Rag
theorem toDecAux_digits : ∀ fuel n, 0 < fuel → ∀ c ∈ toDecAux fuel n, c.isDigit = true := by
  intro fuel
  induction fuel with
  | zero => intro n h; omega
  | succ fuel ih =>
    intro n _ c hc
    unfold toDecAux at hc
    by_cases h : n < 10
    · rw [if_pos h] at hc
      simp at hc
      subst hc
      interval_cases n <;> decide
    · rw [if_neg h] at hc
      rcases List.mem_append.mp hc with h1 | h1
      · rcases Nat.eq_zero_or_pos fuel with hf | hf
        · subst hf; simp [toDecAux] at h1
        · exact ih (n / 10) hf c h1
      · simp at h1
        subst h1
        obtain ⟨m, hm10, hmeq⟩ : ∃ m, m < 10 ∧ n % 10 = m :=
          ⟨n % 10, Nat.mod_lt _ (by omega), rfl⟩
        rw [hmeq]
        interval_cases m <;> decide

theorem toDec_digits (n : Nat) : ∀ c ∈ toDec n, c.isDigit = true :=
  toDecAux_digits (n + 1) n (Nat.succ_pos n)

theorem toDec_ne_nil (n : Nat) : toDec n ≠ [] := by
  unfold toDec toDecAux
  by_cases h : n < 10 <;> simp [h]

theorem parseNat_append_digit (a : Str) (c : Char) :
    parseNat (a ++ [c]) = parseNat a * 10 + (c.toNat - '0'.toNat) := by
  unfold parseNat
  rw [List.foldl_append]
  rfl

theorem parseNat_toDecAux : ∀ fuel n, n < fuel → parseNat (toDecAux fuel n) = n := by
  intro fuel
  induction fuel with
  | zero => intro n h; omega
  | succ fuel ih =>
    intro n hn
    unfold toDecAux
    by_cases h : n < 10
    · rw [if_pos h]
      interval_cases n <;> decide
    · rw [if_neg h]
      rw [parseNat_append_digit]
      rw [ih (n / 10) (by omega)]
      obtain ⟨m, hm10, hmeq⟩ : ∃ m, m < 10 ∧ n % 10 = m :=
        ⟨n % 10, Nat.mod_lt _ (by omega), rfl⟩
      rw [hmeq]
      have hm : (Char.ofNat ('0'.toNat + m)).toNat - '0'.toNat = m := by
        interval_cases m <;> decide
      rw [hm]
      omega

theorem parseNat_toDec (n : Nat) : parseNat (toDec n) = n :=
  parseNat_toDecAux (n + 1) n (Nat.lt_succ_self n)

theorem takeWhile_all_append {p : Char → Bool} {u : Str} (x : Char) (v : Str)
    (hu : ∀ c ∈ u, p c = true) (hx : p x = false) :
    (u ++ x :: v).takeWhile p = u := by
  induction u with
  | nil => simp [List.takeWhile_cons, hx]
  | cons a u ih =>
    simp only [List.cons_append, List.takeWhile_cons]
    rw [hu a (by simp)]
    simp [ih (fun c hc => hu c (List.mem_cons_of_mem _ hc))]

theorem cm_free : ∀ (s : Str) fuel i, '<' ∉ s → calloutMatchesAux fuel s i = [] := by
  intro s
  induction s with
  | nil => intro fuel i _; cases fuel <;> rfl
  | cons c rest ih =>
    intro fuel i hfree
    cases fuel with
    | zero => rfl
    | succ fuel =>
      have hc : c ≠ '<' := fun h => hfree (h ▸ List.mem_cons_self _ _)
      show calloutMatchesAux (fuel + 1) (c :: rest) i = []
      unfold calloutMatchesAux
      rw [if_neg hc]
      exact ih fuel (i + 1) (fun h => hfree (List.mem_cons_of_mem _ h))
end Rag

namespace Rag
theorem cmAux_marker (fuel : Nat) (n : Nat) (w : Str) (i : Nat) :
    calloutMatchesAux (fuel + 1) ('<' :: (toDec n ++ '>' :: w)) i =
      (i, i + (toDec n).length + 2, n) ::
        calloutMatchesAux fuel w (i + (toDec n).length + 2) := by
  conv_lhs => unfold calloutMatchesAux
  rw [if_pos rfl]
  have hds : (toDec n ++ '>' :: w).takeWhile Char.isDigit = toDec n :=
    takeWhile_all_append '>' w (toDec_digits n) (by decide)
  simp only [hds]
  rw [if_pos (by simp [toDec_ne_nil n])]
  rw [List.drop_left]
  rw [parseNat_toDec]
  split
  · next rest2 heq =>
    obtain rfl : w = rest2 := (List.cons.inj heq).2
    rfl
  · next x heq => exact absurd rfl (heq w)
end Rag

namespace Rag
theorem cmAux_skip (fuel : Nat) (c : Char) (rest : Str) (i : Nat) (hc : c ≠ '<') :
    calloutMatchesAux (fuel + 1) (c :: rest) i = calloutMatchesAux fuel rest (i + 1) := by
  conv_lhs => unfold calloutMatchesAux
  rw [if_neg hc]

theorem cmAux_mline : ∀ (ps : List (Str × Nat)) (t : Str) (i fuel : Nat),
    (mline ps t).length ≤ fuel → '<' ∉ t → (∀ q ∈ ps, '<' ∉ q.1) →
    calloutMatchesAux fuel (mline ps t) i = mpos ps i := by
  intro ps
  induction ps with
  | nil =>
    intro t i fuel _ ht _
    exact cm_free t fuel i ht
  | cons p ps ih =>
    obtain ⟨s, n⟩ := p
    intro t
    induction s with
    | nil =>
      intro i fuel hlen ht hseg
      have hm : mline (([], n) :: ps) t = '<' :: (toDec n ++ '>' :: mline ps t) := by
        simp [mline]
      rw [hm] at hlen ⊢
      cases fuel with
      | zero => simp at hlen
      | succ fuel =>
        rw [cmAux_marker]
        rw [ih t (i + (toDec n).length + 2) fuel
          (by simp at hlen; omega) ht (fun q hq => hseg q (List.mem_cons_of_mem _ hq))]
        simp [mpos]
    | cons c s ihs =>
      intro i fuel hlen ht hseg
      have hcs : '<' ∉ (c :: s : Str) := by
        have := hseg (c :: s, n) (by simp)
        exact this
      have hc : c ≠ '<' := fun h => hcs (h ▸ List.mem_cons_self _ _)
      have hm : mline ((c :: s, n) :: ps) t = c :: mline ((s, n) :: ps) t := by
        simp [mline]
      rw [hm] at hlen ⊢
      cases fuel with
      | zero => simp at hlen
      | succ fuel =>
        rw [cmAux_skip fuel c _ i hc]
        rw [ihs (i + 1) fuel (by simp at hlen ⊢; omega) ht ?hseg2]
        case hseg2 =>
          intro q hq
          rcases List.mem_cons.mp hq with h | h
          · subst h
            exact fun hmem => hcs (List.mem_cons_of_mem _ hmem)
          · exact hseg q (List.mem_cons_of_mem _ h)
        simp only [mpos, List.length_cons]
        rw [show i + 1 + s.length = i + (s.length + 1) from by omega]
end Rag

namespace Rag
theorem mpos_nums : ∀ (ps : List (Str × Nat)) (i : Nat),
    (mpos ps i).map (fun m => m.2.2) = ps.map Prod.snd := by
  intro ps
  induction ps with
  | nil => intro i; rfl
  | cons p ps ih =>
    obtain ⟨s, n⟩ := p
    intro i
    simp only [mpos, List.map_cons]
    rw [ih]

theorem calloutMatches_mline (ps : List (Str × Nat)) (t : Str)
    (ht : '<' ∉ t) (hseg : ∀ q ∈ ps, '<' ∉ q.1) :
    calloutMatches (mline ps t) = mpos ps 0 :=
  cmAux_mline ps t 0 (mline ps t).length (Nat.le_refl _) ht hseg

theorem calloutNums_mline (ps : List (Str × Nat)) (t : Str)
    (ht : '<' ∉ t) (hseg : ∀ q ∈ ps, '<' ∉ q.1) :
    calloutNums (mline ps t) = ps.map Prod.snd := by
  unfold calloutNums
  rw [calloutMatches_mline ps t ht hseg, mpos_nums]

theorem mpos_shift : ∀ (ps : List (Str × Nat)) (a b : Nat),
    mpos ps (a + b) = (mpos ps b).map (fun m => (m.1 + a, m.2.1 + a, m.2.2)) := by
  intro ps
  induction ps with
  | nil => intro a b; rfl
  | cons p ps ih =>
    obtain ⟨s, n⟩ := p
    intro a b
    simp only [mpos, List.map_cons]
    rw [show a + b + s.length = b + s.length + a from by omega]
    rw [show b + s.length + a + (toDec n).length + 2 =
        b + s.length + (toDec n).length + 2 + a from by omega]
    rw [show b + s.length + (toDec n).length + 2 + a =
        a + (b + s.length + (toDec n).length + 2) from by omega]
    rw [ih a (b + s.length + (toDec n).length + 2)]

theorem splice_shift : ∀ (pfx x : Str) (st en : Nat) (rep : Str),
    spliceAt (pfx ++ x) (pfx.length + st) (pfx.length + en) rep =
      pfx ++ spliceAt x st en rep := by
  intro pfx
  induction pfx with
  | nil => intro x st en rep; simp [spliceAt]
  | cons a p ih =>
    intro x st en rep
    show spliceAt (a :: (p ++ x)) (p.length + 1 + st) (p.length + 1 + en) rep = _
    simp only [spliceAt]
    rw [show p.length + 1 + st = (p.length + st) + 1 from by omega,
        show p.length + 1 + en = (p.length + en) + 1 from by omega,
        List.take_succ_cons, List.drop_succ_cons]
    simp only [List.cons_append, List.append_assoc]
    refine congrArg (List.cons a) ?_
    have h := ih x st en rep
    simp only [spliceAt, List.append_assoc] at h
    exact h

theorem rwFold_shift : ∀ (M : List (Nat × Nat × Nat)) (lookup : Nat × Nat → Option Nat)
    (bi : Nat) (pfx x : Str),
    rwFold lookup bi (M.map (fun m => (m.1 + pfx.length, m.2.1 + pfx.length, m.2.2)))
        (pfx ++ x) =
      pfx ++ rwFold lookup bi M x := by
  intro M
  induction M with
  | nil => intro lookup bi pfx x; rfl
  | cons m M ih =>
    intro lookup bi pfx x
    obtain ⟨st, en, v⟩ := m
    simp only [List.map_cons, rwFold, List.foldr_cons]
    have hih := ih lookup bi pfx x
    simp only [rwFold] at hih
    rw [hih]
    cases lookup (bi, v) with
    | none => rfl
    | some k =>
      dsimp only
      rw [show st + pfx.length = pfx.length + st from by omega,
          show en + pfx.length = pfx.length + en from by omega]
      exact splice_shift pfx _ st en _

theorem rwFold_mline : ∀ (ps : List (Str × Nat)) (t : Str)
    (lookup : Nat × Nat → Option Nat) (bi : Nat),
    rwFold lookup bi (mpos ps 0) (mline ps t) =
      mline (ps.map (fun q =>
        (q.1, match lookup (bi, q.2) with | some k => k | none => q.2))) t := by
  intro ps
  induction ps with
  | nil => intro t lookup bi; rfl
  | cons p ps ih =>
    obtain ⟨s, n⟩ := p
    intro t lookup bi
    have hpfx : mline ((s, n) :: ps) t =
        (s ++ '<' :: toDec n ++ ['>']) ++ mline ps t := by
      simp [mline]
    have hplen : (s ++ '<' :: toDec n ++ ['>']).length =
        s.length + (toDec n).length + 2 := by
      simp
      omega
    simp only [mpos]
    rw [show (0 : Nat) + s.length = s.length from by omega]
    have hsh : mpos ps (s.length + (toDec n).length + 2) =
        (mpos ps 0).map (fun m =>
          (m.1 + (s.length + (toDec n).length + 2),
           m.2.1 + (s.length + (toDec n).length + 2), m.2.2)) := by
      rw [show s.length + (toDec n).length + 2 =
          (s.length + (toDec n).length + 2) + 0 from by omega]
      exact mpos_shift ps _ 0
    simp only [rwFold, List.foldr_cons]
    have hbody : List.foldr
        (fun m acc =>
          match lookup (bi, m.2.2) with
          | some newNum => spliceAt acc m.1 m.2.1 ('<' :: toDec newNum ++ ['>'])
          | none => acc)
        (mline ((s, n) :: ps) t)
        (mpos ps (s.length + (toDec n).length + 2)) =
        (s ++ '<' :: toDec n ++ ['>']) ++
          mline (ps.map (fun q =>
            (q.1, match lookup (bi, q.2) with | some k => k | none => q.2))) t := by
      rw [hsh, hpfx]
      have h1 : (mpos ps 0).map (fun m =>
          (m.1 + (s.length + (toDec n).length + 2),
           m.2.1 + (s.length + (toDec n).length + 2), m.2.2)) =
          (mpos ps 0).map (fun m =>
            (m.1 + (s ++ '<' :: toDec n ++ ['>']).length,
             m.2.1 + (s ++ '<' :: toDec n ++ ['>']).length, m.2.2)) := by
        rw [hplen]
      rw [h1]
      have h2 := rwFold_shift (mpos ps 0) lookup bi (s ++ '<' :: toDec n ++ ['>'])
        (mline ps t)
      simp only [rwFold] at h2
      rw [h2]
      have hihf := ih t lookup bi
      simp only [rwFold] at hihf
      rw [hihf]
    rw [hbody]
    cases hlk : lookup (bi, n) with
    | none =>
      dsimp only
      simp only [List.map_cons, hlk]
      simp [mline]
    | some k =>
      dsimp only
      simp only [List.map_cons, hlk]
      unfold spliceAt
      rw [show s.length + (toDec n).length + 2 =
          (s ++ '<' :: toDec n ++ ['>']).length from hplen.symm]
      rw [List.drop_left]
      have htake : ((s ++ '<' :: toDec n ++ ['>']) ++
          mline (ps.map (fun q =>
            (q.1, match lookup (bi, q.2) with | some k => k | none => q.2))) t).take
            s.length = s := by
        rw [show ((s ++ '<' :: toDec n ++ ['>']) ++
            mline (ps.map (fun q =>
              (q.1, match lookup (bi, q.2) with | some k => k | none => q.2))) t) =
            s ++ (('<' :: toDec n ++ ['>']) ++
              mline (ps.map (fun q =>
                (q.1, match lookup (bi, q.2) with | some k => k | none => q.2))) t)
          from by simp]
        exact List.take_left _ _
      rw [htake]
      simp [mline]
end Rag

namespace Rag
theorem rewrite_mline (lookup : Nat × Nat → Option Nat) (bi : Nat)
    (ps : List (Str × Nat)) (t : Str) (ht : '<' ∉ t)
    (hseg : ∀ q ∈ ps, '<' ∉ q.1) :
    rewriteBlockLine lookup bi (mline ps t) =
      mline (ps.map (fun q =>
        (q.1, match lookup (bi, q.2) with | some k => k | none => q.2))) t := by
  have h0 : rewriteBlockLine lookup bi (mline ps t) =
      rwFold lookup bi (calloutMatches (mline ps t)) (mline ps t) := rfl
  rw [h0, calloutMatches_mline ps t ht hseg, rwFold_mline]

theorem faN_nodup : ∀ (ns acc : List Nat), acc.Nodup →
    (ns.foldl (fun acc n => if n ∈ acc then acc else acc ++ [n]) acc).Nodup := by
  intro ns
  induction ns with
  | nil => intro acc h; exact h
  | cons n ns ih =>
    intro acc hacc
    simp only [List.foldl_cons]
    by_cases hn : n ∈ acc
    · rw [if_pos hn]; exact ih acc hacc
    · rw [if_neg hn]
      refine ih (acc ++ [n]) ?_
      rw [List.nodup_append]
      exact ⟨hacc, List.nodup_singleton n,
        fun a ha hb => by simp at hb; subst hb; exact hn ha⟩

theorem faN_subset : ∀ (ns acc : List Nat),
    acc ⊆ ns.foldl (fun acc n => if n ∈ acc then acc else acc ++ [n]) acc := by
  intro ns
  induction ns with
  | nil => intro acc a ha; exact ha
  | cons n ns ih =>
    intro acc a ha
    simp only [List.foldl_cons]
    by_cases hn : n ∈ acc
    · rw [if_pos hn]; exact ih acc ha
    · rw [if_neg hn]; exact ih (acc ++ [n]) (List.mem_append_left _ ha)

theorem faN_mem : ∀ (ns acc : List Nat) (n : Nat), n ∈ ns →
    n ∈ ns.foldl (fun acc n => if n ∈ acc then acc else acc ++ [n]) acc := by
  intro ns
  induction ns with
  | nil => intro acc n h; simp at h
  | cons m ns ih =>
    intro acc n hn
    simp only [List.foldl_cons]
    rcases List.mem_cons.mp hn with h | h
    · subst h
      by_cases hm : n ∈ acc
      · rw [if_pos hm]; exact faN_subset ns acc hm
      · rw [if_neg hm]
        exact faN_subset ns (acc ++ [n]) (by simp)
    · by_cases hm : m ∈ acc
      · rw [if_pos hm]; exact ih acc n h
      · rw [if_neg hm]; exact ih (acc ++ [m]) n h

theorem faN_carrier : ∀ (ns acc : List Nat) (a : Nat),
    a ∈ ns.foldl (fun acc n => if n ∈ acc then acc else acc ++ [n]) acc →
    a ∈ acc ∨ a ∈ ns := by
  intro ns
  induction ns with
  | nil => intro acc a h; exact Or.inl h
  | cons n ns ih =>
    intro acc a h
    simp only [List.foldl_cons] at h
    by_cases hn : n ∈ acc
    · rw [if_pos hn] at h
      rcases ih acc a h with h1 | h1
      · exact Or.inl h1
      · exact Or.inr (List.mem_cons_of_mem _ h1)
    · rw [if_neg hn] at h
      rcases ih (acc ++ [n]) a h with h1 | h1
      · rcases List.mem_append.mp h1 with h2 | h2
        · exact Or.inl h2
        · simp at h2; subst h2; exact Or.inr (List.mem_cons_self _ _)
      · exact Or.inr (List.mem_cons_of_mem _ h1)

theorem fa_flat : ∀ (lines : List Str) (acc : List Nat),
    fa lines acc =
      (lines.flatMap calloutNums).foldl
        (fun acc n => if n ∈ acc then acc else acc ++ [n]) acc := by
  intro lines
  induction lines with
  | nil => intro acc; rfl
  | cons l ls ih =>
    intro acc
    simp only [fa, List.foldl_cons, List.flatMap_cons, List.foldl_append]
    exact ih _

theorem faN_map_inj (f : Nat → Nat) :
    ∀ (ns acc : List Nat),
    (∀ a, (a ∈ ns ∨ a ∈ acc) → ∀ b, (b ∈ ns ∨ b ∈ acc) → f a = f b → a = b) →
    (ns.map f).foldl (fun acc n => if n ∈ acc then acc else acc ++ [n]) (acc.map f) =
      (ns.foldl (fun acc n => if n ∈ acc then acc else acc ++ [n]) acc).map f := by
  intro ns
  induction ns with
  | nil => intro acc _; rfl
  | cons n ns ih =>
    intro acc hinj
    simp only [List.map_cons, List.foldl_cons]
    by_cases hn : n ∈ acc
    · rw [if_pos (List.mem_map_of_mem f hn), if_pos hn]
      exact ih acc (fun a ha b hb => hinj a (ha.imp (List.mem_cons_of_mem _) id)
        b (hb.imp (List.mem_cons_of_mem _) id))
    · have hfn : f n ∉ acc.map f := by
        intro hmem
        obtain ⟨a, ha, hfa⟩ := List.mem_map.mp hmem
        have : a = n := hinj a (Or.inr ha) n (Or.inl (List.mem_cons_self _ _)) hfa
        subst this
        exact hn ha
      rw [if_neg hfn, if_neg hn]
      rw [show acc.map f ++ [f n] = (acc ++ [n]).map f from by simp]
      refine ih (acc ++ [n]) ?_
      intro a ha b hb
      refine hinj a ?_ b ?_
      · rcases ha with h | h
        · exact Or.inl (List.mem_cons_of_mem _ h)
        · rcases List.mem_append.mp h with h1 | h1
          · exact Or.inr h1
          · simp at h1; subst h1; exact Or.inl (List.mem_cons_self _ _)
      · rcases hb with h | h
        · exact Or.inl (List.mem_cons_of_mem _ h)
        · rcases List.mem_append.mp h with h1 | h1
          · exact Or.inr h1
          · simp at h1; subst h1; exact Or.inl (List.mem_cons_self _ _)

theorem indexOf_inj : ∀ (L : List Nat) (a b : Nat), a ∈ L → b ∈ L →
    L.indexOf a = L.indexOf b → a = b := by
  intro L
  induction L with
  | nil => intro a b ha; simp at ha
  | cons x L ih =>
    intro a b ha hb hidx
    by_cases hax : a = x
    · by_cases hbx : b = x
      · rw [hax, hbx]
      · subst hax
        rw [List.indexOf_cons_self] at hidx
        rw [List.indexOf_cons_ne _ (fun h => hbx h.symm)] at hidx
        simp at hidx
    · by_cases hbx : b = x
      · subst hbx
        rw [List.indexOf_cons_self] at hidx
        rw [List.indexOf_cons_ne _ (fun h => hax h.symm)] at hidx
        simp at hidx
      · rw [List.indexOf_cons_ne _ (fun h => hax h.symm)] at hidx
        rw [List.indexOf_cons_ne _ (fun h => hbx h.symm)] at hidx
        have ha2 : a ∈ L := by
          rcases List.mem_cons.mp ha with h | h
          · exact absurd h hax
          · exact h
        have hb2 : b ∈ L := by
          rcases List.mem_cons.mp hb with h | h
          · exact absurd h hbx
          · exact h
        exact ih a b ha2 hb2 (by omega)

theorem range'_map_succ : ∀ (k a : Nat),
    (List.range' a k).map (· + 1) = List.range' (a + 1) k := by
  intro k
  induction k with
  | zero => intro a; rfl
  | succ k ih =>
    intro a
    simp only [List.range', List.map_cons]
    rw [ih (a + 1)]

theorem map_indexOf_nodup : ∀ (L : List Nat), L.Nodup →
    L.map (fun n => L.indexOf n + 1) = List.range' 1 L.length := by
  intro L
  induction L with
  | nil => intro _; rfl
  | cons x L ih =>
    intro hnd
    have hx : x ∉ L := (List.nodup_cons.mp hnd).1
    have hL : L.Nodup := (List.nodup_cons.mp hnd).2
    simp only [List.map_cons, List.indexOf_cons_self, List.length_cons]
    have hmap : L.map (fun n => (x :: L).indexOf n + 1) =
        L.map (fun n => (L.indexOf n + 1) + 1) := by
      refine List.map_congr_left ?_
      intro a ha
      rw [List.indexOf_cons_ne _ (fun h => hx (by rw [h]; exact ha))]
    rw [hmap]
    rw [show (fun n => (L.indexOf n + 1) + 1) =
        ((· + 1) ∘ fun n => L.indexOf n + 1) from rfl]
    rw [← List.map_map, ih hL, range'_map_succ]
    rfl
end Rag

namespace Rag
theorem rm_lookup : ∀ (L : List Nat) (b n j : Nat), L.Nodup →
    ((List.enumFrom j L).map (fun p => ((b, p.2), p.1 + 1))).lookup (b, n) =
      if n ∈ L then some (j + L.indexOf n + 1) else none := by
  intro L
  induction L with
  | nil => intro b n j _; simp
  | cons x L ih =>
    intro b n j hnd
    rw [List.enumFrom_cons, List.map_cons, List.lookup_cons]
    by_cases hx : n = x
    · subst hx
      rw [show ((b, n) == (b, n)) = true from by simp]
      rw [if_pos (List.mem_cons_self _ _)]
      rw [List.indexOf_cons_self]
    · rw [show ((b, n) == (b, x)) = false from by simp [hx]]
      rw [ih b n (j + 1) (List.nodup_cons.mp hnd).2]
      by_cases hm : n ∈ L
      · rw [if_pos hm, if_pos (List.mem_cons_of_mem _ hm)]
        rw [List.indexOf_cons_ne _ (fun h => hx h.symm)]
        exact congrArg some (by omega)
      · rw [if_neg hm, if_neg (fun h => (List.mem_cons.mp h).elim hx hm)]
end Rag

namespace Rag
theorem pyRStrip_head (c : Char) (r : Str) :
    pyRStrip (c :: r) = [] ∨ ∃ t, pyRStrip (c :: r) = c :: t := by
  unfold pyRStrip
  rw [show (c :: r : Str).reverse = r.reverse ++ [c] from by simp]
  rw [List.dropWhile_append]
  by_cases h : (r.reverse.dropWhile isPyWS).isEmpty
  · rw [if_pos h]
    by_cases hc : isPyWS c
    · left; simp [List.dropWhile_cons, hc]
    · right
      refine ⟨[], ?_⟩
      simp [List.dropWhile_cons, hc]
  · rw [if_neg h]
    right
    exact ⟨(r.reverse.dropWhile isPyWS).reverse, by simp⟩

theorem strip_head_lt (r : Str) :
    pyStrip ('<' :: r) = [] ∨ ∃ t, pyStrip ('<' :: r) = '<' :: t := by
  have h1 : pyLStrip ('<' :: r) = '<' :: r := by
    simp [pyLStrip, List.dropWhile_cons, show isPyWS '<' = false from rfl]
  unfold pyStrip
  rw [h1]
  exact pyRStrip_head '<' r

theorem strip_lt_ne_dashes (r : Str) : pyStrip ('<' :: r) ≠ str "----" := by
  rcases strip_head_lt r with h | ⟨t, h⟩ <;> rw [h] <;> intro hc
  · simp [str] at hc
  · exact absurd (List.cons.inj hc).1 (by decide)

theorem matchCalloutDef_dline (k : Nat) (r : Str)
    (hr : ∀ a ∈ r.head?, isPyWS a = false) :
    matchCalloutDef (dline (k, r)) = some (k, r) := by
  unfold dline matchCalloutDef
  dsimp only
  split
  · next rest heq =>
    obtain rfl : toDec k ++ '>' :: ' ' :: r = rest := (List.cons.inj heq).2
    have hds : (toDec k ++ '>' :: ' ' :: r).takeWhile Char.isDigit = toDec k :=
      takeWhile_all_append '>' (' ' :: r) (toDec_digits k) (by decide)
    rw [hds]
    rw [if_neg (by simp [toDec_ne_nil k])]
    rw [List.drop_left]
    have hws : (' ' :: r).takeWhile isPyWS = [' '] := by
      rw [List.takeWhile_cons]
      rw [show isPyWS ' ' = true from rfl]
      cases r with
      | nil => rfl
      | cons a r2 =>
        rw [List.takeWhile_cons]
        rw [hr a rfl]
        rfl
    split
    · next rest2 heq2 =>
      obtain rfl : ' ' :: r = rest2 := (List.cons.inj heq2).2
      rw [hws]
      rw [if_neg (by simp)]
      rw [parseNat_toDec]
      rfl
    · next x heq2 => exact absurd rfl (heq2 (' ' :: r))
  · next x heq => exact absurd rfl (heq (toDec k ++ '>' :: ' ' :: r))

theorem p1_outside : ∀ (P : List Str) (st : NumPass1State),
    (∀ l ∈ P, pyStrip l ≠ str "----") → st.in_block = false →
    P.foldl numPass1Step st = st := by
  intro P
  induction P with
  | nil => intro st _ _; rfl
  | cons l P ih =>
    intro st hP hib
    simp only [List.foldl_cons]
    have hstep : numPass1Step st l = st := by
      unfold numPass1Step
      rw [if_neg (hP l (by simp))]
      rw [if_neg (by rw [hib]; simp)]
    rw [hstep]
    exact ih st (fun x hx => hP x (List.mem_cons_of_mem _ hx)) hib

theorem p1_block : ∀ (B : List Str) (st : NumPass1State),
    (∀ l ∈ B, pyStrip l ≠ str "----") → st.in_block = true →
    B.foldl numPass1Step st = { st with current := fa B st.current } := by
  intro B
  induction B with
  | nil => intro st _ _; rfl
  | cons l B ih =>
    intro st hB hib
    simp only [List.foldl_cons]
    have hstep : numPass1Step st l = { st with current := fa [l] st.current } := by
      unfold numPass1Step
      rw [if_neg (hB l (by simp))]
      rw [if_pos (by rw [hib])]
      rfl
    rw [hstep]
    rw [ih _ (fun x hx => hB x (List.mem_cons_of_mem _ hx)) (by rw [hib])]
    rfl
end Rag

namespace Rag
theorem p2_outside (rmap : List ((Nat × Nat) × Nat)) :
    ∀ (P : List Str) (st : NumPass2State),
    (∀ l ∈ P, pyStrip l ≠ str "----" ∧ matchCalloutDef l = none) →
    st.in_block = false →
    P.foldl (numPass2Step rmap) st = { st with new_lines := st.new_lines ++ P } := by
  intro P
  induction P with
  | nil => intro st _ _; simp
  | cons l P ih =>
    intro st hP hib
    simp only [List.foldl_cons]
    have hstep : numPass2Step rmap st l =
        { st with new_lines := st.new_lines ++ [l] } := by
      unfold numPass2Step
      rw [if_neg (hP l (by simp)).1]
      rw [if_neg (by rw [hib]; simp)]
      rw [(hP l (by simp)).2]
    rw [hstep]
    rw [ih _ (fun x hx => hP x (List.mem_cons_of_mem _ hx)) (by rw [hib])]
    simp

theorem p2_block (rmap : List ((Nat × Nat) × Nat)) :
    ∀ (B : List Str) (st : NumPass2State),
    (∀ l ∈ B, pyStrip l ≠ str "----") →
    st.in_block = true →
    B.foldl (numPass2Step rmap) st =
      { st with new_lines := st.new_lines ++ B.map (rewriteBlockLine (fun k => rmap.lookup k) st.block_index) } := by
  intro B
  induction B with
  | nil => intro st _ _; simp
  | cons l B ih =>
    intro st hB hib
    simp only [List.foldl_cons]
    have hstep : numPass2Step rmap st l =
        { st with new_lines := st.new_lines ++ [rewriteBlockLine (fun k => rmap.lookup k) st.block_index l] } := by
      unfold numPass2Step
      rw [if_neg (hB l (by simp))]
      rw [if_pos (by rw [hib])]
    rw [hstep]
    rw [ih _ (fun x hx => hB x (List.mem_cons_of_mem _ hx)) (by rw [hib])]
    simp

theorem p2_open (rmap : List ((Nat × Nat) × Nat)) (d : Str) (st : NumPass2State)
    (hd : pyStrip d = str "----") (hib : st.in_block = false) :
    numPass2Step rmap st d =
      { st with in_block := true, block_index := st.block_index + 1, new_lines := st.new_lines ++ [d] } := by
  unfold numPass2Step
  rw [if_pos hd]
  rw [if_pos (by rw [hib]; rfl)]

theorem p2_close (rmap : List ((Nat × Nat) × Nat)) (d : Str) (st : NumPass2State)
    (hd : pyStrip d = str "----") (hib : st.in_block = true) :
    numPass2Step rmap st d =
      { st with in_block := false, new_lines := st.new_lines ++ [d] } := by
  unfold numPass2Step
  rw [if_pos hd]
  rw [if_neg (by rw [hib]; simp)]

theorem p1_open (d : Str) (st : NumPass1State)
    (hd : pyStrip d = str "----") (hib : st.in_block = false) :
    numPass1Step st d =
      { st with in_block := true, current := [], block_index := st.block_index + 1 } := by
  unfold numPass1Step
  rw [if_pos hd]
  rw [if_pos (by rw [hib]; rfl)]

theorem p1_close (d : Str) (st : NumPass1State)
    (hd : pyStrip d = str "----") (hib : st.in_block = true) :
    numPass1Step st d =
      { st with in_block := false, renumber_map := st.renumber_map ++ st.current.enum.map (fun p => ((st.block_index, p.2), p.1 + 1)), block_callouts := st.block_callouts ++ (if st.current.isEmpty then [] else [(st.block_index, st.current)]) } := by
  unfold numPass1Step
  rw [if_pos hd]
  rw [if_neg (by rw [hib]; simp)]
end Rag

namespace Rag
theorem nodup_indexOf_getElem : ∀ (L : List Nat) (k : Nat) (h : k < L.length),
    L.Nodup → L.indexOf (L[k]) = k := by
  intro L
  induction L with
  | nil => intro k h; simp at h
  | cons x L ih =>
    intro k h hnd
    cases k with
    | zero => simp [List.indexOf_cons_self]
    | succ k =>
      have hk : k < L.length := by simp at h; omega
      have hx : x ∉ L := (List.nodup_cons.mp hnd).1
      have hmem : L[k] ∈ L := List.getElem_mem hk
      rw [show ((x :: L)[k + 1] : Nat) = L[k] from by simp]
      rw [List.indexOf_cons_ne _ (fun hh => hx (by rw [hh]; exact hmem))]
      rw [ih k hk (List.nodup_cons.mp hnd).2]

theorem dline_eq (a : Nat) (r : Str) :
    ('<' :: toDec a ++ str "> " ++ r : Str) = dline (a, r) := by
  simp [dline, str]
end Rag

namespace Rag
theorem p2_def_step (rmap : List ((Nat × Nat) × Nat)) (L : List Nat) (k : Nat)
    (hk : k < L.length) (r : Str) (hr : ∀ a ∈ r.head?, isPyWS a = false)
    (N : List Str) (bi : Nat)
    (hlk : rmap.lookup (1, L[k]) = some (k + 1)) :
    numPass2Step rmap ⟨N, false, bi, [], 1, L, k⟩ (dline (L[k], r)) =
      if k + 1 ≥ L.length then ⟨N ++ [dline (k + 1, r)], false, bi, [], 0, [], 0⟩
      else ⟨N ++ [dline (k + 1, r)], false, bi, [], 1, L, k + 1⟩ := by
  have hLne : L ≠ [] := by intro h; rw [h] at hk; simp at hk
  unfold numPass2Step
  rw [if_neg (show pyStrip (dline (L[k], r)) ≠ str "----" from strip_lt_ne_dashes _)]
  rw [if_neg (by simp)]
  rw [matchCalloutDef_dline (L[k]) r hr]
  dsimp only
  rw [if_neg (show ¬((L : List Nat) = [] ∧ ([] : List (Nat × List Nat)) ≠ []) from
    fun hc => hLne hc.1)]
  dsimp only
  rw [if_pos (show L ≠ [] ∧ k < L.length ∧ (L[k] : Nat) = L.getD k 0 from
    ⟨hLne, hk, (List.getD_eq_getElem L 0 hk).symm⟩)]
  rw [hlk]
  dsimp only [Option.getD]
  by_cases hge : k + 1 ≥ L.length
  · rw [if_pos hge, if_pos hge]
    rw [show ('<' :: toDec (k + 1) ++ str "> " ++ r : Str) = dline (k + 1, r) from
      dline_eq (k + 1) r]
  · rw [if_neg hge, if_neg hge]
    rw [show ('<' :: toDec (k + 1) ++ str "> " ++ r : Str) = dline (k + 1, r) from
      dline_eq (k + 1) r]

theorem p2_def_first (rmap : List ((Nat × Nat) × Nat)) (L : List Nat)
    (h0 : 0 < L.length) (r : Str) (hr : ∀ a ∈ r.head?, isPyWS a = false)
    (N : List Str) (bi : Nat)
    (hlk : rmap.lookup (1, L[0]) = some 1) :
    numPass2Step rmap ⟨N, false, bi, [(1, L)], 0, [], 0⟩ (dline (L[0], r)) =
      if 1 ≥ L.length then ⟨N ++ [dline (1, r)], false, bi, [], 0, [], 0⟩
      else ⟨N ++ [dline (1, r)], false, bi, [], 1, L, 1⟩ := by
  have hLne : L ≠ [] := by intro h; rw [h] at h0; simp at h0
  unfold numPass2Step
  rw [if_neg (show pyStrip (dline (L[0], r)) ≠ str "----" from strip_lt_ne_dashes _)]
  rw [if_neg (by simp)]
  rw [matchCalloutDef_dline (L[0]) r hr]
  dsimp only
  rw [if_pos (show ([] : List Nat) = [] ∧ ([(1, L)] : List (Nat × List Nat)) ≠ [] from
    ⟨rfl, by simp⟩)]
  dsimp only
  rw [if_pos (show L ≠ [] ∧ 0 < L.length ∧ (L[0] : Nat) = L.getD 0 0 from
    ⟨hLne, h0, (List.getD_eq_getElem L 0 h0).symm⟩)]
  rw [hlk]
  dsimp only [Option.getD]
  by_cases hge : 1 ≥ L.length
  · rw [if_pos hge, if_pos hge]
    rw [show ('<' :: toDec 1 ++ str "> " ++ r : Str) = dline (1, r) from dline_eq 1 r]
  · rw [if_neg hge, if_neg hge]
    rw [show ('<' :: toDec 1 ++ str "> " ++ r : Str) = dline (1, r) from dline_eq 1 r]
end Rag

namespace Rag
theorem p2_defs_tail (rmap : List ((Nat × Nat) × Nat)) (L : List Nat)
    (rests : List Str) (hlen : rests.length = L.length)
    (hrests : ∀ r ∈ rests, ∀ a ∈ r.head?, isPyWS a = false) (bi : Nat)
    (hlkAll : ∀ j, (hj : j < L.length) → rmap.lookup (1, L[j]) = some (j + 1)) :
    ∀ (m k : Nat) (N : List Str), k + m = L.length → 1 ≤ k → k < L.length →
    (((L.drop k).zip (rests.drop k)).map dline).foldl (numPass2Step rmap)
        ⟨N, false, bi, [], 1, L, k⟩ =
      ⟨N ++ (((List.range' (k + 1) (L.length - k)).zip (rests.drop k)).map dline),
        false, bi, [], 0, [], 0⟩ := by
  intro m
  induction m with
  | zero => intro k N hkm _ hk; omega
  | succ m ih =>
    intro k N hkm hk1 hk
    have hkr : k < rests.length := by omega
    rw [List.drop_eq_getElem_cons hk, List.drop_eq_getElem_cons hkr]
    rw [List.zip_cons_cons, List.map_cons, List.foldl_cons]
    rw [p2_def_step rmap L k hk (rests[k]) (hrests _ (List.getElem_mem hkr)) N bi
      (hlkAll k hk)]
    rw [show L.length - k = (L.length - k - 1) + 1 from by omega]
    rw [List.range'_succ]
    rw [List.zip_cons_cons, List.map_cons]
    by_cases hge : k + 1 ≥ L.length
    · rw [if_pos hge]
      have hdropL : L.drop (k + 1) = [] := List.drop_eq_nil_iff.mpr (by omega)
      have hdropR : rests.drop (k + 1) = [] := List.drop_eq_nil_iff.mpr (by omega)
      rw [hdropL, hdropR]
      have hrange : List.range' (k + 1 + 1) (L.length - k - 1) = [] := by
        rw [show L.length - k - 1 = 0 from by omega]
        rfl
      rw [hrange]
      simp
    · rw [if_neg hge]
      rw [ih (k + 1) (N ++ [dline (k + 1, rests[k])]) (by omega) (by omega)
        (by omega)]
      rw [show L.length - (k + 1) = L.length - k - 1 from by omega]
      rw [show k + 1 + 1 = k + 2 from rfl]
      simp [List.append_assoc]
end Rag

namespace Rag
theorem p2_defs (rmap : List ((Nat × Nat) × Nat)) (L : List Nat)
    (rests : List Str) (hLne : L ≠ []) (hlen : rests.length = L.length)
    (hrests : ∀ r ∈ rests, ∀ a ∈ r.head?, isPyWS a = false) (bi : Nat)
    (hlkAll : ∀ j, (hj : j < L.length) → rmap.lookup (1, L[j]) = some (j + 1))
    (N : List Str) :
    ((L.zip rests).map dline).foldl (numPass2Step rmap)
        ⟨N, false, bi, [(1, L)], 0, [], 0⟩ =
      ⟨N ++ (((List.range' 1 L.length).zip rests).map dline),
        false, bi, [], 0, [], 0⟩ := by
  have h0 : 0 < L.length := List.length_pos.mpr hLne
  have h0r : 0 < rests.length := by omega
  have hLc : L = L[0] :: L.drop 1 := by
    conv_lhs => rw [← List.drop_zero L]
    exact List.drop_eq_getElem_cons h0
  have hRc : rests = rests[0] :: rests.drop 1 := by
    conv_lhs => rw [← List.drop_zero rests]
    exact List.drop_eq_getElem_cons h0r
  have hzip : L.zip rests = (L[0], rests[0]) :: ((L.drop 1).zip (rests.drop 1)) := by
    conv_lhs => rw [hLc, hRc]
    rw [List.zip_cons_cons]
  have hzip2 : (List.range' 1 L.length).zip rests =
      (1, rests[0]) :: ((List.range' 2 (L.length - 1)).zip (rests.drop 1)) := by
    conv_lhs =>
      rw [show L.length = (L.length - 1) + 1 from by omega, List.range'_succ, hRc]
    rw [List.zip_cons_cons]
  rw [hzip, List.map_cons, List.foldl_cons]
  have hfirst := p2_def_first rmap L h0 (rests[0])
    (hrests _ (List.getElem_mem h0r)) N bi (hlkAll 0 h0)
  rw [hfirst]
  rw [hzip2, List.map_cons]
  by_cases hge : 1 ≥ L.length
  · rw [if_pos hge]
    have hdropL : L.drop 1 = [] := List.drop_eq_nil_iff.mpr (by omega)
    have hdropR : rests.drop 1 = [] := List.drop_eq_nil_iff.mpr (by omega)
    rw [hdropL, hdropR]
    have hrange : List.range' 2 (L.length - 1) = [] := by
      rw [show L.length - 1 = 0 from by omega]
      rfl
    rw [hrange]
    simp
  · rw [if_neg hge]
    rw [p2_defs_tail rmap L rests hlen hrests bi hlkAll (L.length - 1) 1
      (N ++ [dline (1, rests[0])]) (by omega) (by omega) (by omega)]
    rw [show (1 : Nat) + 1 = 2 from rfl]
    simp [List.append_assoc]
end Rag

namespace Rag
theorem splitNL_free : ∀ (l : Str), '\n' ∉ l → splitNL l = [l] := by
  intro l
  induction l with
  | nil => intro _; rfl
  | cons c r ih =>
    intro h
    have hc : c ≠ '\n' := fun hh => h (hh ▸ List.mem_cons_self _ _)
    simp only [splitNL, if_neg hc]
    rw [ih (fun hh => h (List.mem_cons_of_mem _ hh))]

theorem splitNL_append_nl : ∀ (l rest : Str), '\n' ∉ l →
    splitNL (l ++ '\n' :: rest) = l :: splitNL rest := by
  intro l
  induction l with
  | nil => intro rest _; simp [splitNL]
  | cons c r ih =>
    intro rest h
    have hc : c ≠ '\n' := fun hh => h (hh ▸ List.mem_cons_self _ _)
    simp only [List.cons_append, splitNL, if_neg hc]
    rw [show List.append r ('\n' :: rest) = r ++ '\n' :: rest from rfl]
    rw [ih rest (fun hh => h (List.mem_cons_of_mem _ hh))]

theorem splitNL_joinNL : ∀ (ls : List Str), ls ≠ [] → (∀ l ∈ ls, '\n' ∉ l) →
    splitNL (joinNL ls) = ls := by
  intro ls
  induction ls with
  | nil => intro h; exact absurd rfl h
  | cons l ls ih =>
    intro _ hfree
    cases ls with
    | nil => exact splitNL_free l (hfree l (by simp))
    | cons l2 ls2 =>
      show splitNL (l ++ '\n' :: joinNL (l2 :: ls2)) = l :: l2 :: ls2
      rw [splitNL_append_nl l _ (hfree l (by simp))]
      rw [ih (by simp) (fun x hx => hfree x (List.mem_cons_of_mem _ hx))]

theorem mem_mline : ∀ (ps : List (Str × Nat)) (t : Str) (a : Char),
    a ∈ mline ps t →
    a ∈ t ∨ a = '<' ∨ a = '>' ∨ (∃ q ∈ ps, a ∈ q.1) ∨ (∃ q ∈ ps, a ∈ toDec q.2) := by
  intro ps
  induction ps with
  | nil => intro t a h; exact Or.inl h
  | cons p ps ih =>
    obtain ⟨s, n⟩ := p
    intro t a h
    simp only [mline] at h
    rcases List.mem_append.mp h with h1 | h1
    · exact Or.inr (Or.inr (Or.inr (Or.inl ⟨(s, n), by simp, h1⟩)))
    · rcases List.mem_cons.mp h1 with h2 | h2
      · exact Or.inr (Or.inl h2)
      · rcases List.mem_append.mp h2 with h3 | h3
        · exact Or.inr (Or.inr (Or.inr (Or.inr ⟨(s, n), by simp, h3⟩)))
        · rcases List.mem_cons.mp h3 with h4 | h4
          · exact Or.inr (Or.inr (Or.inl h4))
          · rcases ih t a h4 with h5 | h5 | h5 | ⟨q, hq, hq2⟩ | ⟨q, hq, hq2⟩
            · exact Or.inl h5
            · exact Or.inr (Or.inl h5)
            · exact Or.inr (Or.inr (Or.inl h5))
            · exact Or.inr (Or.inr (Or.inr (Or.inl
                ⟨q, List.mem_cons_of_mem _ hq, hq2⟩)))
            · exact Or.inr (Or.inr (Or.inr (Or.inr
                ⟨q, List.mem_cons_of_mem _ hq, hq2⟩)))

theorem toDec_no_nl (n : Nat) : '\n' ∉ toDec n := by
  intro h
  have := toDec_digits n '\n' h
  exact absurd this (by decide)

theorem mline_no_nl (ps : List (Str × Nat)) (t : Str)
    (ht : '\n' ∉ t) (hseg : ∀ q ∈ ps, '\n' ∉ q.1) : '\n' ∉ mline ps t := by
  intro h
  rcases mem_mline ps t '\n' h with h1 | h1 | h1 | ⟨q, hq, hq2⟩ | ⟨q, hq, hq2⟩
  · exact ht h1
  · exact absurd h1 (by decide)
  · exact absurd h1 (by decide)
  · exact hseg q hq hq2
  · exact toDec_no_nl q.2 hq2

theorem dline_no_nl (q : Nat × Str) (hr : '\n' ∉ q.2) : '\n' ∉ dline q := by
  intro h
  simp only [dline] at h
  rcases List.mem_cons.mp h with h1 | h1
  · exact absurd h1 (by decide)
  · rcases List.mem_append.mp h1 with h2 | h2
    · exact toDec_no_nl q.1 h2
    · rcases List.mem_cons.mp h2 with h3 | h3
      · exact absurd h3 (by decide)
      · rcases List.mem_cons.mp h3 with h4 | h4
        · exact absurd h4 (by decide)
        · exact hr h4

theorem pacn_eval (content : Str) (ls : List Str) (hs : splitNL content = ls)
    (st1 : NumPass1State) (h1 : ls.foldl numPass1Step {} = st1)
    (hne : st1.renumber_map.isEmpty = false)
    (st2 : NumPass2State)
    (h2 : ls.foldl (numPass2Step st1.renumber_map)
      { queue := st1.block_callouts } = st2) :
    (preprocess_adoc_callout_numbering content).1 = joinNL st2.new_lines := by
  unfold preprocess_adoc_callout_numbering
  simp only [hs, h1, hne, h2]
  simp
end Rag

namespace Rag
theorem flat_nums_renamed (Bs : List (List (Str × Nat) × Str)) (f : Nat → Nat)
    (hB : ∀ p ∈ Bs, (∀ q ∈ p.1, '<' ∉ q.1) ∧ '<' ∉ p.2) :
    (Bs.map (fun p => mline (p.1.map (fun q => (q.1, f q.2))) p.2)).flatMap
        calloutNums =
      ((Bs.map (fun p => mline p.1 p.2)).flatMap calloutNums).map f := by
  induction Bs with
  | nil => rfl
  | cons p Bs ih =>
    simp only [List.map_cons, List.flatMap_cons]
    rw [calloutNums_mline _ _ (hB p (by simp)).2 (fun q hq => by
      obtain ⟨q0, hq0, hq0e⟩ := List.mem_map.mp hq
      have h := (hB p (by simp)).1 q0 hq0
      rw [← hq0e]
      exact h)]
    rw [calloutNums_mline _ _ (hB p (by simp)).2 (hB p (by simp)).1]
    rw [ih (fun x hx => hB x (List.mem_cons_of_mem _ hx))]
    rw [List.map_append]
    congr 1
    rw [List.map_map, List.map_map]
    rfl

theorem rn_eq_renIdx (L : List Nat) (hnd : L.Nodup) (n : Nat) :
    (match (L.enum.map (fun p => (((1 : Nat), p.2), p.1 + 1))).lookup
        ((1 : Nat), n) with
      | some k => k
      | none => n) = renIdx L n := by
  rw [show L.enum = List.enumFrom 0 L from rfl]
  rw [rm_lookup L 1 n 0 hnd]
  unfold renIdx
  by_cases hm : n ∈ L
  · rw [if_pos hm, if_pos hm]
    simp
  · rw [if_neg hm, if_neg hm]
end Rag

namespace Rag
theorem c2_fa_eq (Bs : List (List (Str × Nat) × Str)) (L : List Nat)
    (hLfa : fa (Bs.map (fun p => mline p.1 p.2)) [] = L)
    (hB : ∀ p ∈ Bs, (∀ q ∈ p.1, '<' ∉ q.1) ∧ '<' ∉ p.2) :
    fa (Bs.map (fun p => mline (p.1.map (fun q => (q.1, renIdx L q.2))) p.2)) [] =
      List.range' 1 L.length := by
  have hnd : L.Nodup := by
    rw [← hLfa, fa_flat]
    exact faN_nodup _ [] List.nodup_nil
  have hstream : ((Bs.map (fun p => mline p.1 p.2)).flatMap calloutNums).foldl
      (fun acc n => if n ∈ acc then acc else acc ++ [n]) [] = L := by
    rw [← fa_flat, hLfa]
  rw [fa_flat]
  rw [flat_nums_renamed Bs (renIdx L) hB]
  have hinj : ∀ a, (a ∈ (Bs.map (fun p => mline p.1 p.2)).flatMap calloutNums ∨
      a ∈ ([] : List Nat)) →
      ∀ b, (b ∈ (Bs.map (fun p => mline p.1 p.2)).flatMap calloutNums ∨
        b ∈ ([] : List Nat)) → renIdx L a = renIdx L b → a = b := by
    intro a ha b hb heq
    have haL : a ∈ L := by
      rcases ha with h | h
      · rw [← hstream]; exact faN_mem _ [] a h
      · simp at h
    have hbL : b ∈ L := by
      rcases hb with h | h
      · rw [← hstream]; exact faN_mem _ [] b h
      · simp at h
    unfold renIdx at heq
    rw [if_pos haL, if_pos hbL] at heq
    exact indexOf_inj L a b haL hbL (by omega)
  have hmapinj := faN_map_inj (renIdx L)
    ((Bs.map (fun p => mline p.1 p.2)).flatMap calloutNums) [] hinj
  rw [show (([] : List Nat).map (renIdx L)) = [] from rfl] at hmapinj
  rw [hmapinj, hstream]
  rw [List.map_congr_left (fun a ha => by unfold renIdx; rw [if_pos ha])]
  exact map_indexOf_nodup L hnd
end Rag

namespace Rag
theorem c2_content_eq (P S : List Str) (d1 d2 : Str)
    (Bs : List (List (Str × Nat) × Str)) (rests : List Str) (L : List Nat)
    (hLfa : fa (Bs.map (fun p => mline p.1 p.2)) [] = L)
    (hLne : L ≠ [])
    (hlen : rests.length = L.length)
    (hP : ∀ l ∈ P, pyStrip l ≠ str "----" ∧ matchCalloutDef l = none ∧ '\n' ∉ l)
    (hS : ∀ l ∈ S, pyStrip l ≠ str "----" ∧ matchCalloutDef l = none ∧ '\n' ∉ l)
    (hd1 : pyStrip d1 = str "----") (hd1n : '\n' ∉ d1)
    (hd2 : pyStrip d2 = str "----") (hd2n : '\n' ∉ d2)
    (hB : ∀ p ∈ Bs, (∀ q ∈ p.1, '<' ∉ q.1 ∧ '\n' ∉ q.1) ∧ '<' ∉ p.2 ∧ '\n' ∉ p.2 ∧
      pyStrip (mline p.1 p.2) ≠ str "----")
    (hrests : ∀ r ∈ rests, (∀ a ∈ r.head?, isPyWS a = false) ∧ '\n' ∉ r) :
    (preprocess_adoc_callout_numbering
        (joinNL (P ++ [d1] ++ Bs.map (fun p => mline p.1 p.2) ++ [d2] ++
          (L.zip rests).map dline ++ S))).1 =
      joinNL (P ++ [d1] ++
        Bs.map (fun p => mline (p.1.map (fun q => (q.1, renIdx L q.2))) p.2) ++
        [d2] ++ ((List.range' 1 L.length).zip rests).map dline ++ S) := by
  have hnd : L.Nodup := by
    rw [← hLfa, fa_flat]
    exact faN_nodup _ [] List.nodup_nil
  have hBstrip : ∀ l ∈ Bs.map (fun p => mline p.1 p.2), pyStrip l ≠ str "----" := by
    intro l hl
    obtain ⟨p, hp, hpe⟩ := List.mem_map.mp hl
    rw [← hpe]
    exact (hB p hp).2.2.2
  have hBnl : ∀ l ∈ Bs.map (fun p => mline p.1 p.2), '\n' ∉ l := by
    intro l hl
    obtain ⟨p, hp, hpe⟩ := List.mem_map.mp hl
    rw [← hpe]
    exact mline_no_nl p.1 p.2 (hB p hp).2.2.1 (fun q hq => ((hB p hp).1 q hq).2)
  have hDstrip : ∀ l ∈ (L.zip rests).map dline, pyStrip l ≠ str "----" := by
    intro l hl
    obtain ⟨q, hq, hqe⟩ := List.mem_map.mp hl
    rw [← hqe]
    exact strip_lt_ne_dashes _
  have hDnl : ∀ l ∈ (L.zip rests).map dline, '\n' ∉ l := by
    intro l hl
    obtain ⟨q, hq, hqe⟩ := List.mem_map.mp hl
    rw [← hqe]
    exact dline_no_nl q (hrests q.2 (List.of_mem_zip hq).2).2
  have hlinesnl : ∀ l ∈ (P ++ [d1] ++ Bs.map (fun p => mline p.1 p.2) ++ [d2] ++
      (L.zip rests).map dline ++ S), '\n' ∉ l := by
    intro l hl
    rcases List.mem_append.mp hl with h1 | h1
    · rcases List.mem_append.mp h1 with h2 | h2
      · rcases List.mem_append.mp h2 with h3 | h3
        · rcases List.mem_append.mp h3 with h4 | h4
          · rcases List.mem_append.mp h4 with h5 | h5
            · exact (hP l h5).2.2
            · simp at h5; rw [h5]; exact hd1n
          · exact hBnl l h4
        · simp at h3; rw [h3]; exact hd2n
      · exact hDnl l h2
    · exact (hS l h1).2.2
  have hlinesne : (P ++ [d1] ++ Bs.map (fun p => mline p.1 p.2) ++ [d2] ++
      (L.zip rests).map dline ++ S) ≠ [] := by
    simp
  have hsplit : splitNL (joinNL (P ++ [d1] ++ Bs.map (fun p => mline p.1 p.2) ++
      [d2] ++ (L.zip rests).map dline ++ S)) =
      P ++ [d1] ++ Bs.map (fun p => mline p.1 p.2) ++ [d2] ++
        (L.zip rests).map dline ++ S :=
    splitNL_joinNL _ hlinesne hlinesnl
  have hlkAll : ∀ j, (hj : j < L.length) →
      (L.enum.map (fun p => (((1 : Nat), p.2), p.1 + 1))).lookup (1, L[j]) =
        some (j + 1) := by
    intro j hj
    rw [show L.enum = List.enumFrom 0 L from rfl]
    rw [rm_lookup L 1 (L[j]) 0 hnd]
    rw [if_pos (List.getElem_mem hj)]
    rw [nodup_indexOf_getElem L j hj hnd]
    simp
  have e1 : P.foldl numPass1Step ⟨[], [], 0, false, []⟩ = ⟨[], [], 0, false, []⟩ :=
    p1_outside P _ (fun l hl => (hP l hl).1) rfl
  have e2 : numPass1Step ⟨[], [], 0, false, []⟩ d1 = ⟨[], [], 1, true, []⟩ := by
    rw [p1_open d1 _ hd1 rfl]
  have e3 : (Bs.map (fun p => mline p.1 p.2)).foldl numPass1Step
      ⟨[], [], 1, true, []⟩ = ⟨[], [], 1, true, L⟩ := by
    rw [p1_block _ _ hBstrip rfl]
    dsimp only
    rw [hLfa]
  have e4 : numPass1Step ⟨[], [], 1, true, L⟩ d2 =
      ⟨L.enum.map (fun p => (((1 : Nat), p.2), p.1 + 1)), [(1, L)], 1, false, L⟩ := by
    rw [p1_close d2 _ hd2 rfl]
    dsimp only
    rw [show (L.isEmpty : Bool) = false from by
      cases L with
      | nil => exact absurd rfl hLne
      | cons x t => rfl]
    simp
  have e5 : ((L.zip rests).map dline).foldl numPass1Step
      ⟨L.enum.map (fun p => (((1 : Nat), p.2), p.1 + 1)), [(1, L)], 1, false, L⟩ =
      ⟨L.enum.map (fun p => (((1 : Nat), p.2), p.1 + 1)), [(1, L)], 1, false, L⟩ :=
    p1_outside _ _ hDstrip rfl
  have e6 : S.foldl numPass1Step
      ⟨L.enum.map (fun p => (((1 : Nat), p.2), p.1 + 1)), [(1, L)], 1, false, L⟩ =
      ⟨L.enum.map (fun p => (((1 : Nat), p.2), p.1 + 1)), [(1, L)], 1, false, L⟩ :=
    p1_outside S _ (fun l hl => (hS l hl).1) rfl
  have hst1 : (P ++ [d1] ++ Bs.map (fun p => mline p.1 p.2) ++ [d2] ++
      (L.zip rests).map dline ++ S).foldl numPass1Step {} =
      ⟨L.enum.map (fun p => (((1 : Nat), p.2), p.1 + 1)), [(1, L)], 1, false, L⟩ := by
    rw [List.foldl_append, List.foldl_append, List.foldl_append, List.foldl_append,
        List.foldl_append]
    rw [show ({} : NumPass1State) = ⟨[], [], 0, false, []⟩ from rfl]
    rw [e1]
    rw [show List.foldl numPass1Step ⟨[], [], 0, false, []⟩ [d1] =
        numPass1Step ⟨[], [], 0, false, []⟩ d1 from rfl]
    rw [e2, e3]
    rw [show List.foldl numPass1Step ⟨[], [], 1, true, L⟩ [d2] =
        numPass1Step ⟨[], [], 1, true, L⟩ d2 from rfl]
    rw [e4, e5, e6]
  have f1 : P.foldl (numPass2Step (L.enum.map (fun p => (((1 : Nat), p.2), p.1 + 1))))
      ⟨[], false, 0, [(1, L)], 0, [], 0⟩ = ⟨P, false, 0, [(1, L)], 0, [], 0⟩ := by
    rw [p2_outside _ P _ (fun l hl => ⟨(hP l hl).1, (hP l hl).2.1⟩) rfl]
    simp
  have f2 : numPass2Step (L.enum.map (fun p => (((1 : Nat), p.2), p.1 + 1)))
      ⟨P, false, 0, [(1, L)], 0, [], 0⟩ d1 =
      ⟨P ++ [d1], true, 1, [(1, L)], 0, [], 0⟩ := by
    rw [p2_open _ d1 _ hd1 rfl]
  have f3 : (Bs.map (fun p => mline p.1 p.2)).foldl
      (numPass2Step (L.enum.map (fun p => (((1 : Nat), p.2), p.1 + 1))))
      ⟨P ++ [d1], true, 1, [(1, L)], 0, [], 0⟩ =
      ⟨(P ++ [d1]) ++
        Bs.map (fun p => mline (p.1.map (fun q => (q.1, renIdx L q.2))) p.2),
        true, 1, [(1, L)], 0, [], 0⟩ := by
    rw [p2_block _ _ _ hBstrip rfl]
    dsimp only
    rw [List.map_map]
    rw [List.map_congr_left (fun p hp => by
      show rewriteBlockLine
        (fun k => (L.enum.map (fun p => (((1 : Nat), p.2), p.1 + 1))).lookup k) 1
        (mline p.1 p.2) = mline (p.1.map (fun q => (q.1, renIdx L q.2))) p.2
      rw [rewrite_mline _ 1 p.1 p.2 (hB p hp).2.1
        (fun q hq => ((hB p hp).1 q hq).1)]
      refine congrArg (fun z => mline z p.2) ?_
      refine List.map_congr_left ?_
      intro q hq
      exact congrArg (fun v => (q.1, v)) (rn_eq_renIdx L hnd q.2))]
  have f4 : numPass2Step (L.enum.map (fun p => (((1 : Nat), p.2), p.1 + 1)))
      ⟨(P ++ [d1]) ++
        Bs.map (fun p => mline (p.1.map (fun q => (q.1, renIdx L q.2))) p.2),
        true, 1, [(1, L)], 0, [], 0⟩ d2 =
      ⟨((P ++ [d1]) ++
        Bs.map (fun p => mline (p.1.map (fun q => (q.1, renIdx L q.2))) p.2)) ++ [d2],
        false, 1, [(1, L)], 0, [], 0⟩ := by
    rw [p2_close _ d2 _ hd2 rfl]
  have f5 : ((L.zip rests).map dline).foldl
      (numPass2Step (L.enum.map (fun p => (((1 : Nat), p.2), p.1 + 1))))
      ⟨((P ++ [d1]) ++
        Bs.map (fun p => mline (p.1.map (fun q => (q.1, renIdx L q.2))) p.2)) ++ [d2],
        false, 1, [(1, L)], 0, [], 0⟩ =
      ⟨(((P ++ [d1]) ++
        Bs.map (fun p => mline (p.1.map (fun q => (q.1, renIdx L q.2))) p.2)) ++ [d2]) ++
        ((List.range' 1 L.length).zip rests).map dline,
        false, 1, [], 0, [], 0⟩ :=
    p2_defs _ L rests hLne hlen (fun r hr => (hrests r hr).1) 1 hlkAll _
  have f6 : S.foldl (numPass2Step (L.enum.map (fun p => (((1 : Nat), p.2), p.1 + 1))))
      ⟨(((P ++ [d1]) ++
        Bs.map (fun p => mline (p.1.map (fun q => (q.1, renIdx L q.2))) p.2)) ++ [d2]) ++
        ((List.range' 1 L.length).zip rests).map dline,
        false, 1, [], 0, [], 0⟩ =
      ⟨((((P ++ [d1]) ++
        Bs.map (fun p => mline (p.1.map (fun q => (q.1, renIdx L q.2))) p.2)) ++ [d2]) ++
        ((List.range' 1 L.length).zip rests).map dline) ++ S,
        false, 1, [], 0, [], 0⟩ := by
    rw [p2_outside _ S _ (fun l hl => ⟨(hS l hl).1, (hS l hl).2.1⟩) rfl]
  have hst2 : (P ++ [d1] ++ Bs.map (fun p => mline p.1 p.2) ++ [d2] ++
      (L.zip rests).map dline ++ S).foldl
      (numPass2Step (L.enum.map (fun p => (((1 : Nat), p.2), p.1 + 1))))
      ⟨[], false, 0, [(1, L)], 0, [], 0⟩ =
      ⟨((((P ++ [d1]) ++
        Bs.map (fun p => mline (p.1.map (fun q => (q.1, renIdx L q.2))) p.2)) ++ [d2]) ++
        ((List.range' 1 L.length).zip rests).map dline) ++ S,
        false, 1, [], 0, [], 0⟩ := by
    rw [List.foldl_append, List.foldl_append, List.foldl_append, List.foldl_append,
        List.foldl_append]
    rw [f1]
    rw [show List.foldl
        (numPass2Step (L.enum.map (fun p => (((1 : Nat), p.2), p.1 + 1))))
        ⟨P, false, 0, [(1, L)], 0, [], 0⟩ [d1] =
        numPass2Step (L.enum.map (fun p => (((1 : Nat), p.2), p.1 + 1)))
          ⟨P, false, 0, [(1, L)], 0, [], 0⟩ d1 from rfl]
    rw [f2, f3]
    rw [show List.foldl
        (numPass2Step (L.enum.map (fun p => (((1 : Nat), p.2), p.1 + 1))))
        ⟨(P ++ [d1]) ++
          Bs.map (fun p => mline (p.1.map (fun q => (q.1, renIdx L q.2))) p.2),
          true, 1, [(1, L)], 0, [], 0⟩ [d2] =
        numPass2Step (L.enum.map (fun p => (((1 : Nat), p.2), p.1 + 1)))
          ⟨(P ++ [d1]) ++
            Bs.map (fun p => mline (p.1.map (fun q => (q.1, renIdx L q.2))) p.2),
            true, 1, [(1, L)], 0, [], 0⟩ d2 from rfl]
    rw [f4, f5, f6]
  have heval := pacn_eval
    (joinNL (P ++ [d1] ++ Bs.map (fun p => mline p.1 p.2) ++ [d2] ++
      (L.zip rests).map dline ++ S))
    (P ++ [d1] ++ Bs.map (fun p => mline p.1 p.2) ++ [d2] ++
      (L.zip rests).map dline ++ S)
    hsplit
    ⟨L.enum.map (fun p => (((1 : Nat), p.2), p.1 + 1)), [(1, L)], 1, false, L⟩
    hst1
    (by
      dsimp only
      cases hLc : L with
      | nil => exact absurd hLc hLne
      | cons x t => rfl)
    ⟨((((P ++ [d1]) ++
      Bs.map (fun p => mline (p.1.map (fun q => (q.1, renIdx L q.2))) p.2)) ++ [d2]) ++
      ((List.range' 1 L.length).zip rests).map dline) ++ S,
      false, 1, [], 0, [], 0⟩
    hst2
  rw [heval]
end Rag

namespace Rag
/-- C2: for a well-formed two-delimiter `----` listing block whose marker values
appear in first-appearance order `L`, `preprocess_adoc_callout_numbering`
rewrites the in-text markers to `<1>,<2>,...,<n>` in the original relative
order (the rewritten block's first-appearance list is exactly `1..n`), scoped
to the block, and the definition lines positionally matched to the block are
renumbered identically (`<L i> rest_i` becomes `<i+1> rest_i`). -/
theorem c2_renumbering (P S : List Str) (d1 d2 : Str)
    (Bs : List (List (Str × Nat) × Str)) (rests : List Str) (L : List Nat)
    (hLfa : fa (Bs.map (fun p => mline p.1 p.2)) [] = L)
    (hLne : L ≠ [])
    (hlen : rests.length = L.length)
    (hP : ∀ l ∈ P, pyStrip l ≠ str "----" ∧ matchCalloutDef l = none ∧ '\n' ∉ l)
    (hS : ∀ l ∈ S, pyStrip l ≠ str "----" ∧ matchCalloutDef l = none ∧ '\n' ∉ l)
    (hd1 : pyStrip d1 = str "----") (hd1n : '\n' ∉ d1)
    (hd2 : pyStrip d2 = str "----") (hd2n : '\n' ∉ d2)
    (hB : ∀ p ∈ Bs, (∀ q ∈ p.1, '<' ∉ q.1 ∧ '\n' ∉ q.1) ∧ '<' ∉ p.2 ∧ '\n' ∉ p.2 ∧
      pyStrip (mline p.1 p.2) ≠ str "----")
    (hrests : ∀ r ∈ rests, (∀ a ∈ r.head?, isPyWS a = false) ∧ '\n' ∉ r) :
    (preprocess_adoc_callout_numbering
        (joinNL (P ++ [d1] ++ Bs.map (fun p => mline p.1 p.2) ++ [d2] ++
          (L.zip rests).map dline ++ S))).1 =
      joinNL (P ++ [d1] ++
        Bs.map (fun p => mline (p.1.map (fun q => (q.1, renIdx L q.2))) p.2) ++
        [d2] ++ ((List.range' 1 L.length).zip rests).map dline ++ S) ∧
    fa (Bs.map (fun p => mline (p.1.map (fun q => (q.1, renIdx L q.2))) p.2)) [] =
      List.range' 1 L.length :=
  ⟨c2_content_eq P S d1 d2 Bs rests L hLfa hLne hlen hP hS hd1 hd1n hd2 hd2n hB
      hrests,
    c2_fa_eq Bs L hLfa
      (fun p hp => ⟨fun q hq => ((hB p hp).1 q hq).1, (hB p hp).2.1⟩)⟩

/-- Witness for the C2 theorem at the spec's own example: a block containing
`<2>` then `<1>` with definitions `<2> second` / `<1> first` yields block
markers `<1>,<2>` and definitions `<1> second` / `<2> first`. -/
theorem c2_renumbering_witness :
    ([2, 1] : List Nat) ≠ [] ∧
    ((preprocess_adoc_callout_numbering
        (joinNL (([] : List Str) ++ [str "----"] ++
          [([(str "x ", 2), (str " y ", 1)], ([] : Str))].map
            (fun p => mline p.1 p.2) ++ [str "----"] ++
          (([2, 1] : List Nat).zip [str "second", str "first"]).map dline ++
          ([] : List Str)))).1 =
      joinNL (([] : List Str) ++ [str "----"] ++
        [([(str "x ", 2), (str " y ", 1)], ([] : Str))].map
          (fun p => mline (p.1.map (fun q => (q.1, renIdx [2, 1] q.2))) p.2) ++
        [str "----"] ++
        ((List.range' 1 ([2, 1] : List Nat).length).zip
          [str "second", str "first"]).map dline ++ ([] : List Str)) ∧
      fa ([([(str "x ", 2), (str " y ", 1)], ([] : Str))].map
          (fun p => mline (p.1.map (fun q => (q.1, renIdx [2, 1] q.2))) p.2)) [] =
        List.range' 1 ([2, 1] : List Nat).length) :=
  ⟨by decide,
    c2_renumbering [] [] (str "----") (str "----")
      [([(str "x ", 2), (str " y ", 1)], [])] [str "second", str "first"] [2, 1]
      (by decide) (by decide) (by decide) (by decide) (by decide) (by decide)
      (by decide) (by decide) (by decide) (by decide) (by decide)⟩
end Rag

namespace Rag
theorem cells_extract_aux : ∀ (grid : List (List Str)) (n : Nat),
    (∀ row ∈ grid, row ≠ [] ∧ ∀ c ∈ row, GoodContent c) →
    ((List.enumFrom n (grid.map rowLine ++ [str "|==="])).map
      (fun p => extractLineCells p.1 p.2)).flatten = (cellRows n grid).flatten := by
  intro grid
  induction grid with
  | nil =>
    intro n _
    simp [List.enumFrom, extractLine_skip_delim n, cellRows]
  | cons row rest ih =>
    intro n hg
    simp only [List.map_cons, List.cons_append, List.enumFrom_cons, List.map_cons,
      List.flatten_cons, cellRows]
    rw [extractLine_row row n (hg row (by simp)).1 (hg row (by simp)).2]
    rw [ih (n + 1) (fun r hr => hg r (List.mem_cons_of_mem _ hr))]

theorem cells_extract (grid : List (List Str))
    (hg : ∀ row ∈ grid, row ≠ [] ∧ ∀ c ∈ row, GoodContent c) :
    extract_cells_from_lines (str "|===" :: grid.map rowLine ++ [str "|==="]) =
      (cellRows 1 grid).flatten := by
  unfold extract_cells_from_lines
  rw [show (str "|===" :: grid.map rowLine ++ [str "|==="]).enum =
      (0, str "|===") :: List.enumFrom 1 (grid.map rowLine ++ [str "|==="]) from rfl]
  simp only [List.map_cons, List.flatten_cons]
  rw [extractLine_skip_delim 0]
  rw [cells_extract_aux grid 1 hg]
  rfl

theorem getD_append_cons {α : Type} : ∀ (A : List α) (b : α) (B : List α) (d : α),
    (A ++ b :: B).getD A.length d = b := by
  intro A
  induction A with
  | nil => intro b B d; rfl
  | cons a A ih => intro b B d; exact ih b B d

theorem set_append_cons {α : Type} : ∀ (A : List α) (b : α) (B : List α) (v : α),
    (A ++ b :: B).set A.length v = A ++ v :: B := by
  intro A
  induction A with
  | nil => intro b B v; rfl
  | cons a A ih =>
    intro b B v
    show a :: (A ++ b :: B).set A.length v = a :: (A ++ v :: B)
    rw [ih b B v]

theorem advanceCol_here (fuel : Nat) (g : List (List Slot)) (C r j : Nat)
    (h : getSlot g r j = Slot.free) : advanceColAux (fuel + 1) g C r j = j := by
  unfold advanceColAux
  rw [if_neg (fun hc => hc.2 h)]

theorem findPos_here (g : List (List Slot)) (C r j : Nat)
    (hr : r < g.length) (hj : j < C) (h : getSlot g r j = Slot.free) :
    findPos g C r j = (r, j) := by
  unfold findPos
  show findPosAux (g.length + 1) g C r j = (r, j)
  unfold findPosAux
  rw [if_pos hr]
  dsimp only
  rw [advanceCol_here C g C r j h]
  rw [if_pos hj]

theorem stamp_single (g : List (List Slot)) (C id : Nat) (cell : Cell) (r j : Nat)
    (hc : cell.colspan = 1) (hrs : cell.rowspan = 1)
    (hr : r + 1 ≤ g.length) (hj : j + 1 ≤ C) :
    stampCell g C id cell r j = setGrid g r j (Slot.cellAt id cell) := by
  unfold stampCell
  rw [hc, hrs]
  rw [show min (r + 1) g.length = r + 1 from Nat.min_eq_left hr]
  rw [show min (j + 1) C = j + 1 from Nat.min_eq_left hj]
  rw [show r + 1 - r = 1 from by omega, show j + 1 - j = 1 from by omega]
  rw [show List.range' r 1 = [r] from rfl, show List.range' j 1 = [j] from rfl]
  simp only [List.foldl_cons, List.foldl_nil]
  simp
end Rag

namespace Rag
theorem rowStep (C : Nat) : ∀ (cr : List Cell) (flt : List Slot)
    (done FR : List (List Slot)) (E : List (Nat × Cell)) (k : Nat),
    flt.length + cr.length = C →
    cr ≠ [] →
    (∀ cell ∈ cr, cell.colspan = 1 ∧ cell.rowspan = 1) →
    placeCells C (List.enumFrom k cr ++ E)
        (done ++ (flt ++ List.replicate (C - flt.length) Slot.free) :: FR)
        done.length flt.length =
      placeCells C E
        (done ++ (flt ++ (List.enumFrom k cr).map (fun p => Slot.cellAt p.1 p.2)) :: FR)
        (done.length + 1) 0 := by
  intro cr
  induction cr with
  | nil => intro flt done FR E k _ h2; exact absurd rfl h2
  | cons c cr ih =>
    intro flt done FR E k hlen _ hspan
    have hjC : flt.length < C := by
      simp only [List.length_cons] at hlen
      omega
    have hrowget : (done ++ (flt ++ List.replicate (C - flt.length) Slot.free) ::
        FR).getD done.length [] =
        flt ++ List.replicate (C - flt.length) Slot.free := getD_append_cons done _ FR []
    have hslot : getSlot
        (done ++ (flt ++ List.replicate (C - flt.length) Slot.free) :: FR)
        done.length flt.length = Slot.free := by
      unfold getSlot
      rw [hrowget]
      rw [show C - flt.length = (C - flt.length - 1) + 1 from by omega]
      rw [List.replicate_succ]
      exact getD_append_cons flt _ _ _
    have hglen : done.length <
        (done ++ (flt ++ List.replicate (C - flt.length) Slot.free) :: FR).length := by
      rw [List.length_append]
      simp
    have hset : setGrid
        (done ++ (flt ++ List.replicate (C - flt.length) Slot.free) :: FR)
        done.length flt.length (Slot.cellAt k c) =
        done ++ ((flt ++ [Slot.cellAt k c]) ++
          List.replicate (C - flt.length - 1) Slot.free) :: FR := by
      unfold setGrid
      rw [hrowget]
      rw [show C - flt.length = (C - flt.length - 1) + 1 from by omega,
        List.replicate_succ]
      rw [set_append_cons flt _ _ _]
      rw [set_append_cons done _ FR _]
      simp [List.append_assoc]
    rw [List.enumFrom_cons, List.cons_append]
    simp only [placeCells]
    rw [findPos_here _ C done.length flt.length hglen hjC hslot]
    dsimp only
    rw [if_neg (by omega)]
    rw [stamp_single _ C k c done.length flt.length (hspan c (by simp)).1
      (hspan c (by simp)).2 (by omega) (by omega)]
    rw [hset]
    rw [(hspan c (by simp)).1]
    by_cases hge : flt.length + 1 ≥ C
    · rw [if_pos hge]
      have hcr : cr = [] := by
        have : cr.length = 0 := by
          simp only [List.length_cons] at hlen
          omega
        exact List.eq_nil_of_length_eq_zero this
      subst hcr
      rw [show C - flt.length - 1 = 0 from by
        simp only [List.length_cons] at hlen
        omega]
      simp [List.enumFrom]
    · rw [if_neg hge]
      have hcrne : cr ≠ [] := by
        have : 0 < cr.length := by
          simp only [List.length_cons] at hlen
          omega
        exact List.length_pos.mp this
      have hihl : (flt ++ [Slot.cellAt k c]).length + cr.length = C := by
        simp only [List.length_cons] at hlen
        simp
        omega
      have hih := ih (flt ++ [Slot.cellAt k c]) done FR E (k + 1) hihl hcrne
        (fun x hx => hspan x (List.mem_cons_of_mem _ hx))
      rw [show C - flt.length - 1 = C - (flt ++ [Slot.cellAt k c]).length from by
        simp
        omega]
      rw [show flt.length + 1 = (flt ++ [Slot.cellAt k c]).length from by simp]
      rw [hih]
      rw [List.map_cons]
      simp [List.append_assoc]
end Rag

namespace Rag
theorem placeRows (C : Nat) (hC : 0 < C) : ∀ (rows : List (List Cell))
    (done : List (List Slot)) (k pad : Nat),
    (∀ row ∈ rows, row.length = C ∧
      ∀ cell ∈ row, cell.colspan = 1 ∧ cell.rowspan = 1) →
    placeCells C (List.enumFrom k rows.flatten)
        (done ++ List.replicate (rows.length + pad) (List.replicate C Slot.free))
        done.length 0 =
      done ++ withIds k rows ++ List.replicate pad (List.replicate C Slot.free) := by
  intro rows
  induction rows with
  | nil =>
    intro done k pad _
    simp [withIds, placeCells, List.enumFrom]
  | cons row rest ih =>
    intro done k pad hrows
    have hrlen : row.length = C := (hrows row (by simp)).1
    have hrne : row ≠ [] := List.length_pos.mp (by omega)
    rw [show (row :: rest).flatten = row ++ rest.flatten from rfl]
    rw [List.enumFrom_append]
    rw [show (row :: rest).length + pad = (rest.length + pad) + 1 from by
      simp
      omega]
    rw [List.replicate_succ]
    have hrow := rowStep C row [] done
      (List.replicate (rest.length + pad) (List.replicate C Slot.free))
      (List.enumFrom (k + row.length) rest.flatten) k
      (by simp [hrlen]) hrne
      (fun cell hc => (hrows row (by simp)).2 cell hc)
    simp only [List.length_nil, Nat.sub_zero, List.nil_append] at hrow
    rw [hrow]
    have hih := ih (done ++ [(List.enumFrom k row).map (fun p => Slot.cellAt p.1 p.2)])
      (k + row.length) pad (fun r hr => hrows r (List.mem_cons_of_mem _ hr))
    rw [show (done ++
        [(List.enumFrom k row).map (fun p => Slot.cellAt p.1 p.2)]).length =
        done.length + 1 from by simp] at hih
    rw [show (done ++ [(List.enumFrom k row).map (fun p => Slot.cellAt p.1 p.2)]) ++
        List.replicate (rest.length + pad) (List.replicate C Slot.free) =
        done ++ ((List.enumFrom k row).map (fun p => Slot.cellAt p.1 p.2)) ::
          List.replicate (rest.length + pad) (List.replicate C Slot.free) from by
      simp] at hih
    rw [hih]
    rw [show withIds k (row :: rest) =
        ((List.enumFrom k row).map (fun p => Slot.cellAt p.1 p.2)) ::
          withIds (k + row.length) rest from rfl]
    simp [List.append_assoc]
end Rag

namespace Rag
theorem dropWhile_all_false {α : Type} (p : α → Bool) :
    ∀ (l : List α), (∀ x ∈ l, p x = false) → l.dropWhile p = l := by
  intro l
  induction l with
  | nil => intro _; rfl
  | cons x t ih =>
    intro h
    rw [List.dropWhile_cons]
    rw [h x (by simp)]
    simp

theorem trim_fixed (W R : List (List Slot))
    (hW : ∀ r ∈ W, r.all (fun s => decide (s = Slot.free)) = false)
    (hR : ∀ r ∈ R, r.all (fun s => decide (s = Slot.free)) = true) :
    trimTrailing (W ++ R) = W := by
  unfold trimTrailing
  rw [List.reverse_append]
  rw [List.dropWhile_append_of_pos (fun a ha => hR a (List.mem_reverse.mp ha))]
  rw [dropWhile_all_false _ _ (fun a ha => hW a (List.mem_reverse.mp ha))]
  exact List.reverse_reverse W

theorem mem_enumFrom_snd {α : Type} : ∀ (l : List α) (n : Nat) (p : Nat × α),
    p ∈ List.enumFrom n l → p.2 ∈ l := by
  intro l
  induction l with
  | nil => intro n p h; simp [List.enumFrom] at h
  | cons x t ih =>
    intro n p h
    rw [List.enumFrom_cons] at h
    rcases List.mem_cons.mp h with h1 | h1
    · rw [h1]; exact List.mem_cons_self _ _
    · exact List.mem_cons_of_mem _ (ih (n + 1) p h1)

theorem withIds_no_free (rows : List (List Cell)) : ∀ (k : Nat),
    ∀ row ∈ withIds k rows, ∀ s ∈ row, s ≠ Slot.free := by
  induction rows with
  | nil => intro k row hr; simp [withIds] at hr
  | cons r rest ih =>
    intro k row hr s hs
    rw [show withIds k (r :: rest) =
        ((List.enumFrom k r).map (fun p => Slot.cellAt p.1 p.2)) ::
          withIds (k + r.length) rest from rfl] at hr
    rcases List.mem_cons.mp hr with h1 | h1
    · rw [h1] at hs
      obtain ⟨p, _, hpe⟩ := List.mem_map.mp hs
      rw [← hpe]
      intro hcon
      exact Slot.noConfusion hcon
    · exact ih (k + r.length) row h1 s hs

theorem withIds_not_allfree (C : Nat) (hC : 0 < C) (rows : List (List Cell)) :
    ∀ (k : Nat), (∀ row ∈ rows, row.length = C) →
    ∀ r ∈ withIds k rows, r.all (fun s => decide (s = Slot.free)) = false := by
  induction rows with
  | nil => intro k _ r hr; simp [withIds] at hr
  | cons row rest ih =>
    intro k hlen r hr
    rw [show withIds k (row :: rest) =
        ((List.enumFrom k row).map (fun p => Slot.cellAt p.1 p.2)) ::
          withIds (k + row.length) rest from rfl] at hr
    rcases List.mem_cons.mp hr with h1 | h1
    · have hrl : row.length = C := hlen row (by simp)
      obtain ⟨c, t, hct⟩ : ∃ c t, row = c :: t := by
        cases row with
        | nil => simp at hrl; omega
        | cons c t => exact ⟨c, t, rfl⟩
      rw [h1, hct, List.enumFrom_cons, List.map_cons]
      rfl
    · exact ih (k + row.length) (fun x hx => hlen x (List.mem_cons_of_mem _ hx)) r h1

theorem validate_noop (g : List (List Slot)) (b C : Nat)
    (h : ∀ row ∈ g, ∀ s ∈ row, s ≠ Slot.free) :
    validate_and_fix_grid g b C = (g, []) := by
  unfold validate_and_fix_grid
  dsimp only
  refine Prod.ext ?_ ?_
  · show (g.enum.map _).map Prod.fst = g
    rw [List.map_map]
    have : ∀ p ∈ g.enum, (Prod.fst ∘ fun p =>
        ((p.2.enum.map fun q =>
          match q.2 with
          | Slot.free =>
            (Slot.cellAt (b + p.1 * C + q.1) { content := [] },
             [str "Row " ++ toDec (p.1 + 1) ++
              str ": Added empty cell at column " ++ toDec (q.1 + 1)])
          | s => (s, ([] : List Str))).map Prod.fst,
         ((p.2.enum.map fun q =>
          match q.2 with
          | Slot.free =>
            (Slot.cellAt (b + p.1 * C + q.1) { content := [] },
             [str "Row " ++ toDec (p.1 + 1) ++
              str ": Added empty cell at column " ++ toDec (q.1 + 1)])
          | s => (s, ([] : List Str))).map Prod.snd).flatten)) p = p.2 := by
      intro p hp
      show ((p.2.enum.map _).map Prod.fst) = p.2
      rw [List.map_map]
      have h2 : ∀ q ∈ p.2.enum, (Prod.fst ∘ fun q =>
          match q.2 with
          | Slot.free =>
            (Slot.cellAt (b + p.1 * C + q.1) { content := [] },
             [str "Row " ++ toDec (p.1 + 1) ++
              str ": Added empty cell at column " ++ toDec (q.1 + 1)])
          | s => (s, ([] : List Str))) q = q.2 := by
        intro q hq
        have hqf : q.2 ≠ Slot.free :=
          h p.2 (mem_enumFrom_snd g 0 p hp) q.2 (mem_enumFrom_snd p.2 0 q hq)
        cases hq2 : q.2 with
        | free => exact absurd hq2 hqf
        | cellAt i c => simp [hq2]
        | spanOf i c => simp [hq2]
      rw [List.map_congr_left h2]
      exact List.enumFrom_map_snd 0 p.2
    rw [List.map_congr_left this]
    exact List.enumFrom_map_snd 0 g
  · show ((g.enum.map _).map Prod.snd).flatten = []
    rw [List.map_map]
    rw [List.flatten_eq_nil_iff]
    intro x hx
    obtain ⟨p, hp, hpe⟩ := List.mem_map.mp hx
    rw [← hpe]
    show ((p.2.enum.map _).map Prod.snd).flatten = []
    rw [List.map_map]
    rw [List.flatten_eq_nil_iff]
    intro y hy
    obtain ⟨q, hq, hqe⟩ := List.mem_map.mp hy
    rw [← hqe]
    have hqf : q.2 ≠ Slot.free :=
      h p.2 (mem_enumFrom_snd g 0 p hp) q.2 (mem_enumFrom_snd p.2 0 q hq)
    cases hq2 : q.2 with
    | free => exact absurd hq2 hqf
    | cellAt i c => simp [hq2]
    | spanOf i c => simp [hq2]
end Rag

namespace Rag
theorem cellSpec_plain_ln (a : Char) (t : Str) (n : Nat) :
    cellSpec { content := a :: t, colspan := 1, rowspan := 1, format_spec := [], source_line := n } = '|' :: a :: t := rfl

theorem filterMap_cellAt : ∀ (l : List (Nat × Cell)),
    ((l.map (fun p => Slot.cellAt p.1 p.2)).filterMap
      (fun s => match s with
        | Slot.spanOf _ _ => none
        | Slot.free => some (['|'] : Str)
        | Slot.cellAt _ c => some (cellSpec c))) =
      l.map (fun p => cellSpec p.2) := by
  intro l
  induction l with
  | nil => rfl
  | cons p l ih =>
    simp only [List.map_cons, List.filterMap_cons]
    rw [ih]

theorem recon_withIds : ∀ (rows : List (List Cell)) (k : Nat),
    (∀ row ∈ rows, row ≠ []) →
    reconstruct_table (withIds k rows) =
      str "|===" :: rows.map (fun row => joinSep [' '] (row.map cellSpec)) ++
        [str "|==="] := by
  have hbody : ∀ (rows : List (List Cell)) (k : Nat), (∀ row ∈ rows, row ≠ []) →
      (withIds k rows).filterMap (fun row =>
        let parts := row.filterMap fun s =>
          match s with
          | Slot.spanOf _ _ => none
          | Slot.free => some (['|'] : Str)
          | Slot.cellAt _ c => some (cellSpec c)
        if parts.isEmpty then none else some (joinSep [' '] parts)) =
      rows.map (fun row => joinSep [' '] (row.map cellSpec)) := by
    intro rows
    induction rows with
    | nil => intro k _; rfl
    | cons row rest ih =>
      intro k hne
      rw [show withIds k (row :: rest) =
          ((List.enumFrom k row).map (fun p => Slot.cellAt p.1 p.2)) ::
            withIds (k + row.length) rest from rfl]
      rw [List.filterMap_cons]
      dsimp only
      rw [filterMap_cellAt]
      rw [show (List.enumFrom k row).map (fun p => cellSpec p.2) =
          row.map cellSpec from by
        rw [show (fun p : Nat × Cell => cellSpec p.2) =
            (cellSpec ∘ Prod.snd) from rfl]
        rw [← List.map_map]
        rw [List.enumFrom_map_snd]]
      rw [if_neg (by
        intro hcon
        have : row.map cellSpec = [] := by
          cases hmap : row.map cellSpec with
          | nil => rfl
          | cons a b => rw [hmap] at hcon; simp at hcon
        exact hne row (by simp) (List.map_eq_nil_iff.mp this))]
      rw [ih (k + row.length) (fun x hx => hne x (List.mem_cons_of_mem _ hx))]
      rfl
  intro rows k hne
  unfold reconstruct_table
  rw [hbody rows k hne]
  rfl

theorem cellRows_length : ∀ (grid : List (List Str)) (n : Nat),
    (cellRows n grid).length = grid.length := by
  intro grid
  induction grid with
  | nil => intro n; rfl
  | cons row rest ih =>
    intro n
    simp only [cellRows, List.length_cons]
    rw [ih (n + 1)]

theorem cellRows_mem : ∀ (grid : List (List Str)) (n : Nat) (row : List Cell),
    row ∈ cellRows n grid →
    ∃ (m : Nat) (srow : List Str), srow ∈ grid ∧
      row = srow.map (fun c => ({ content := c, colspan := 1, rowspan := 1, format_spec := [], source_line := m } : Cell)) := by
  intro grid
  induction grid with
  | nil => intro n row h; simp [cellRows] at h
  | cons srow rest ih =>
    intro n row h
    simp only [cellRows] at h
    rcases List.mem_cons.mp h with h1 | h1
    · exact ⟨n, srow, by simp, h1⟩
    · obtain ⟨m, s2, hs2, he⟩ := ih (n + 1) row h1
      exact ⟨m, s2, List.mem_cons_of_mem _ hs2, he⟩

theorem rows_le_flatten {α : Type} : ∀ (rows : List (List α)),
    (∀ r ∈ rows, r ≠ []) → rows.length ≤ rows.flatten.length := by
  intro rows
  induction rows with
  | nil => intro _; simp
  | cons r rest ih =>
    intro h
    simp only [List.length_cons, List.flatten_cons, List.length_append]
    have h1 : 1 ≤ r.length := by
      have := h r (by simp)
      cases r with
      | nil => exact absurd rfl this
      | cons a b => simp
    have h2 := ih (fun x hx => h x (List.mem_cons_of_mem _ hx))
    omega

theorem build_full (C : Nat) (hC : 0 < C) (rows : List (List Cell))
    (hrows : ∀ row ∈ rows, row.length = C ∧
      ∀ cell ∈ row, cell.colspan = 1 ∧ cell.rowspan = 1) :
    build_grid rows.flatten C = withIds 0 rows := by
  have hne : ∀ row ∈ rows, row ≠ [] := fun row hr =>
    List.length_pos.mp (by rw [(hrows row hr).1]; omega)
  have hle : rows.length ≤ rows.flatten.length := rows_le_flatten rows hne
  have hplace := placeRows C hC rows [] 0
    (rows.flatten.length + 10 - rows.length) hrows
  simp only [List.nil_append, List.length_nil] at hplace
  unfold build_grid
  dsimp only
  rw [show rows.flatten.length + 10 =
      rows.length + (rows.flatten.length + 10 - rows.length) from by omega]
  rw [show (rows.flatten.enum : List (Nat × Cell)) =
      List.enumFrom 0 rows.flatten from rfl]
  rw [hplace]
  exact trim_fixed _ _
    (withIds_not_allfree C hC rows 0 (fun r hr => (hrows r hr).1))
    (fun r hr => by
      rw [List.eq_of_mem_replicate hr]
      simp)
end Rag

namespace Rag
theorem cellRows_spec : ∀ (grid : List (List Str)) (n : Nat),
    (∀ row ∈ grid, ∀ c ∈ row, c ≠ []) →
    (cellRows n grid).map (fun row => joinSep [' '] (row.map cellSpec)) =
      grid.map rowLine := by
  intro grid
  induction grid with
  | nil => intro n _; rfl
  | cons row rest ih =>
    intro n hG
    simp only [cellRows, List.map_cons]
    rw [ih (n + 1) (fun r hr => hG r (List.mem_cons_of_mem _ hr))]
    congr 1
    rw [List.map_map]
    unfold rowLine
    congr 1
    refine List.map_congr_left ?_
    intro c hc
    obtain ⟨a, t, rfl⟩ : ∃ a t, c = a :: t := by
      cases c with
      | nil => exact absurd rfl (hG row (by simp) [] hc)
      | cons a t => exact ⟨a, t, rfl⟩
    exact cellSpec_plain_ln a t n

theorem cellRows_props (C : Nat) (grid : List (List Str))
    (hlen : ∀ row ∈ grid, row.length = C) (n : Nat) :
    ∀ row ∈ cellRows n grid, row.length = C ∧
      ∀ cell ∈ row, cell.colspan = 1 ∧ cell.rowspan = 1 := by
  intro row hr
  obtain ⟨m, srow, hs, rfl⟩ := cellRows_mem grid n row hr
  constructor
  · rw [List.length_map]; exact hlen srow hs
  · intro cell hc
    obtain ⟨c, _, hce⟩ := List.mem_map.mp hc
    rw [← hce]
    exact ⟨rfl, rfl⟩

theorem c3_complete_table (C : Nat) (hC : 0 < C) (grid : List (List Str))
    (hgne : grid ≠ [])
    (hlen : ∀ row ∈ grid, row.length = C)
    (hG : ∀ row ∈ grid, ∀ c ∈ row, GoodContent c) :
    parse_and_fix_table C (str "|===" :: grid.map rowLine ++ [str "|==="]) =
      (str "|===" :: grid.map rowLine ++ [str "|==="], []) := by
  have hrne : ∀ row ∈ grid, row ≠ [] := fun row hr =>
    List.length_pos.mp (by rw [hlen row hr]; omega)
  have hcne : ((cellRows 1 grid).flatten).isEmpty = false := by
    cases grid with
    | nil => exact absurd rfl hgne
    | cons g0 grest =>
      have hg0 : g0 ≠ [] := hrne g0 (by simp)
      cases g0 with
      | nil => exact absurd rfl hg0
      | cons c t => rfl
  unfold parse_and_fix_table
  rw [cells_extract grid (fun row hr => ⟨hrne row hr, hG row hr⟩)]
  rw [if_neg (by rw [hcne]; simp)]
  dsimp only
  rw [build_full C hC (cellRows 1 grid) (cellRows_props C grid hlen 1)]
  rw [validate_noop _ _ _ (withIds_no_free (cellRows 1 grid) 0)]
  dsimp only
  rw [recon_withIds (cellRows 1 grid) 0 (fun row hr => by
    obtain ⟨m, srow, hs, rfl⟩ := cellRows_mem grid 1 row hr
    intro hcon
    exact hrne srow hs (List.map_eq_nil_iff.mp hcon))]
  rw [cellRows_spec grid 1 (fun row hr c hc => (hG row hr c hc).1)]
end Rag

namespace Rag
/-- C3 amended: on a complete table — every row serializing exactly
`expected_cols` spanless cells whose contents are nonempty, free of
leading/trailing whitespace, contain neither `|` nor `+` and are not the
delimiter text — `parse_and_fix_table` returns the very same lines with an
empty fix list, so a second run on the lines it produced again yields exactly
those lines and no fixes.  Outside this class idempotence genuinely fails, in
both ways exhibited by the counterexample. -/
theorem c3_amended (C : Nat) (hC : 0 < C) (grid : List (List Str))
    (hgne : grid ≠ [])
    (hlen : ∀ row ∈ grid, row.length = C)
    (hG : ∀ row ∈ grid, ∀ c ∈ row, GoodContent c) :
    parse_and_fix_table C (str "|===" :: grid.map rowLine ++ [str "|==="]) =
      (str "|===" :: grid.map rowLine ++ [str "|==="], []) ∧
    parse_and_fix_table C
        (parse_and_fix_table C
          (str "|===" :: grid.map rowLine ++ [str "|==="])).1 =
      ((parse_and_fix_table C
          (str "|===" :: grid.map rowLine ++ [str "|==="])).1, []) := by
  have hmain := c3_complete_table C hC grid hgne hlen hG
  refine ⟨hmain, ?_⟩
  rw [hmain]
  exact hmain

/-- Witness for the amended C3 theorem at the complete 2x2 table
`[[a, b], [c, d]]`. -/
theorem c3_amended_witness :
    (0 < 2 ∧ ([[str "a", str "b"], [str "c", str "d"]] : List (List Str)) ≠ [] ∧
      (∀ row ∈ ([[str "a", str "b"], [str "c", str "d"]] : List (List Str)),
        row.length = 2) ∧
      (∀ row ∈ ([[str "a", str "b"], [str "c", str "d"]] : List (List Str)),
        ∀ c ∈ row, GoodContent c)) ∧
    (parse_and_fix_table 2 (str "|===" ::
        ([[str "a", str "b"], [str "c", str "d"]] : List (List Str)).map rowLine ++
        [str "|==="]) =
      (str "|===" ::
        ([[str "a", str "b"], [str "c", str "d"]] : List (List Str)).map rowLine ++
        [str "|==="], []) ∧
      parse_and_fix_table 2
          (parse_and_fix_table 2 (str "|===" ::
            ([[str "a", str "b"], [str "c", str "d"]] :
              List (List Str)).map rowLine ++ [str "|==="])).1 =
        ((parse_and_fix_table 2 (str "|===" ::
            ([[str "a", str "b"], [str "c", str "d"]] :
              List (List Str)).map rowLine ++ [str "|==="])).1, [])) :=
  ⟨⟨by decide, by decide, by decide, by decide⟩,
    c3_amended 2 (by decide) [[str "a", str "b"], [str "c", str "d"]]
      (by decide) (by decide) (by decide)⟩
end Rag
